import Mathlib

/-!
# vArmor: policy reconciliation and status pipeline

A shallow embedding of the policy controller (`internal/policy`), the profile
generator (`internal/profile`, `internal/profile/apparmor`), the behavior-model
merge (`internal/status/common`), the status manager (`internal/status/api/v1`),
the policy cacher (`internal/policycacher`) and the trace preprocessor
(`internal/behavior/preprocessor`), followed by the properties established about
them.

Conventions of the embedding:
* Go slices are lists (a nil slice and an empty slice are both `[]`);
* Go pointers that may be nil are `Option`s;
* Go maps with string keys are lists of (key, value) pairs, and Go sets of
  numbers are lists of their members;
* objects mutated in place are passed in and returned;
* calls to the cluster API are taken to succeed, so that a status write is the
  object it writes, unless their answer is a parameter; the wall clock is a
  parameter;
* a handler of a channel or of an informer event is a function from the state
  before the event to the state after it; a run-time panic is a result of its
  own;
* a buffered channel is the list of the keys that wait in it; a send appends a
  key, and blocks when the channel holds as many keys as its capacity.
-/

namespace VArmor

/-! ## Strings -/

/-- Lexicographic comparison of two lists under a comparison of their elements. -/
def lexLe {α : Type} (le : α → α → Bool) : List α → List α → Bool
  | [], _ => true
  | _ :: _, [] => false
  | a :: as, b :: bs => if le a b then (if le b a then lexLe le as bs else true) else false

/-- Comparison of natural numbers as a boolean. -/
def natLe (a b : Nat) : Bool := decide (a ≤ b)

/-- Go's `a <= b` on strings. Go compares the UTF-8 bytes; the order of the code
points, compared here, is the same order. -/
def strLe (a b : String) : Bool := lexLe natLe (a.data.map Char.toNat) (b.data.map Char.toNat)

/-- Insertion sort under a boolean comparison. -/
def sortBy {α : Type} (le : α → α → Bool) (l : List α) : List α :=
  List.insertionSort (fun a b => le a b = true) l

/-- Go's `sort.Strings`: the strings in increasing order. -/
def sortStrings (l : List String) : List String := sortBy strLe l

/-- Go's `strings.Join`. -/
def Join (l : List String) (sep : String) : String := String.intercalate sep l

/-- Go's `strings.ToLower` on ASCII strings (the names of Kubernetes objects and
namespaces are ASCII). -/
def ToLower (s : String) : String := String.mk (s.data.map Char.toLower)

/-- Go's `len` of a string: its length in bytes. -/
def len (s : String) : Nat := s.utf8ByteSize

/-! ## Constants of the API package

The package `apis/varmor/v1beta1` and `internal/types` are not among the sources;
the values of their string constants are the names the specification uses. -/

/-- Modelled from the spec: the policy mode `AlwaysAllow` of `internal/types`. -/
def AlwaysAllowMode : String := "AlwaysAllow"
/-- Modelled from the spec: the policy mode `RuntimeDefault` of `internal/types`. -/
def RuntimeDefaultMode : String := "RuntimeDefault"
/-- Modelled from the spec: the policy mode `EnhanceProtect` of `internal/types`. -/
def EnhanceProtectMode : String := "EnhanceProtect"
/-- Modelled from the spec: the policy mode `BehaviorModeling` of `internal/types`. -/
def BehaviorModelingMode : String := "BehaviorModeling"
/-- Modelled from the spec: the policy mode `DefenseInDepth` of `internal/types`. -/
def DefenseInDepthMode : String := "DefenseInDepth"

/-- Modelled from the spec: the phase `Pending` of the API package. -/
def VarmorPolicyPending : String := "Pending"
/-- Modelled from the spec: the phase `Protecting` of the API package. -/
def VarmorPolicyProtecting : String := "Protecting"
/-- Modelled from the spec: the phase `Modeling` of the API package. -/
def VarmorPolicyModeling : String := "Modeling"
/-- Modelled from the spec: the phase `Completed` of the API package. -/
def VarmorPolicyCompleted : String := "Completed"
/-- Modelled from the spec: the phase `Error` of the API package. -/
def VarmorPolicyError : String := "Error"
/-- Modelled from the spec: the phase `Unchanged` of the API package, the value
that asks a status update to keep the phase. -/
def VarmorPolicyUnchanged : String := "Unchanged"

/-- Modelled from the spec: the condition type `Created` of the API package. -/
def VarmorPolicyCreated : String := "Created"
/-- Modelled from the spec: the condition type `Updated` of the API package. -/
def VarmorPolicyUpdated : String := "Updated"
/-- Modelled from the spec: the condition type `Ready` of the API package. -/
def VarmorPolicyReady : String := "Ready"

/-- The condition status `False` of `k8s.io/api/core/v1`. -/
def ConditionFalse : String := "False"
/-- The condition status `True` of `k8s.io/api/core/v1`. -/
def ConditionTrue : String := "True"

/-- The declarations of `internal/types` that the enforcer checks use and that
are not among the sources: the three enforcer bit masks and the function that
reads an enforcer string as a bitset. They are parameters of the embedding. -/
structure EnforcerTypes where
  AppArmor : Nat
  BPF : Nat
  Seccomp : Nat
  GetEnforcerType : String → Nat

/-- Modelled from the spec: the enforcer is a string bitset over AppArmor, BPF and
Seccomp. The masks are three distinct bits and a string names the enforcers it
activates, in that order; any other string has no bit of the three. -/
def specEnforcerTypes : EnforcerTypes where
  AppArmor := 1
  BPF := 2
  Seccomp := 4
  GetEnforcerType := fun s =>
    if s = "AppArmor" then 1
    else if s = "BPF" then 2
    else if s = "Seccomp" then 4
    else if s = "AppArmorBPF" then 3
    else if s = "AppArmorSeccomp" then 5
    else if s = "BPFSeccomp" then 6
    else if s = "AppArmorBPFSeccomp" then 7
    else 8

/-! ## Policy objects -/

/-- The target of a policy (`varmor.Target`), compared with `reflect.DeepEqual`. -/
structure Target where
  Kind : String
  Name : String
  Containers : List String
  Selector : Option (List (String × String))
deriving DecidableEq, Repr

/-- The rules of the EnhanceProtect mode; their content plays no part here. -/
structure EnhanceProtect where
  Rules : List String
deriving DecidableEq, Repr

/-- The options of the BehaviorModeling mode: the duration in minutes. -/
structure ModelingOptions where
  Duration : Int
deriving DecidableEq, Repr

/-- The policy of a policy object (`varmor.Policy`). -/
structure Policy where
  Enforcer : String
  Mode : String
  EnhanceProtect : Option EnhanceProtect
  ModelingOptions : Option ModelingOptions
  Privileged : Bool
deriving DecidableEq, Repr

/-- A condition of a policy status (`varmor.VarmorPolicyCondition`). -/
structure VarmorPolicyCondition where
  CondType : String
  Status : String
  LastTransitionTime : Int
  Reason : String
  Message : String
deriving DecidableEq, Repr

/-- The status of a policy object. -/
structure VarmorPolicyStatus where
  ProfileName : String
  Ready : Bool
  Phase : String
  Conditions : List VarmorPolicyCondition
deriving DecidableEq, Repr

/-- The spec of a cluster policy. -/
structure VarmorClusterPolicySpec where
  Target : Target
  Policy : Policy
  UpdateExistingWorkloads : Bool
deriving DecidableEq, Repr

/-- A cluster-scoped policy object. -/
structure VarmorClusterPolicy where
  Name : String
  Spec : VarmorClusterPolicySpec
  Status : VarmorPolicyStatus
deriving DecidableEq, Repr

/-- The part of an existing ArmorProfile that `ignoreUpdate` reads. -/
structure OldArmorProfile where
  Target : Target
  Enforcer : String
deriving DecidableEq, Repr

/-- The part of the controller that the admissibility checks read. -/
structure ClusterPolicyController where
  enableBehaviorModeling : Bool
deriving DecidableEq, Repr

/-! ## Status update of a cluster policy (`internal/status/common`) -/

/-- The loop of `UpdateVarmorClusterPolicyStatus` over the conditions: the first
condition of the type of `condition` is overwritten; the flag is `exist`. -/
def overwriteCondition (condition : VarmorPolicyCondition) :
    List VarmorPolicyCondition → List VarmorPolicyCondition × Bool
  | [] => ([], false)
  | c :: cs =>
    if c.CondType = condition.CondType then (condition :: cs, true)
    else ((c :: (overwriteCondition condition cs).1), (overwriteCondition condition cs).2)

/-- The `switch condition.Type` of `UpdateVarmorClusterPolicyStatus` followed by
the append when no condition of that type existed. -/
def updateConditions (conds : List VarmorPolicyCondition) (condition : VarmorPolicyCondition) :
    List VarmorPolicyCondition :=
  let r : List VarmorPolicyCondition × Bool :=
    if condition.CondType = VarmorPolicyCreated ∨ condition.CondType = VarmorPolicyUpdated
        ∨ condition.CondType = VarmorPolicyReady then
      overwriteCondition condition conds
    else (conds, false)
  if r.2 then r.1 else r.1 ++ [condition]

/-- The function `UpdateVarmorClusterPolicyStatus`: the policy object whose status
it writes. `now` is the value of `metav1.Now()`. -/
def UpdateVarmorClusterPolicyStatus (vcp : VarmorClusterPolicy) (profileName : String)
    (ready : Bool) (phase condType status reason message : String) (now : Int) :
    VarmorClusterPolicy :=
  let condition : VarmorPolicyCondition :=
    { CondType := condType, Status := status, LastTransitionTime := now,
      Reason := reason, Message := message }
  { vcp with
    Status :=
      { Conditions := updateConditions vcp.Status.Conditions condition
        ProfileName := if profileName ≠ "" then profileName else vcp.Status.ProfileName
        Ready := ready
        Phase := if phase ≠ VarmorPolicyUnchanged then phase else vcp.Status.Phase } }

/-! ## Profile names (`internal/profile`) -/

/-- The function `GenerateArmorProfileName`; `managerNamespace` is the package
variable `varmorconfig.Namespace`. -/
def GenerateArmorProfileName (managerNamespace : String) (ns name : String)
    (clusterScope : Bool) : String :=
  let profileName :=
    if clusterScope then "varmor-cluster-" ++ managerNamespace ++ "-" ++ name
    else "varmor-" ++ ns ++ "-" ++ name
  ToLower profileName

/-- The constant `ClusterProfileNameTemplate`. -/
def ClusterProfileNameTemplate : String := "varmor-cluster-%s-%s"

/-- The lowercased form of a string, written from the words of the specification
and not from the code: each of the letters `A` to `Z` (code points 65 to 90) is
replaced by the letter 32 code points above it, and every other character is
kept. -/
def specLowercased (s : String) : String :=
  String.mk (s.data.map (fun c =>
    if 65 ≤ c.toNat ∧ c.toNat ≤ 90 then Char.ofNat (c.toNat + 32) else c))

/-! ## Admissibility checks of the cluster policy controller (`internal/policy`) -/

/-- The method `ignoreAdd`: the flag `ignore` and the policy object after the
status update that a rejection makes. -/
def ignoreAdd (c : ClusterPolicyController) (managerNamespace : String)
    (vcp : VarmorClusterPolicy) (now : Int) : Bool × VarmorClusterPolicy :=
  if vcp.Spec.Target.Kind ≠ "Deployment" ∧ vcp.Spec.Target.Kind ≠ "StatefulSet"
      ∧ vcp.Spec.Target.Kind ≠ "DaemonSet" ∧ vcp.Spec.Target.Kind ≠ "Pod" then
    (true, UpdateVarmorClusterPolicyStatus vcp "" false VarmorPolicyError VarmorPolicyCreated
      ConditionFalse "Forbidden" "The target kind is not supported." now)
  else if vcp.Spec.Target.Name = "" ∧ vcp.Spec.Target.Selector = none then
    (true, UpdateVarmorClusterPolicyStatus vcp "" false VarmorPolicyError VarmorPolicyCreated
      ConditionFalse "Forbidden"
      "You should specify the target workload either by name or selector." now)
  else if vcp.Spec.Target.Name ≠ "" ∧ vcp.Spec.Target.Selector ≠ none then
    (true, UpdateVarmorClusterPolicyStatus vcp "" false VarmorPolicyError VarmorPolicyCreated
      ConditionFalse "Forbidden"
      "You shouldn't specify the target workload using both name and selector." now)
  else if vcp.Spec.Policy.Mode = EnhanceProtectMode ∧ vcp.Spec.Policy.EnhanceProtect = none then
    (true, UpdateVarmorClusterPolicyStatus vcp "" false VarmorPolicyError VarmorPolicyCreated
      ConditionFalse "Forbidden"
      "The enhanceProtect field should be set when the policy runs in the EnhanceProtect mode."
      now)
  else if c.enableBehaviorModeling = false ∧ vcp.Spec.Policy.Mode = BehaviorModelingMode then
    (true, UpdateVarmorClusterPolicyStatus vcp "" false VarmorPolicyError VarmorPolicyCreated
      ConditionFalse "Forbidden" "The BehaviorModeling feature is not enabled." now)
  else if c.enableBehaviorModeling = true ∧ vcp.Spec.Policy.Mode = BehaviorModelingMode
      ∧ vcp.Spec.Policy.ModelingOptions = none then
    (true, UpdateVarmorClusterPolicyStatus vcp "" false VarmorPolicyError VarmorPolicyCreated
      ConditionFalse "Forbidden"
      "The modelingOptions field should be set when the policy runs in the BehaviorModeling mode."
      now)
  else if len (GenerateArmorProfileName managerNamespace managerNamespace vcp.Name true) > 63 then
    (true, UpdateVarmorClusterPolicyStatus vcp "" false VarmorPolicyError VarmorPolicyCreated
      ConditionFalse "Forbidden"
      ("The length of policy object name is too long, please limit it to "
        ++ toString ((63 : Int) - len ClusterProfileNameTemplate + 4 - len managerNamespace)
        ++ " bytes.") now)
  else (false, vcp)

/-- The enforcer check of `ignoreUpdate` (and of the policy cacher): true when the
update is refused, `(new & old != old) && (new | BPF != old)`. -/
def removesActivatedEnforcer (bpf newEnforcers oldEnforcers : Nat) : Bool :=
  (newEnforcers &&& oldEnforcers != oldEnforcers) && (newEnforcers ||| bpf != oldEnforcers)

/-- The method `ignoreUpdate`: the flag `ignore` and the policy object after the
status update that a rejection makes. -/
def ignoreUpdate (_c : ClusterPolicyController) (t : EnforcerTypes)
    (newVcp : VarmorClusterPolicy) (oldAp : OldArmorProfile) (now : Int) :
    Bool × VarmorClusterPolicy :=
  let newEnforcers := t.GetEnforcerType newVcp.Spec.Policy.Enforcer
  let oldEnforcers := t.GetEnforcerType oldAp.Enforcer
  if newVcp.Spec.Target ≠ oldAp.Target then
    (true, UpdateVarmorClusterPolicyStatus newVcp "" false VarmorPolicyUnchanged
      VarmorPolicyUpdated ConditionFalse "Forbidden"
      "Modifying the target field of a policy is not allowed. You need to recreate the policy object."
      now)
  else if newVcp.Spec.Policy.Mode ≠ BehaviorModelingMode
      ∧ newVcp.Status.Phase = VarmorPolicyModeling then
    (true, UpdateVarmorClusterPolicyStatus newVcp "" false VarmorPolicyUnchanged
      VarmorPolicyUpdated ConditionFalse "Forbidden"
      "Switching the mode of a policy from BehaviorModeling to others is not allowed when behavior modeling is still incomplete."
      now)
  else if newVcp.Spec.Policy.Mode = BehaviorModelingMode
      ∧ newVcp.Status.Phase = VarmorPolicyModeling ∧ newEnforcers ≠ oldEnforcers then
    (true, UpdateVarmorClusterPolicyStatus newVcp "" false VarmorPolicyUnchanged
      VarmorPolicyUpdated ConditionFalse "Forbidden"
      "Modifying the enforcer field of a policy is not allowed when behavior modeling is still incomplete."
      now)
  else if removesActivatedEnforcer t.BPF newEnforcers oldEnforcers = true then
    (true, UpdateVarmorClusterPolicyStatus newVcp "" false VarmorPolicyUnchanged
      VarmorPolicyUpdated ConditionFalse "Forbidden"
      "Modifying a policy to remove the AppArmor or Seccomp enforcer is not allowed. To remove them, you need to recreate the policy object."
      now)
  else if newVcp.Spec.Policy.Mode = EnhanceProtectMode
      ∧ newVcp.Spec.Policy.EnhanceProtect = none then
    (true, UpdateVarmorClusterPolicyStatus newVcp "" false VarmorPolicyError
      VarmorPolicyUpdated ConditionFalse "Forbidden"
      "The enhanceProtect field should be set when the policy runs in the EnhanceProtect mode."
      now)
  else if newVcp.Spec.Policy.Mode = BehaviorModelingMode
      ∧ newVcp.Spec.Policy.ModelingOptions = none then
    (true, UpdateVarmorClusterPolicyStatus newVcp "" false VarmorPolicyError
      VarmorPolicyUpdated ConditionFalse "Forbidden"
      "The modelingOptions field should be set when the policy runs in the BehaviorModeling mode."
      now)
  else (false, newVcp)

/-! ## Behavior model (`apis/varmor/v1beta1`)

The types of the behavior model are declared in the API package, which is not
among the sources; their fields are those the merge and the builder read. -/

/-- A file access (`varmor.File`). -/
structure File where
  Path : String
  Owner : Bool
  OldPath : String
  Permissions : List String
deriving DecidableEq, Repr

/-- A network access (`varmor.Network`). -/
structure Network where
  Family : String
  SockType : String
  Protocol : String
deriving DecidableEq, Repr

/-- A ptrace access (`varmor.Ptrace`). -/
structure Ptrace where
  Permissions : List String
  Peer : String
deriving DecidableEq, Repr

/-- A signal access (`varmor.Signal`). -/
structure Signal where
  Permissions : List String
  Signals : List String
  Peer : String
deriving DecidableEq, Repr

/-- The AppArmor part of a behavior model (`varmor.AppArmor`). -/
structure AppArmor where
  Profiles : List String
  Executions : List String
  Files : List File
  Capabilities : List String
  Networks : List Network
  Ptraces : List Ptrace
  Signals : List Signal
  Unhandled : List String
deriving DecidableEq, Repr

/-- The Seccomp part of a behavior model (`varmor.Seccomp`). -/
structure Seccomp where
  Syscalls : List String
deriving DecidableEq, Repr

/-- The behavior observed on one node, or accumulated (`varmor.DynamicResult`);
both parts are pointers. -/
structure DynamicResult where
  AppArmor : Option AppArmor
  Seccomp : Option Seccomp
deriving DecidableEq, Repr

/-- The part of an ArmorProfileModel that the merge touches: `apm.Data.DynamicResult`. -/
structure ArmorProfileModel where
  DynamicResult : DynamicResult
deriving DecidableEq, Repr

/-- The value `&varmor.AppArmor{}`. -/
def emptyAppArmor : AppArmor :=
  { Profiles := [], Executions := [], Files := [], Capabilities := [], Networks := [],
    Ptraces := [], Signals := [], Unhandled := [] }

/-- The value `&varmor.Seccomp{}`. -/
def emptySeccomp : Seccomp := { Syscalls := [] }

/-! ## Merge of behavior models (`internal/status/common`) -/

/-- One round of a loop of the merge over strings (profiles, executions,
capabilities, unhandled, syscalls): the new string is appended unless the
accumulated list holds it. -/
def mergeString (acc : List String) (newString : String) : List String :=
  if newString ∈ acc then acc else acc ++ [newString]

/-- The loop over `newFile.Permissions` (and the like): a new permission is
appended to the stored list unless it is found in `perms`, the list of the copy
`file` taken by the `range` clause, which the appends do not change. -/
def mergePermissions (perms : List String) (newPerms : List String) : List String :=
  newPerms.foldl (fun stored newPerm => if newPerm ∈ perms then stored else stored ++ [newPerm])
    perms

/-- One round of the loop over `appArmor.Files`: the first accumulated file with
the path and owner of the new one takes its missing permissions, and its old path
when it has none; without such a file the new one is appended. -/
def mergeFile : List File → File → List File
  | [], newFile => [newFile]
  | file :: files, newFile =>
    if newFile.Path = file.Path ∧ newFile.Owner = file.Owner then
      { file with
        Permissions := mergePermissions file.Permissions newFile.Permissions
        OldPath :=
          if file.OldPath = "" ∧ newFile.OldPath ≠ "" then newFile.OldPath else file.OldPath }
        :: files
    else file :: mergeFile files newFile

/-- One round of the loop over `appArmor.Networks`: the new entry is appended
unless an accumulated entry is deeply equal to it. -/
def mergeNetwork (acc : List Network) (newNet : Network) : List Network :=
  if newNet ∈ acc then acc else acc ++ [newNet]

/-- One round of the loop over `appArmor.Ptraces`: the first accumulated entry
with the peer of the new one takes its missing permissions; without such an entry
the new one is appended. -/
def mergePtrace : List Ptrace → Ptrace → List Ptrace
  | [], newPtrace => [newPtrace]
  | ptrace :: ptraces, newPtrace =>
    if newPtrace.Peer = ptrace.Peer then
      { ptrace with
        Permissions := mergePermissions ptrace.Permissions newPtrace.Permissions } :: ptraces
    else ptrace :: mergePtrace ptraces newPtrace

/-- One round of the loop over `appArmor.Signals`: the first accumulated entry
with the peer of the new one takes its missing permissions and signals; without
such an entry the new one is appended. -/
def mergeSignal : List Signal → Signal → List Signal
  | [], newSignal => [newSignal]
  | signal :: signals, newSignal =>
    if newSignal.Peer = signal.Peer then
      { signal with
        Permissions := mergePermissions signal.Permissions newSignal.Permissions
        Signals := mergePermissions signal.Signals newSignal.Signals } :: signals
    else signal :: mergeSignal signals newSignal

/-- The eight loops of `MergeAppArmorResult` on a non-nil accumulated AppArmor. -/
def mergeAppArmor (acc : AppArmor) (appArmor : AppArmor) : AppArmor :=
  { Profiles := appArmor.Profiles.foldl mergeString acc.Profiles
    Executions := appArmor.Executions.foldl mergeString acc.Executions
    Files := appArmor.Files.foldl mergeFile acc.Files
    Capabilities := appArmor.Capabilities.foldl mergeString acc.Capabilities
    Networks := appArmor.Networks.foldl mergeNetwork acc.Networks
    Ptraces := appArmor.Ptraces.foldl mergePtrace acc.Ptraces
    Signals := appArmor.Signals.foldl mergeSignal acc.Signals
    Unhandled := appArmor.Unhandled.foldl mergeString acc.Unhandled }

/-- The function `MergeAppArmorResult`. -/
def MergeAppArmorResult (apm : ArmorProfileModel) (appArmor : Option AppArmor) :
    ArmorProfileModel :=
  match appArmor with
  | none => apm
  | some appArmor =>
    { apm with
      DynamicResult :=
        { apm.DynamicResult with
          AppArmor :=
            some (mergeAppArmor (apm.DynamicResult.AppArmor.getD emptyAppArmor) appArmor) } }

/-- The function `MergeSeccompResult`. -/
def MergeSeccompResult (apm : ArmorProfileModel) (seccomp : Option Seccomp) :
    ArmorProfileModel :=
  match seccomp with
  | none => apm
  | some seccomp =>
    { apm with
      DynamicResult :=
        { apm.DynamicResult with
          Seccomp :=
            some { Syscalls := seccomp.Syscalls.foldl mergeString
                     (apm.DynamicResult.Seccomp.getD emptySeccomp).Syscalls } } }

/-- The merge of the report of one node into the accumulated model: both merge
functions, applied to the two parts of the report. -/
def mergeShard (apm : ArmorProfileModel) (shard : DynamicResult) : ArmorProfileModel :=
  MergeSeccompResult (MergeAppArmorResult apm shard.AppArmor) shard.Seccomp

/-- The merge of a sequence of reports, in the order of arrival. -/
def mergeShards (apm : ArmorProfileModel) (shards : List DynamicResult) : ArmorProfileModel :=
  shards.foldl mergeShard apm

/-! ## Canonical form of a behavior model

The canonical form is the one of the specification: every list and every
permission or signal sub-list sorted. Entries are ordered by the lexicographic
order of the list of their fields. -/

/-- The fields of a file entry, as a list of strings. -/
def File.fields (f : File) : List String :=
  f.Path :: (if f.Owner then "1" else "0") :: f.OldPath :: f.Permissions

/-- The fields of a network entry, as a list of strings. -/
def Network.fields (n : Network) : List String := [n.Family, n.SockType, n.Protocol]

/-- The fields of a ptrace entry, as a list of strings. -/
def Ptrace.fields (p : Ptrace) : List String := p.Peer :: p.Permissions

/-- The fields of a signal entry, as a list of lists of strings. -/
def Signal.fields (s : Signal) : List (List String) := [[s.Peer], s.Permissions, s.Signals]

/-- A file entry with its permissions sorted. -/
def canonFile (f : File) : File := { f with Permissions := sortStrings f.Permissions }

/-- A ptrace entry with its permissions sorted. -/
def canonPtrace (p : Ptrace) : Ptrace := { p with Permissions := sortStrings p.Permissions }

/-- A signal entry with its permissions and its signals sorted. -/
def canonSignal (s : Signal) : Signal :=
  { s with Permissions := sortStrings s.Permissions, Signals := sortStrings s.Signals }

/-- The canonical form of the AppArmor part. -/
def canonAppArmor (a : AppArmor) : AppArmor :=
  { Profiles := sortStrings a.Profiles
    Executions := sortStrings a.Executions
    Files := sortBy (fun x y => lexLe strLe x.fields y.fields) (a.Files.map canonFile)
    Capabilities := sortStrings a.Capabilities
    Networks := sortBy (fun x y => lexLe strLe x.fields y.fields) a.Networks
    Ptraces := sortBy (fun x y => lexLe strLe x.fields y.fields) (a.Ptraces.map canonPtrace)
    Signals :=
      sortBy (fun x y => lexLe (lexLe strLe) x.fields y.fields) (a.Signals.map canonSignal)
    Unhandled := sortStrings a.Unhandled }

/-- The canonical form of a model. -/
def canonicalize (apm : ArmorProfileModel) : ArmorProfileModel :=
  { DynamicResult :=
      { AppArmor := apm.DynamicResult.AppArmor.map canonAppArmor
        Seccomp :=
          apm.DynamicResult.Seccomp.map (fun s => { Syscalls := sortStrings s.Syscalls }) } }

/-! ## Auxiliary notions for the study of the merge -/

/-- The common shape of the loops of the merge over entries with an identity:
the first accumulated entry with the key of the new one is updated with it;
without such an entry the new one is appended. -/
def mergeKeyed {α κ : Type} [DecidableEq κ] (key : α → κ) (upd : α → α → α) :
    List α → α → List α
  | [], n => [n]
  | x :: xs, n => if key n = key x then upd x n :: xs else x :: mergeKeyed key upd xs n

/-- The entries of a list that have a given key, in their order. -/
def bucket {α κ : Type} [DecidableEq κ] (key : α → κ) (k : κ) (l : List α) : List α :=
  l.filter (fun x => decide (key x = k))

/-- The merge of a new entry into a list of entries which all have its key. -/
def headMerge {α : Type} (upd : α → α → α) : List α → α → List α
  | [], n => [n]
  | x :: xs, n => upd x n :: xs

/-- Two lists of entries agree key by key: for every key, the entries of that key,
in their order, have the same canonical forms. -/
def SameBuckets {α κ : Type} [DecidableEq κ] (key : α → κ) (c : α → α) (l l' : List α) : Prop :=
  ∀ k, (bucket key k l).map c = (bucket key k l').map c

/-- The laws that make a keyed merge independent of the order of arrival, up to
the canonical form `c` of the entries, for new entries related by `Compat`. -/
structure KeyedLaws {α κ : Type} (key : α → κ) (upd : α → α → α) (c : α → α)
    (Compat : α → α → Prop) : Prop where
  key_upd : ∀ x n, key (upd x n) = key x
  key_canon : ∀ x, key (c x) = key x
  cong : ∀ x x' n, c x = c x' → c (upd x n) = c (upd x' n)
  comm : ∀ x n₁ n₂, Compat n₁ n₂ → key n₁ = key n₂ →
    c (upd (upd x n₁) n₂) = c (upd (upd x n₂) n₁)
  first : ∀ n₁ n₂, Compat n₁ n₂ → key n₁ = key n₂ → c (upd n₁ n₂) = c (upd n₂ n₁)
  symm : ∀ a b, Compat a b → Compat b a

/-- The identity of a file entry in the merge: its path and its owner bit. -/
def fileKey (f : File) : String × Bool := (f.Path, f.Owner)

/-- The update of an accumulated file entry by a new one of the same identity. -/
def updFile (file newFile : File) : File :=
  { file with
    Permissions := mergePermissions file.Permissions newFile.Permissions
    OldPath :=
      if file.OldPath = "" ∧ newFile.OldPath ≠ "" then newFile.OldPath else file.OldPath }

/-- The update of an accumulated ptrace entry by a new one of the same peer. -/
def updPtrace (ptrace newPtrace : Ptrace) : Ptrace :=
  { ptrace with Permissions := mergePermissions ptrace.Permissions newPtrace.Permissions }

/-- The update of an accumulated signal entry by a new one of the same peer. -/
def updSignal (signal newSignal : Signal) : Signal :=
  { signal with
    Permissions := mergePermissions signal.Permissions newSignal.Permissions
    Signals := mergePermissions signal.Signals newSignal.Signals }

/-- Two file entries do not report different old paths for one file: if they have
the same path and owner bit, one old path is empty or both are equal. -/
abbrev File.agreesOnOldPath (f g : File) : Prop :=
  f.Path = g.Path → f.Owner = g.Owner → f.OldPath = "" ∨ g.OldPath = "" ∨ f.OldPath = g.OldPath

/-- The AppArmor part of a report, empty when the pointer is nil. -/
def shardAppArmor (shard : DynamicResult) : AppArmor := shard.AppArmor.getD emptyAppArmor

/-- The syscalls of a report, none when the pointer is nil. -/
def shardSyscalls (shard : DynamicResult) : List String :=
  (shard.Seccomp.getD emptySeccomp).Syscalls

/-- No two file entries of two reports give different old paths for one file. -/
abbrev oldPathsAgree (s s' : DynamicResult) : Prop :=
  ∀ f ∈ (shardAppArmor s).Files, ∀ g ∈ (shardAppArmor s').Files, f.agreesOnOldPath g

/-- No entry of a report lists a permission or a signal twice. -/
abbrev sublistsNodup (s : DynamicResult) : Prop :=
  (∀ f ∈ (shardAppArmor s).Files, f.Permissions.Nodup)
    ∧ (∀ p ∈ (shardAppArmor s).Ptraces, p.Permissions.Nodup)
    ∧ (∀ g ∈ (shardAppArmor s).Signals, g.Permissions.Nodup ∧ g.Signals.Nodup)

/-- The accumulated AppArmor part of a model, empty when the pointer is nil. -/
def modelAppArmor (apm : ArmorProfileModel) : AppArmor :=
  apm.DynamicResult.AppArmor.getD emptyAppArmor

/-- The accumulated syscalls of a model, none when the pointer is nil. -/
def modelSyscalls (apm : ArmorProfileModel) : List String :=
  (apm.DynamicResult.Seccomp.getD emptySeccomp).Syscalls

/-! ## AppArmor profile of a behavior model (`internal/profile/apparmor`) -/

/-- The function `varmorutils.InStringArray`. -/
def InStringArray (c : String) (array : List String) : Bool := array.any (fun v => v == c)

/-- The function `buildExecRules`. -/
def buildExecRules (appArmor : AppArmor) : String :=
  let ruleSet := "\n  # ---- EXEC ----\n"
  let rules := appArmor.Executions.map (fun exec => "  " ++ exec ++ " ix,\n")
  ruleSet ++ Join (sortStrings rules) ""

/-- The permissions of a file as `buildFileRules` prints them: `a` is dropped when
`w` is present too, and the rest is sorted. -/
def filePermissions (file : File) : List String :=
  let perms :=
    if InStringArray "a" file.Permissions && InStringArray "w" file.Permissions then
      file.Permissions.filter (fun p => p != "a")
    else file.Permissions
  sortStrings perms

/-- The rule of one file in `buildFileRules`. -/
def fileRule (file : File) : String :=
  if file.Owner then "  owner " ++ file.Path ++ " " ++ Join (filePermissions file) "" ++ ",\n"
  else "  " ++ file.Path ++ " " ++ Join (filePermissions file) "" ++ ",\n"

/-- The function `buildFileRules`. -/
def buildFileRules (appArmor : AppArmor) : String :=
  let ruleSet := "\n  # ---- FILE ----\n"
  let rules := appArmor.Files.map fileRule
  ruleSet ++ Join (sortStrings rules) ""

/-- The function `buildCapabilityRules`. -/
def buildCapabilityRules (appArmor : AppArmor) : String :=
  let ruleSet := "\n  # ---- CAPABILITY ----\n"
  let rules := appArmor.Capabilities.map (fun cap => "  capability " ++ cap ++ ",\n")
  ruleSet ++ Join (sortStrings rules) ""

/-- The rule of one network entry in `buildNetworkRules`. -/
def networkRule (net : Network) : String :=
  if net.SockType ≠ "" then "  network " ++ net.Family ++ " " ++ net.SockType ++ ",\n"
  else if net.Protocol ≠ "" then "  network " ++ net.Family ++ " " ++ net.Protocol ++ ",\n"
  else "  network " ++ net.Family ++ ",\n"

/-- The function `buildNetworkRules`. -/
def buildNetworkRules (appArmor : AppArmor) (debug : Bool) : String :=
  let ruleSet := "\n  # ---- NETWORK ----\n"
  if debug && decide (appArmor.Networks.length > 0) then
    let rules := appArmor.Networks.map networkRule
    ruleSet ++ Join (sortStrings rules) ""
  else ruleSet ++ "  network,\n"

/-- The function `buildPtraceRules`. -/
def buildPtraceRules (appArmor : AppArmor) (profileName : String) (debug : Bool) : String :=
  let ruleSet := "\n  # ---- PTRACE ----\n"
  let ruleSet := ruleSet
    ++ "  ## suppress ptrace denials when using 'docker ps' or using 'ps' inside a container\n"
  let ruleSet := ruleSet ++ "  ptrace (trace,read,tracedby,readby) peer=" ++ profileName ++ ",\n"
  if debug && decide (appArmor.Ptraces.length > 0) then
    let ruleSet := ruleSet ++ "  ## only for debug\n"
    let rules := appArmor.Ptraces.map
      (fun ptrace => "  ptrace (" ++ Join ptrace.Permissions "," ++ ") peer=" ++ ptrace.Peer ++ ",\n")
    ruleSet ++ Join (sortStrings rules) ""
  else ruleSet

/-- The function `buildSignalRules`. The rules of the observed signals are joined
in the order of the entries. -/
def buildSignalRules (appArmor : AppArmor) (profileName : String) (debug : Bool) : String :=
  let ruleSet := "\n  # ---- SIGNAL ----\n"
  let ruleSet := ruleSet
    ++ "  ## host (privileged) processes may send signals to container processes.\n"
  let ruleSet := ruleSet ++ "  signal (receive) peer=unconfined,\n"
  let ruleSet := ruleSet ++ "  ## container processes may send signals amongst themselves.\n"
  let ruleSet := ruleSet ++ "  signal (send,receive) peer=" ++ profileName ++ ",\n"
  if debug && decide (appArmor.Signals.length > 0) then
    let ruleSet := ruleSet ++ "  ## only for debug\n"
    let rules := appArmor.Signals.map
      (fun signal => "  signal (" ++ Join signal.Permissions "," ++ ") set=("
        ++ Join signal.Signals "," ++ ") peer=" ++ profileName ++ ",\n")
    ruleSet ++ Join rules ""
  else ruleSet

/-- The function `buildDefaultAllowRules`. -/
def buildDefaultAllowRules (_appArmor : AppArmor) : String :=
  let ruleSet := "\n  # ---- ADDITIONAL ----\n"
  ruleSet ++ "  umount,\n"

/-- The constant `defenseInDepthTemplate`, a format with two `%s` verbs, is not
among the sources: it is given by the text before, between and after the verbs. -/
structure ProfileTemplate where
  before : String
  between : String
  after : String
deriving DecidableEq, Repr

/-- The call `fmt.Sprintf(defenseInDepthTemplate, profileName, ruleSet)`. -/
def ProfileTemplate.Sprintf (t : ProfileTemplate) (profileName ruleSet : String) : String :=
  t.before ++ profileName ++ t.between ++ ruleSet ++ t.after

/-- The alphabet of `base64.StdEncoding`. -/
def base64Alphabet : List Char :=
  "ABCDEFGHIJKLMNOPQRSTUVWXYZabcdefghijklmnopqrstuvwxyz0123456789+/".data

/-- The character of a 6-bit value in `base64.StdEncoding`. -/
def base64Char (n : Nat) : Char := base64Alphabet.getD n 'A'

/-- The encoding of a list of bytes by `base64.StdEncoding`, with padding. -/
def base64Encode : List Nat → List Char
  | [] => []
  | [a] => [base64Char (a / 4), base64Char (a % 4 * 16), '=', '=']
  | [a, b] =>
    [base64Char (a / 4), base64Char (a % 4 * 16 + b / 16), base64Char (b % 16 * 4), '=']
  | a :: b :: c :: rest =>
    base64Char (a / 4) :: base64Char (a % 4 * 16 + b / 16)
      :: base64Char (b % 16 * 4 + c / 64) :: base64Char (c % 64) :: base64Encode rest

/-- The call `base64.StdEncoding.EncodeToString([]byte(s))`. -/
def EncodeToString (s : String) : String :=
  String.mk (base64Encode (s.data.flatMap (fun c => (String.utf8EncodeChar c).map UInt8.toNat)))

/-- The rule set that `GenerateProfileWithBehaviorModel` builds for a profile name. -/
def buildRuleSet (appArmor : AppArmor) (profileName : String) (debug : Bool) : String :=
  let ruleSet := buildExecRules appArmor
  let ruleSet := ruleSet ++ buildFileRules appArmor
  let ruleSet := ruleSet ++ buildCapabilityRules appArmor
  let ruleSet := ruleSet ++ buildNetworkRules appArmor debug
  let ruleSet := ruleSet ++ buildPtraceRules appArmor profileName debug
  let ruleSet := ruleSet ++ buildSignalRules appArmor profileName debug
  ruleSet ++ buildDefaultAllowRules appArmor

/-- What a call of `GenerateProfileWithBehaviorModel` comes to: the encoded profile
that it returns with a nil error, the error that it returns with an empty string,
or the stop of the program at the dereference of the nil pointer
`dynamicResult.AppArmor`. -/
inductive BehaviorModelProfile where
  | ok (profile : String)
  | error (err : String)
  | nilDereference
deriving DecidableEq, Repr

/-- The encoded profile of a call that returned one. -/
def BehaviorModelProfile.toOption : BehaviorModelProfile → Option String
  | .ok profile => some profile
  | .error _ => none
  | .nilDereference => none

/-- The function `GenerateProfileWithBehaviorModel`. Its first statement reads
`dynamicResult.AppArmor.Profiles` with no test of the pointer
`dynamicResult.AppArmor`, which is nil in a model that no AppArmor report was
merged into. -/
def GenerateProfileWithBehaviorModel (defenseInDepthTemplate : ProfileTemplate)
    (dynamicResult : DynamicResult) (debug : Bool) : BehaviorModelProfile :=
  match dynamicResult.AppArmor with
  | none => .nilDereference
  | some appArmor =>
    match appArmor.Profiles with
    | [] => .error "no behavior information found for the target container"
    | [profileName] =>
      let profile := defenseInDepthTemplate.Sprintf profileName
        (buildRuleSet appArmor profileName debug)
      .ok (EncodeToString profile)
    | _ => .error "fatal error: more than one profile exists or profile name is unexpected"

/-! ## Profile generation (`internal/profile`) -/

/-- The payload of the BPF enforcer (`varmor.BpfContent`); its zero value is the
empty content. -/
structure BpfContent where
  Rules : List String
deriving DecidableEq, Repr

/-- A profile (`varmor.Profile`). -/
structure Profile where
  Name : String
  Enforcer : String
  Mode : String
  Content : String
  BpfContent : BpfContent
  SeccompContent : String
deriving DecidableEq, Repr

/-- The profile stored in an ArmorProfileModel (`apm.Data.Profile`). -/
structure ModelProfile where
  Content : String
  SeccompContent : String
deriving DecidableEq, Repr

/-- The collaborators of `GenerateProfile` whose code is not among the sources:
the template functions of `internal/profile/apparmor`, the generators of
`internal/profile/bpf` (which fill a BPF content or fail) and of
`internal/profile/seccomp`, and the lookup of an ArmorProfileModel by namespace
and name through the cluster API. They are parameters of the embedding. -/
structure Generators where
  GenerateAlwaysAllowProfile : String → String
  GenerateRuntimeDefaultProfile : String → String
  GenerateEnhanceProtectProfile : Option EnhanceProtect → String → Bool → String
  GenerateBehaviorModelingProfile : String → String
  bpfGenerateRuntimeDefaultProfile : BpfContent → Except String BpfContent
  bpfGenerateEnhanceProtectProfile :
    Option EnhanceProtect → BpfContent → Bool → Except String BpfContent
  seccompGenerateBehaviorModelingProfile : String
  getArmorProfileModel : String → String → Except String ModelProfile

/-- The function `GenerateProfile`: the profile of a policy, or the error. -/
def GenerateProfile (g : Generators) (policy : Policy) (name : String) (ns : String)
    (complete : Bool) : Except String Profile :=
  let profile : Profile :=
    { Name := name, Enforcer := policy.Enforcer, Mode := "enforce", Content := "",
      BpfContent := { Rules := [] }, SeccompContent := "" }
  if policy.Mode = AlwaysAllowMode then
    if policy.Enforcer = "AppArmor" then
      .ok { profile with Content := g.GenerateAlwaysAllowProfile name }
    else if policy.Enforcer = "BPF" then
      .ok { profile with BpfContent := { Rules := [] } }
    else .error "unknown enforcer"
  else if policy.Mode = RuntimeDefaultMode then
    if policy.Enforcer = "AppArmor" then
      .ok { profile with Content := g.GenerateRuntimeDefaultProfile name }
    else if policy.Enforcer = "BPF" then
      match g.bpfGenerateRuntimeDefaultProfile { Rules := [] } with
      | .error err => .error err
      | .ok bpfContent => .ok { profile with BpfContent := bpfContent }
    else .error "unknown enforcer"
  else if policy.Mode = EnhanceProtectMode then
    if policy.Enforcer = "AppArmor" then
      .ok { profile with
            Content := g.GenerateEnhanceProtectProfile policy.EnhanceProtect name
              policy.Privileged }
    else if policy.Enforcer = "BPF" then
      match g.bpfGenerateEnhanceProtectProfile policy.EnhanceProtect { Rules := [] }
          policy.Privileged with
      | .error err => .error err
      | .ok bpfContent => .ok { profile with BpfContent := bpfContent }
    else .error "unknown enforcer"
  else if policy.Mode = BehaviorModelingMode then
    if policy.Enforcer = "AppArmor" then
      if complete then .ok { profile with Content := g.GenerateAlwaysAllowProfile name }
      else
        .ok { profile with Mode := "complain", Content := g.GenerateBehaviorModelingProfile name }
    else if policy.Enforcer = "BPF" then .error "not supported by the BPF enforcer"
    else if policy.Enforcer = "Seccomp" then
      .ok { profile with
            Mode := "complain", SeccompContent := g.seccompGenerateBehaviorModelingProfile }
    else .error "unknown enforcer"
  else if policy.Mode = DefenseInDepthMode then
    if policy.Enforcer = "AppArmor" then
      match g.getArmorProfileModel ns name with
      | .ok apm => .ok { profile with Content := apm.Content }
      | .error _ => .error "fatal error: no existing model found"
    else if policy.Enforcer = "BPF" then .error "not supported by the BPF enforcer"
    else if policy.Enforcer = "Seccomp" then
      match g.getArmorProfileModel ns name with
      | .ok apm => .ok { profile with SeccompContent := apm.SeccompContent }
      | .error _ => .error "fatal error: no existing model found"
    else .error "unknown enforcer"
  else .error "unknown mode"

/-- The table of admissible (mode, enforcer) pairs, written from the words of the
specification: AppArmor and BPF for AlwaysAllow, RuntimeDefault and
EnhanceProtect; AppArmor and Seccomp for BehaviorModeling and DefenseInDepth. -/
def specAdmissible (mode enforcer : String) : Bool :=
  ((mode = AlwaysAllowMode ∨ mode = RuntimeDefaultMode ∨ mode = EnhanceProtectMode)
      ∧ (enforcer = "AppArmor" ∨ enforcer = "BPF"))
    ∨ ((mode = BehaviorModelingMode ∨ mode = DefenseInDepthMode)
      ∧ (enforcer = "AppArmor" ∨ enforcer = "Seccomp"))

/-! ## Status manager (`internal/status/api/v1`) -/

/-- The cached status of a policy (`varmortypes.PolicyStatus`); the map of node
messages is a list of (node, message) pairs. -/
structure PolicyStatus where
  SuccessedNumber : Int
  FailedNumber : Int
  NodeMessages : List (String × String)
deriving DecidableEq, Repr

/-- The cached status of a modeling policy (`varmortypes.ModelingStatus`). -/
structure ModelingStatus where
  CompletedNumber : Int
  NodeMessages : List (String × String)
deriving DecidableEq, Repr

/-- The number of nanoseconds of `time.Minute`. -/
def Minute : Int := 60000000000

/-- The value of an integer as a Go `int64`: the wrap-around of two's complement. -/
def wrapInt64 (x : Int) : Int := (x + 2 ^ 63) % 2 ^ 64 - 2 ^ 63

/-- The variable `complete` of the UpdateStatus handler for a namespaced policy in
mode BehaviorModeling. `modelingStatus` is the lookup `m.ModelingStatuses[statusKey]`,
`phase` the phase in the status of the policy, `now` and `createTime` the clock
and the creation time of the ArmorProfile in nanoseconds, `duration` the field
`ModelingOptions.Duration`. The product `time.Duration(duration) * time.Minute` is
an `int64`; the instants are integers, far from the bounds of `time.Time`. -/
def modelingComplete (modelingStatus : Option ModelingStatus) (desiredNumber : Int)
    (phase : String) (now createTime duration : Int) : Bool :=
  match modelingStatus with
  | some ms => if ms.CompletedNumber ≥ desiredNumber then true else false
  | none =>
    if phase = VarmorPolicyCompleted then
      if now > createTime + wrapInt64 (duration * Minute) then true else false
    else false

/-- The UpdateStatus handler of `reconcileStatus` for a namespaced policy: the
values `ready` and `phase` that it passes to `updateVarmorPolicyStatus` when it
reaches that call. `desiredNumber` is `m.desiredNumber` at that point and
`modelingStatus` the lookup `m.ModelingStatuses[statusKey]`. -/
def updateStatusNamespaced (mode : String) (policyStatus : PolicyStatus)
    (modelingStatus : Option ModelingStatus) (desiredNumber : Int) (vpPhase : String)
    (now createTime duration : Int) : Bool × String :=
  let phase := VarmorPolicyProtecting
  let phase :=
    if mode = BehaviorModelingMode then
      if modelingComplete modelingStatus desiredNumber vpPhase now createTime duration then
        VarmorPolicyCompleted
      else VarmorPolicyModeling
    else phase
  let phase := if policyStatus.FailedNumber > 0 then VarmorPolicyError else phase
  let ready := if policyStatus.SuccessedNumber ≥ desiredNumber then true else false
  (ready, phase)

/-- The UpdateStatus handler of `reconcileStatus` for a cluster-scoped policy: the
values `ready` and `phase` that it passes to `updateVarmorClusterPolicyStatus`
when it reaches that call. The policy object `vcp` is at hand; the handler reads
nothing of it. -/
def updateStatusCluster (_vcp : VarmorClusterPolicy) (policyStatus : PolicyStatus)
    (desiredNumber : Int) : Bool × String :=
  let phase := VarmorPolicyProtecting
  let phase := if policyStatus.FailedNumber > 0 then VarmorPolicyError else phase
  let ready := if policyStatus.SuccessedNumber ≥ desiredNumber then true else false
  (ready, phase)

/-- The rule of the specification for the completion of modeling, written from its
words: complete when the cached `completedNumber` reaches `desiredNumber`, or,
when the cache holds no entry, when the clock is after the creation time of the
ArmorProfile plus `duration` minutes. -/
def specModelingComplete (modelingStatus : Option ModelingStatus) (desiredNumber : Int)
    (now createTime duration : Int) : Bool :=
  match modelingStatus with
  | some ms => decide (ms.CompletedNumber ≥ desiredNumber)
  | none => decide (now > createTime + duration * Minute)

/-! ## ArmorProfile objects and their creation (`internal/profile`) -/

/-- A condition of an ArmorProfile status (`varmor.ArmorProfileCondition`): the
report of one node. -/
structure ArmorProfileCondition where
  NodeName : String
  CondType : String
  Status : String
  LastTransitionTime : Int
  Reason : String
  Message : String
deriving DecidableEq, Repr

/-- The status of an ArmorProfile. -/
structure ArmorProfileStatus where
  DesiredNumberLoaded : Int
  CurrentNumberLoaded : Int
  Conditions : List ArmorProfileCondition
deriving DecidableEq, Repr

/-- The field `BehaviorModeling` of the spec of an ArmorProfile. -/
structure ArmorProfileBehaviorModeling where
  Enable : Bool
  Duration : Int
deriving DecidableEq, Repr

/-- The spec of an ArmorProfile. -/
structure ArmorProfileSpec where
  Profile : Profile
  Target : Target
  BehaviorModeling : ArmorProfileBehaviorModeling
  UpdateExistingWorkloads : Bool
deriving DecidableEq, Repr

/-- An ArmorProfile object. -/
structure ArmorProfile where
  Name : String
  Namespace : String
  Labels : List (String × String)
  Spec : ArmorProfileSpec
  Status : ArmorProfileStatus
deriving DecidableEq, Repr

/-- A namespace-scoped policy object. -/
structure VarmorPolicy where
  Name : String
  Namespace : String
  Labels : List (String × String)
  Spec : VarmorClusterPolicySpec
  Status : VarmorPolicyStatus
deriving DecidableEq, Repr

/-- The argument `obj` of `NewArmorProfile` with its dynamic type. The flag
`clusterScope` of the call is the one that matches the type: the other calls stop
at the type assertion. The labels of a cluster policy are passed along with it. -/
inductive PolicyObject where
  | cluster (vcp : VarmorClusterPolicy) (labels : List (String × String))
  | namespaced (vp : VarmorPolicy)
deriving DecidableEq, Repr

/-- The value `varmor.ArmorProfile{}` with the name, namespace and labels that
`NewArmorProfile` sets first. -/
def blankArmorProfile (name ns : String) (labels : List (String × String)) : ArmorProfile :=
  { Name := name, Namespace := ns, Labels := labels
    Spec :=
      { Profile :=
          { Name := "", Enforcer := "", Mode := "", Content := "", BpfContent := { Rules := [] },
            SeccompContent := "" }
        Target := { Kind := "", Name := "", Containers := [], Selector := none }
        BehaviorModeling := { Enable := false, Duration := 0 }
        UpdateExistingWorkloads := false }
    Status := { DesiredNumberLoaded := 0, CurrentNumberLoaded := 0, Conditions := [] } }

/-- The field `ModelingOptions.Duration` as `NewArmorProfile` reads it: in the
version of the API that `profile.go` is written against the options are a struct
value, whose zero value has duration 0. -/
def modelingDuration (policy : Policy) : Int :=
  match policy.ModelingOptions with
  | some options => options.Duration
  | none => 0

/-- The function `NewArmorProfile`: the pointer and the error that it returns. -/
def NewArmorProfile (g : Generators) (managerNamespace : String) (obj : PolicyObject) :
    Option ArmorProfile × Option String :=
  match obj with
  | .cluster vcp labels =>
    let profileName := GenerateArmorProfileName managerNamespace "" vcp.Name true
    let ap := blankArmorProfile profileName managerNamespace labels
    match GenerateProfile g vcp.Spec.Policy ap.Name ap.Namespace false with
    | .error err => (none, some err)
    | .ok profile =>
      (some { ap with Spec := { ap.Spec with Profile := profile, Target := vcp.Spec.Target } },
        none)
  | .namespaced vp =>
    let profileName := GenerateArmorProfileName managerNamespace vp.Namespace vp.Name false
    let ap := blankArmorProfile profileName vp.Namespace vp.Labels
    match GenerateProfile g vp.Spec.Policy ap.Name ap.Namespace false with
    | .error err => (none, some err)
    | .ok profile =>
      let ap : ArmorProfile :=
        { ap with Spec := { ap.Spec with Profile := profile, Target := vp.Spec.Target } }
      if vp.Spec.Policy.Mode = BehaviorModelingMode then
        if modelingDuration vp.Spec.Policy = 0 then
          (some ap, some "invalid parameter: .Spec.Policy.ModelingOptions.Duration == 0")
        else
          (some { ap with
                  Spec :=
                    { ap.Spec with
                      BehaviorModeling :=
                        { Enable := true, Duration := modelingDuration vp.Spec.Policy } } },
            none)
      else (some ap, none)

/-! ## The caches of the status manager (`internal/status/api/v1`)

A Go map with string keys is a list of (key, value) pairs with distinct keys;
the order of the pairs stands for the unspecified order of iteration. -/

/-- The lookup `m[k]` of a map, with its `ok` flag. -/
def mapGet {β : Type} : List (String × β) → String → Option β
  | [], _ => none
  | (k', v) :: rest, k => if k' = k then some v else mapGet rest k

/-- The assignment `m[k] = v` of a map. -/
def mapSet {β : Type} : List (String × β) → String → β → List (String × β)
  | [], k, v => [(k, v)]
  | (k', v') :: rest, k, v => if k' = k then (k, v) :: rest else (k', v') :: mapSet rest k v

/-- The call `delete(m, k)` on a map. -/
def mapDelete {β : Type} (m : List (String × β)) (k : String) : List (String × β) :=
  m.filter (fun entry => decide (entry.1 ≠ k))

/-- The keys of a map. -/
def mapKeys {β : Type} (m : List (String × β)) : List String := m.map Prod.fst

/-- Modelled from the spec: `ArmorProfileReady` of the API package, the sentinel
message of a node that loaded the profile. -/
def ArmorProfileReady : String := "Ready"

/-- The state of the status manager that the handlers below read and write. -/
structure StatusManager where
  UpdateDesiredNumber : Bool
  desiredNumber : Int
  PolicyStatuses : List (String × PolicyStatus)
  ModelingStatuses : List (String × ModelingStatus)
  debug : Bool
deriving DecidableEq, Repr

/-- The method `retrieveDesiredNumber`; `result` is the number that the cluster API
returns (the node count in debug mode, the `desiredNumberScheduled` of the agent
DaemonSet otherwise, after the retries), or its error. -/
def retrieveDesiredNumber (m : StatusManager) (result : Except String Int) :
    StatusManager × Option String :=
  match result with
  | .error err => (m, some err)
  | .ok n =>
    if m.debug then ({ m with desiredNumber := n }, none)
    else ({ m with UpdateDesiredNumber := false, desiredNumber := n }, none)

/-- The body of the loop of `rebuildPolicyStatuses` over the ArmorProfiles, after
the status key was derived: the status of the policy, rebuilt from the conditions
of the ArmorProfile and the list of nodes where the agent runs. -/
def rebuildPolicyStatus (nodes : List String) (conditions : List ArmorProfileCondition) :
    PolicyStatus :=
  let policyStatus : PolicyStatus := { SuccessedNumber := 0, FailedNumber := 0, NodeMessages := [] }
  let policyStatus := conditions.foldl
    (fun (policyStatus : PolicyStatus) condition =>
      if InStringArray condition.NodeName nodes then
        { policyStatus with
          FailedNumber := policyStatus.FailedNumber + 1
          NodeMessages := mapSet policyStatus.NodeMessages condition.NodeName condition.Message }
      else policyStatus)
    policyStatus
  nodes.foldl
    (fun (policyStatus : PolicyStatus) node =>
      if (mapGet policyStatus.NodeMessages node).isNone then
        { policyStatus with
          SuccessedNumber := policyStatus.SuccessedNumber + 1
          NodeMessages := mapSet policyStatus.NodeMessages node ArmorProfileReady }
      else policyStatus)
    policyStatus

/-- The method `rebuildPolicyStatuses`. `generatePolicyStatusKeyWithArmorProfile`
is a helper of the package that is not among the sources; `nsList` is the list of
the names of the namespaces, `nodes` the result of `retrieveNodeNameList`, and
`apLists` the list of the ArmorProfiles of a namespace, each as the cluster API
returns it or with its error. -/
def rebuildPolicyStatuses (m : StatusManager)
    (generatePolicyStatusKeyWithArmorProfile : ArmorProfile → Except String String)
    (nsList : Except String (List String)) (nodes : Except String (List String))
    (apLists : String → Except String (List ArmorProfile)) : StatusManager × Option String :=
  match nsList with
  | .error err => (m, some err)
  | .ok nsItems =>
    match nodes with
    | .error err => (m, some err)
    | .ok nodes =>
      (nsItems.foldl
        (fun (m : StatusManager) ns =>
          match apLists ns with
          | .error _ => m
          | .ok apItems =>
            apItems.foldl
              (fun (m : StatusManager) ap =>
                match generatePolicyStatusKeyWithArmorProfile ap with
                | .error _ => m
                | .ok statusKey =>
                  { m with
                    PolicyStatuses :=
                      mapSet m.PolicyStatuses statusKey
                        (rebuildPolicyStatus nodes ap.Status.Conditions) })
              m)
        m, none)

/-- The body of the outer loop of `updateAllCRStatus` for one policy: the counters
are recounted over the node messages, and the messages of the nodes that are not
in `nodes` are deleted. -/
def refreshPolicyStatus (nodes : List String) (policyStatus : PolicyStatus) : PolicyStatus :=
  policyStatus.NodeMessages.foldl
    (fun (policyStatus : PolicyStatus) entry =>
      if InStringArray entry.1 nodes then
        if entry.2 = ArmorProfileReady then
          { policyStatus with SuccessedNumber := policyStatus.SuccessedNumber + 1 }
        else { policyStatus with FailedNumber := policyStatus.FailedNumber + 1 }
      else { policyStatus with NodeMessages := mapDelete policyStatus.NodeMessages entry.1 })
    { policyStatus with FailedNumber := 0, SuccessedNumber := 0 }

/-- The capacity of the channel `UpdateStatusCh` that `NewStatusManager` makes. -/
def UpdateStatusChCapacity : Nat := 100

/-- The state of a run of `updateAllCRStatus`: the manager, the keys that wait in
the channel `UpdateStatusCh` (the oldest first), the keys that other goroutines
are still to send on the channel (one list for each round of the loop to come:
the keys that arrive before the send of that round), and whether the goroutine is
blocked in a send. The only receiver of the channel is the goroutine that runs
`updateAllCRStatus`, so nothing leaves the channel during a run and a blocked
send stays blocked. -/
structure TickState where
  manager : StatusManager
  channel : List String
  arrivals : List (List String)
  blocked : Bool
deriving DecidableEq, Repr

/-- One round of the outer loop of `updateAllCRStatus`: the status of the policy is
refreshed and stored, then its key is sent on `UpdateStatusCh`. The keys that
other goroutines send before that take the free places of the channel; the send
of the round blocks when the channel is full. -/
def updateCRStatus (nodes : List String) (state : TickState) (entry : String × PolicyStatus) :
    TickState :=
  if state.blocked then state
  else
    let channel := (state.channel ++ state.arrivals.headD []).take UpdateStatusChCapacity
    let m : StatusManager :=
      { state.manager with
        PolicyStatuses :=
          mapSet state.manager.PolicyStatuses entry.1 (refreshPolicyStatus nodes entry.2) }
    if channel.length < UpdateStatusChCapacity then
      { manager := m, channel := channel ++ [entry.1], arrivals := state.arrivals.tail,
        blocked := false }
    else { manager := m, channel := channel, arrivals := state.arrivals.tail, blocked := true }

/-- The method `updateAllCRStatus`: the state in which it returns, or in which it
is blocked. `channel` is the content of `UpdateStatusCh` when it is called,
`arrivals` the keys that other goroutines send during the run, `desiredResult` the
outcome of the API call of `retrieveDesiredNumber`, `nodesResult` the result of
`retrieveNodeNameList`. -/
def updateAllCRStatus (m : StatusManager) (channel : List String)
    (arrivals : List (List String)) (desiredResult : Except String Int)
    (nodesResult : Except String (List String)) : TickState :=
  if m.PolicyStatuses.length = 0 then
    { manager := m, channel := channel, arrivals := arrivals, blocked := false }
  else
    match retrieveDesiredNumber m desiredResult with
    | (m, some _) => { manager := m, channel := channel, arrivals := arrivals, blocked := false }
    | (m, none) =>
      match nodesResult with
      | .error _ => { manager := m, channel := channel, arrivals := arrivals, blocked := false }
      | .ok nodes =>
        m.PolicyStatuses.foldl (updateCRStatus nodes)
          { manager := m, channel := channel, arrivals := arrivals, blocked := false }

/-- The case `ResetCh` of `reconcileStatus`: the state of the manager after the
key was processed. -/
def handleReset (m : StatusManager) (statusKey : String) : StatusManager :=
  let m :=
    match mapGet m.PolicyStatuses statusKey with
    | some policyStatus =>
      { m with
        PolicyStatuses :=
          mapSet m.PolicyStatuses statusKey
            { policyStatus with SuccessedNumber := 0, FailedNumber := 0, NodeMessages := [] } }
    | none => m
  match mapGet m.ModelingStatuses statusKey with
  | some modelingStatus =>
    { m with
      ModelingStatuses :=
        mapSet m.ModelingStatuses statusKey { modelingStatus with CompletedNumber := 0 } }
  | none => m

/-- The ArmorProfiles that `rebuildPolicyStatuses` visits, in order: those of the
namespaces whose list the cluster API returns. -/
def listedArmorProfiles (nsItems : List String)
    (apLists : String → Except String (List ArmorProfile)) : List ArmorProfile :=
  nsItems.flatMap (fun ns =>
    match apLists ns with
    | .ok apItems => apItems
    | .error _ => [])

/-- The status keys that the helper derives for a list of ArmorProfiles. -/
def derivedStatusKeys (generatePolicyStatusKeyWithArmorProfile : ArmorProfile → Except String String)
    (aps : List ArmorProfile) : List String :=
  aps.filterMap (fun ap =>
    match generatePolicyStatusKeyWithArmorProfile ap with
    | .ok statusKey => some statusKey
    | .error _ => none)

/-- The message that the conditions of an ArmorProfile give for a node: the message
of the last condition that names the node, and `ArmorProfileReady` when no
condition names it. -/
def reportedMessage (conditions : List ArmorProfileCondition) (node : String) : String :=
  match (conditions.filter (fun c => decide (c.NodeName = node))).getLast? with
  | some c => c.Message
  | none => ArmorProfileReady

/-! ## The handlers of the status manager (`internal/status/api/v1`) -/

/-- The split of a string at its slashes, as `strings.Split(key, "/")` does it. -/
def splitSlash : List Char → List (List Char)
  | [] => [[]]
  | c :: cs =>
    match splitSlash cs with
    | [] => [[]]
    | part :: parts => if c = '/' then [] :: part :: parts else (c :: part) :: parts

/-- The function `cache.SplitMetaNamespaceKey` of client-go: a key without a slash
is a name, a key with one slash is a namespace and a name, and any other key is
an error. -/
def SplitMetaNamespaceKey (key : String) : Except String (String × String) :=
  match splitSlash key.data with
  | [name] => .ok ("", String.mk name)
  | [ns, name] => .ok (String.mk ns, String.mk name)
  | _ => .error ("unexpected key format: " ++ key)

/-- The case `DeleteCh` of `reconcileStatus`: the state of the manager after the
key was processed. -/
def handleDelete (m : StatusManager) (statusKey : String) : StatusManager :=
  { m with
    PolicyStatuses := mapDelete m.PolicyStatuses statusKey
    ModelingStatuses := mapDelete m.ModelingStatuses statusKey }

/-- What a handler of `reconcileStatus` reads outside the manager: the answers of
the cluster API to its `Get` calls, the creation time of the ArmorProfile that it
gets, the outcome of the API call of `retrieveDesiredNumber`, the error (if any)
of the status update of the ArmorProfile after its retries, and the clock. -/
structure ClusterReads where
  armorProfile : String → String → Except String ArmorProfile
  createTime : Int
  varmorClusterPolicy : String → Except String VarmorClusterPolicy
  varmorPolicy : String → String → Except String VarmorPolicy
  desiredNumber : Except String Int
  armorProfileStatusError : Option String
  now : Int

/-- An object that a handler of `reconcileStatus` sends to the cluster API. -/
inductive ClusterWrite where
  | armorProfileStatus (ap : ArmorProfile)
  | varmorClusterPolicyStatus (vcp : VarmorClusterPolicy)
  | varmorPolicyStatus (vp : VarmorPolicy)
  | armorProfile (ap : ArmorProfile)
deriving DecidableEq, Repr

/-- The method `updateArmorProfileStatus`: the ArmorProfile that it sends to the
cluster API, if it sends one. A node whose message is not `ArmorProfileReady` gets
a condition. -/
def updateArmorProfileStatus (m : StatusManager) (ap : ArmorProfile)
    (policyStatus : PolicyStatus) (now : Int) : Option ArmorProfile :=
  let conditions : List ArmorProfileCondition :=
    policyStatus.NodeMessages.filterMap (fun entry =>
      if entry.2 ≠ ArmorProfileReady then
        some { NodeName := entry.1, CondType := ArmorProfileReady, Status := ConditionFalse,
               LastTransitionTime := now, Reason := "", Message := entry.2 }
      else none)
  if ap.Status.Conditions = conditions ∧
      ap.Status.CurrentNumberLoaded = policyStatus.SuccessedNumber ∧
      ap.Status.DesiredNumberLoaded = m.desiredNumber then none
  else
    some { ap with
           Status :=
             { DesiredNumberLoaded := m.desiredNumber
               CurrentNumberLoaded := policyStatus.SuccessedNumber
               Conditions := conditions } }

/-- The methods `updateVarmorPolicyStatus` and `updateVarmorClusterPolicyStatus` on
the status of the policy: the status that is sent to the cluster API, if one is
sent. -/
def updatePolicyStatus (status : VarmorPolicyStatus) (ready : Bool) (phase : String) :
    Option VarmorPolicyStatus :=
  if status.Ready = ready ∧ status.Phase = phase then none
  else
    some { status with
           Ready := ready
           Phase := if phase ≠ VarmorPolicyUnchanged then phase else status.Phase }

/-- The case `UpdateStatusCh` of `reconcileStatus`: the state of the manager after
the key was processed, and the objects sent to the cluster API, in order. -/
def handleUpdateStatus (managerNamespace : String) (m : StatusManager) (statusKey : String)
    (r : ClusterReads) : StatusManager × List ClusterWrite :=
  match mapGet m.PolicyStatuses statusKey with
  | none => (m, [])
  | some policyStatus =>
    match SplitMetaNamespaceKey statusKey with
    | .error _ => (m, [])
    | .ok (keyNamespace, vpName) =>
      let clusterScope := decide (keyNamespace = "")
      let ns := if clusterScope then managerNamespace else keyNamespace
      let apName := GenerateArmorProfileName managerNamespace ns vpName clusterScope
      match r.armorProfile ns apName with
      | .error _ => (m, [])
      | .ok ap =>
        let v : Except String PolicyObject :=
          if clusterScope then (r.varmorClusterPolicy vpName).map (fun vcp => .cluster vcp [])
          else (r.varmorPolicy ns vpName).map .namespaced
        match v with
        | .error _ => (m, [])
        | .ok v =>
          let m := if m.UpdateDesiredNumber then (retrieveDesiredNumber m r.desiredNumber).1 else m
          let apWrites :=
            match updateArmorProfileStatus m ap policyStatus r.now with
            | some ap => [ClusterWrite.armorProfileStatus ap]
            | none => []
          if apWrites ≠ [] ∧ r.armorProfileStatusError.isSome then (m, apWrites)
          else
            match v with
            | .cluster vcp _ =>
              let (ready, phase) := updateStatusCluster vcp policyStatus m.desiredNumber
              match updatePolicyStatus vcp.Status ready phase with
              | some status =>
                (m, apWrites ++ [ClusterWrite.varmorClusterPolicyStatus { vcp with Status := status }])
              | none => (m, apWrites)
            | .namespaced vp =>
              let (ready, phase) :=
                updateStatusNamespaced vp.Spec.Policy.Mode policyStatus
                  (mapGet m.ModelingStatuses statusKey) m.desiredNumber vp.Status.Phase r.now
                  r.createTime (modelingDuration vp.Spec.Policy)
              match updatePolicyStatus vp.Status ready phase with
              | some status =>
                (m, apWrites ++ [ClusterWrite.varmorPolicyStatus { vp with Status := status }])
              | none => (m, apWrites)

/-- The result of the case `UpdateModeCh` of `reconcileStatus`: the handler ends,
with a state of the manager and the objects sent to the cluster API, or the
program stops on the dereference of a nil pointer. -/
inductive UpdateModeResult where
  | done (m : StatusManager) (writes : List ClusterWrite)
  | nilDereference (m : StatusManager)
deriving DecidableEq, Repr

/-- The case `UpdateModeCh` of `reconcileStatus`. The error of `GenerateProfile` is
logged and the handler goes on to the assignment `ap.Spec.Profile = *profile`,
where `profile` is then nil. -/
def handleUpdateMode (g : Generators) (managerNamespace : String) (m : StatusManager)
    (statusKey : String) (r : ClusterReads) : UpdateModeResult :=
  match SplitMetaNamespaceKey statusKey with
  | .error _ => .done m []
  | .ok (ns, vpName) =>
    let m :=
      match mapGet m.PolicyStatuses statusKey with
      | some policyStatus =>
        { m with
          PolicyStatuses :=
            mapSet m.PolicyStatuses statusKey
              { policyStatus with FailedNumber := 0, SuccessedNumber := 0, NodeMessages := [] } }
      | none => m
    match r.varmorPolicy ns vpName with
    | .error _ => .done m []
    | .ok vp =>
      let apName := GenerateArmorProfileName managerNamespace ns vpName false
      match r.armorProfile ns apName with
      | .error _ => .done m []
      | .ok ap =>
        match GenerateProfile g vp.Spec.Policy ap.Name ap.Namespace true with
        | .error _ => .nilDereference m
        | .ok profile =>
          .done m
            [ClusterWrite.armorProfile
              { ap with
                Spec :=
                  { ap.Spec with
                    Profile := profile
                    BehaviorModeling := { ap.Spec.BehaviorModeling with Enable := false } } }]

/-! ## The cache of the policies (`internal/policycacher`) -/

/-- The function `cache.MetaNamespaceKeyFunc` of client-go on an object with the
given namespace and name: `namespace/name`, or the name alone for an object without
namespace. -/
def MetaNamespaceKeyFunc (ns name : String) : String :=
  if ns.length > 0 then ns ++ "/" ++ name else name

/-- The six maps of the `PolicyCacher`. -/
structure PolicyCacher where
  ClusterPolicyTargets : List (String × Target)
  ClusterPolicyEnforcer : List (String × String)
  ClusterPolicyMode : List (String × String)
  PolicyTargets : List (String × Target)
  PolicyEnforcer : List (String × String)
  PolicyMode : List (String × String)
deriving DecidableEq, Repr

/-- The maps of the cacher that `NewPolicyCacher` returns. -/
def NewPolicyCacher : PolicyCacher :=
  { ClusterPolicyTargets := [], ClusterPolicyEnforcer := [], ClusterPolicyMode := [],
    PolicyTargets := [], PolicyEnforcer := [], PolicyMode := [] }

/-- The method `addVarmorClusterPolicy`. -/
def addVarmorClusterPolicy (c : PolicyCacher) (vcp : VarmorClusterPolicy) : PolicyCacher :=
  let key := MetaNamespaceKeyFunc "" vcp.Name
  { c with
    ClusterPolicyTargets := mapSet c.ClusterPolicyTargets key vcp.Spec.Target
    ClusterPolicyEnforcer := mapSet c.ClusterPolicyEnforcer key vcp.Spec.Policy.Enforcer
    ClusterPolicyMode := mapSet c.ClusterPolicyMode key vcp.Spec.Policy.Mode }

/-- The method `updateVarmorClusterPolicy`, on the new object of the event. -/
def updateVarmorClusterPolicy (t : EnforcerTypes) (c : PolicyCacher) (vcp : VarmorClusterPolicy) :
    PolicyCacher :=
  let key := MetaNamespaceKeyFunc "" vcp.Name
  let refused :=
    match mapGet c.ClusterPolicyEnforcer key with
    | some e =>
      let oldEnforcers := t.GetEnforcerType e
      let newEnforcers := t.GetEnforcerType vcp.Spec.Policy.Enforcer
      (newEnforcers &&& oldEnforcers != oldEnforcers) && (newEnforcers ||| t.BPF != oldEnforcers)
    | none => false
  if refused then c
  else
    { c with
      ClusterPolicyEnforcer := mapSet c.ClusterPolicyEnforcer key vcp.Spec.Policy.Enforcer
      ClusterPolicyMode := mapSet c.ClusterPolicyMode key vcp.Spec.Policy.Mode }

/-- The method `deleteVarmorClusterPolicy`. -/
def deleteVarmorClusterPolicy (c : PolicyCacher) (vcp : VarmorClusterPolicy) : PolicyCacher :=
  let key := MetaNamespaceKeyFunc "" vcp.Name
  { c with
    ClusterPolicyTargets := mapDelete c.ClusterPolicyTargets key
    ClusterPolicyEnforcer := mapDelete c.ClusterPolicyEnforcer key
    ClusterPolicyMode := mapDelete c.ClusterPolicyMode key }

/-- The method `addVarmorPolicy`. -/
def addVarmorPolicy (c : PolicyCacher) (vp : VarmorPolicy) : PolicyCacher :=
  let key := MetaNamespaceKeyFunc vp.Namespace vp.Name
  { c with
    PolicyTargets := mapSet c.PolicyTargets key vp.Spec.Target
    PolicyEnforcer := mapSet c.PolicyEnforcer key vp.Spec.Policy.Enforcer
    PolicyMode := mapSet c.PolicyMode key vp.Spec.Policy.Mode }

/-- The method `updateVarmorPolicy`, on the new object of the event. -/
def updateVarmorPolicy (t : EnforcerTypes) (c : PolicyCacher) (vp : VarmorPolicy) : PolicyCacher :=
  let key := MetaNamespaceKeyFunc vp.Namespace vp.Name
  let refused :=
    match mapGet c.PolicyEnforcer key with
    | some e =>
      let oldEnforcers := t.GetEnforcerType e
      let newEnforcers := t.GetEnforcerType vp.Spec.Policy.Enforcer
      (newEnforcers &&& oldEnforcers != oldEnforcers) && (newEnforcers ||| t.BPF != oldEnforcers)
    | none => false
  if refused then c
  else
    { c with
      PolicyEnforcer := mapSet c.PolicyEnforcer key vp.Spec.Policy.Enforcer
      PolicyMode := mapSet c.PolicyMode key vp.Spec.Policy.Mode }

/-- The method `deleteVarmorPolicy`. -/
def deleteVarmorPolicy (c : PolicyCacher) (vp : VarmorPolicy) : PolicyCacher :=
  let key := MetaNamespaceKeyFunc vp.Namespace vp.Name
  { c with
    PolicyTargets := mapDelete c.PolicyTargets key
    PolicyEnforcer := mapDelete c.PolicyEnforcer key
    PolicyMode := mapDelete c.PolicyMode key }

/-- An event that the informers deliver to the handlers registered by `Run`; an
update event is given by its new object. -/
inductive CacherEvent where
  | addCluster (vcp : VarmorClusterPolicy)
  | updateCluster (vcp : VarmorClusterPolicy)
  | deleteCluster (vcp : VarmorClusterPolicy)
  | addPolicy (vp : VarmorPolicy)
  | updatePolicy (vp : VarmorPolicy)
  | deletePolicy (vp : VarmorPolicy)
deriving DecidableEq, Repr

/-- The handler that `Run` registers for an event. -/
def handleCacherEvent (t : EnforcerTypes) (c : PolicyCacher) : CacherEvent → PolicyCacher
  | .addCluster vcp => addVarmorClusterPolicy c vcp
  | .updateCluster vcp => updateVarmorClusterPolicy t c vcp
  | .deleteCluster vcp => deleteVarmorClusterPolicy c vcp
  | .addPolicy vp => addVarmorPolicy c vp
  | .updatePolicy vp => updateVarmorPolicy t c vp
  | .deletePolicy vp => deleteVarmorPolicy c vp

/-- The maps of the cacher after a sequence of events, handled in order. -/
def handleCacherEvents (t : EnforcerTypes) (c : PolicyCacher) (events : List CacherEvent) :
    PolicyCacher :=
  events.foldl (handleCacherEvent t) c

/-- Every row of the cacher is a complete triple: for each scope, the maps of the
targets, of the enforcers and of the modes have the same keys. -/
def rowsComplete (c : PolicyCacher) : Prop :=
  ∀ key,
    ((key ∈ mapKeys c.ClusterPolicyTargets ↔ key ∈ mapKeys c.ClusterPolicyEnforcer)
      ∧ (key ∈ mapKeys c.ClusterPolicyEnforcer ↔ key ∈ mapKeys c.ClusterPolicyMode))
    ∧ ((key ∈ mapKeys c.PolicyTargets ↔ key ∈ mapKeys c.PolicyEnforcer)
      ∧ (key ∈ mapKeys c.PolicyEnforcer ↔ key ∈ mapKeys c.PolicyMode))

/-- Every update event of the sequence concerns a policy whose target is cached
when the event is handled. -/
def updatesOfCachedPolicies (t : EnforcerTypes) : PolicyCacher → List CacherEvent → Bool
  | _, [] => true
  | c, event :: events =>
    (match event with
      | .updateCluster vcp =>
        (mapGet c.ClusterPolicyTargets (MetaNamespaceKeyFunc "" vcp.Name)).isSome
      | .updatePolicy vp =>
        (mapGet c.PolicyTargets (MetaNamespaceKeyFunc vp.Namespace vp.Name)).isSome
      | _ => true)
    && updatesOfCachedPolicies t (handleCacherEvent t c event) events

/-! ## The cache of the egress information (`internal/policy`) -/

/-- The egress information of a policy (`varmortypes.EgressInfo`); the types `P` and
`S` of the entries of its two lists are declared in a package that is not among
the sources. -/
structure EgressInfo (P S : Type) where
  ToPods : List P
  ToServices : List S
deriving DecidableEq, Repr

/-- The third step of `handleUpdateVarmorClusterPolicy`, reached when the update is
accepted and the profile generated: the egress cache after it. `egressInfo` is the
pointer that the generation of the profile returned. -/
def updateEgressCache {P S : Type} (egressCache : List (String × EgressInfo P S))
    (statusKey : String) (egressInfo : Option (EgressInfo P S)) :
    List (String × EgressInfo P S) :=
  match egressInfo with
  | none => egressCache
  | some egressInfo =>
    let policyKey := statusKey
    let egressCache := mapDelete egressCache policyKey
    if egressInfo.ToPods.length > 0 ∨ egressInfo.ToServices.length > 0 then
      mapSet egressCache policyKey egressInfo
    else egressCache

/-! ## The target processes of a trace (`internal/behavior/preprocessor`) -/

/-- The fields of a `varmortypes.BpfTraceEvent` that `gatherTargetPIDs` reads. -/
structure BpfTraceEvent where
  EventType : Nat
  ParentTgid : Nat
  ChildTgid : Nat
  MntNsId : Nat
deriving DecidableEq, Repr

/-- The two sets of the `DataPreprocessor` that `gatherTargetPIDs` reads and
writes; a set is the list of its members. -/
structure DataPreprocessor where
  targetPIDs : List Nat
  targetMnts : List Nat
deriving DecidableEq, Repr

/-- The method `containTargetPID`. -/
def containTargetPID (p : DataPreprocessor) (pid : Nat) : Bool := decide (pid ∈ p.targetPIDs)

/-- The method `addTargetPID`. -/
def addTargetPID (p : DataPreprocessor) (pid : Nat) : DataPreprocessor :=
  if pid ∈ p.targetPIDs then p else { p with targetPIDs := p.targetPIDs ++ [pid] }

/-- The method `containTargetMnt`. -/
def containTargetMnt (p : DataPreprocessor) (id : Nat) : Bool := decide (id ∈ p.targetMnts)

/-- The body of the loop of `gatherTargetPIDs` for one decoded event.
`SchedProcessFork` and `SchedProcessExec` are the two event types of the package
`internal/types`, which is not among the sources. -/
def gatherTargetPID (SchedProcessFork SchedProcessExec : Nat) (p : DataPreprocessor)
    (event : BpfTraceEvent) : DataPreprocessor :=
  if event.EventType = SchedProcessFork ∨ event.EventType = SchedProcessExec then
    if event.ParentTgid ≠ event.ChildTgid ∧ containTargetPID p event.ParentTgid ∧
        ¬ containTargetPID p event.ChildTgid then
      addTargetPID p event.ChildTgid
    else if containTargetMnt p event.MntNsId ∧ ¬ containTargetPID p event.ChildTgid then
      addTargetPID p event.ChildTgid
    else p
  else p

/-- The method `gatherTargetPIDs`. `record` is the sequence of the events that the
decoder reads from the record file before its first error, or the error of the
opening of the file. -/
def gatherTargetPIDs (SchedProcessFork SchedProcessExec : Nat) (p : DataPreprocessor)
    (record : Except String (List BpfTraceEvent)) : DataPreprocessor :=
  match record with
  | .error _ => p
  | .ok events => events.foldl (gatherTargetPID SchedProcessFork SchedProcessExec) p

/-- The trace is in happens-before order: no event whose child is a process comes
after an event whose parent is that process. -/
def happensBeforeOrder (events : List BpfTraceEvent) : Prop :=
  events.Pairwise (fun earlier later => later.ChildTgid ≠ earlier.ParentTgid)

instance (events : List BpfTraceEvent) : Decidable (happensBeforeOrder events) := by
  unfold happensBeforeOrder; infer_instance

/-! ## The counters of a policy status and its node messages -/

/-- The counters of a policy status agree with its node messages: `SuccessedNumber`
is the number of the messages equal to `ArmorProfileReady`, `FailedNumber` the
number of the others. -/
abbrev countersMatch (policyStatus : PolicyStatus) : Prop :=
  policyStatus.SuccessedNumber
      = policyStatus.NodeMessages.countP (fun entry => entry.2 == ArmorProfileReady)
    ∧ policyStatus.FailedNumber
      = policyStatus.NodeMessages.countP (fun entry => !(entry.2 == ArmorProfileReady))

/-- The counters of every entry of `PolicyStatuses` agree with its node messages. -/
abbrev allCountersMatch (m : StatusManager) : Prop :=
  ∀ entry ∈ m.PolicyStatuses, countersMatch entry.2

/-- The conditions of an ArmorProfile are as `updateArmorProfileStatus` writes
them, as far as the nodes of `nodes` go: the conditions of these nodes name
distinct nodes, and none of them has the message `ArmorProfileReady`. -/
abbrev failuresOfDistinctNodes (nodes : List String) (conditions : List ArmorProfileCondition) :
    Prop :=
  ((conditions.filter (fun c => InStringArray c.NodeName nodes)).map
      (fun c => c.NodeName)).Nodup
    ∧ ∀ c ∈ conditions, InStringArray c.NodeName nodes = true → c.Message ≠ ArmorProfileReady

/-- The state of the manager when the case `UpdateModeCh` ends or stops. -/
def UpdateModeResult.manager : UpdateModeResult → StatusManager
  | .done m _ => m
  | .nilDereference m => m

/-! ## Concrete objects used to evaluate the definitions -/

/-- A target naming the Deployment `web`. -/
def webTarget : Target :=
  { Kind := "Deployment", Name := "web", Containers := [], Selector := none }

/-- A cluster policy on `webTarget` with the given enforcer, mode and phase; its
modelingOptions are set (one minute) and its enhanceProtect rules are set. -/
def webPolicy (enforcer mode phase : String) : VarmorClusterPolicy :=
  { Name := "demo"
    Spec :=
      { Target := webTarget
        Policy :=
          { Enforcer := enforcer, Mode := mode, EnhanceProtect := some { Rules := [] },
            ModelingOptions := some { Duration := 1 }, Privileged := false }
        UpdateExistingWorkloads := false }
    Status := { ProfileName := "", Ready := false, Phase := phase, Conditions := [] } }

/-- The model before any report: both pointers nil. -/
def emptyModel : ArmorProfileModel := { DynamicResult := { AppArmor := none, Seccomp := none } }

/-- The report of a node that saw `/etc/hosts` read, with the given old path and
permissions, and the syscall `read`. -/
def hostsShard (oldPath : String) (perms : List String) : DynamicResult :=
  { AppArmor :=
      some { emptyAppArmor with
             Profiles := ["p"]
             Files := [{ Path := "/etc/hosts", Owner := false, OldPath := oldPath,
                         Permissions := perms }] }
    Seccomp := some { Syscalls := ["read"] } }

/-- A template for the synthesized profile. -/
def demoTemplate : ProfileTemplate :=
  { before := "profile ", between := " \x7b\n", after := "\x7d\n" }

/-- A behavior model of the profile `p` with the given signal entries. -/
def demoModel (signals : List Signal) : AppArmor :=
  { emptyAppArmor with Profiles := ["p"], Signals := signals }

/-- An observed signal entry: sending `kill`. -/
def sendKill : Signal := { Permissions := ["send"], Signals := ["kill"], Peer := "p" }

/-- An observed signal entry: receiving `term`. -/
def receiveTerm : Signal :=
  { Permissions := ["receive"], Signals := ["term"], Peer := "unconfined" }

/-- Generators that always succeed, with fixed payloads. -/
def demoGenerators : Generators where
  GenerateAlwaysAllowProfile := fun name => "profile " ++ name ++ " allow-all"
  GenerateRuntimeDefaultProfile := fun name => "profile " ++ name ++ " runtime-default"
  GenerateEnhanceProtectProfile := fun _ name _ => "profile " ++ name ++ " enhance-protect"
  GenerateBehaviorModelingProfile := fun name => "profile " ++ name ++ " complain"
  bpfGenerateRuntimeDefaultProfile := fun b => .ok b
  bpfGenerateEnhanceProtectProfile := fun _ b _ => .ok b
  seccompGenerateBehaviorModelingProfile := "seccomp-log"
  getArmorProfileModel := fun _ _ => .ok { Content := "model", SeccompContent := "model" }

/-- A policy with the given enforcer and mode. -/
def demoPolicy (enforcer mode : String) : Policy :=
  { Enforcer := enforcer, Mode := mode, EnhanceProtect := none, ModelingOptions := none,
    Privileged := false }

/-- A BehaviorModeling policy with the AppArmor enforcer whose modelingOptions are
set with duration 0. -/
def zeroDurationPolicy : Policy :=
  { Enforcer := "AppArmor", Mode := BehaviorModelingMode, EnhanceProtect := none,
    ModelingOptions := some { Duration := 0 }, Privileged := false }

/-- A cluster policy on `webTarget` with the policy `zeroDurationPolicy`. -/
def zeroDurationClusterPolicy : VarmorClusterPolicy :=
  { Name := "demo"
    Spec := { Target := webTarget, Policy := zeroDurationPolicy, UpdateExistingWorkloads := false }
    Status := { ProfileName := "", Ready := false, Phase := "", Conditions := [] } }

/-- A policy of namespace `default` on `webTarget` with the policy `zeroDurationPolicy`. -/
def zeroDurationNamespacedPolicy : VarmorPolicy :=
  { Name := "demo", Namespace := "default", Labels := []
    Spec := { Target := webTarget, Policy := zeroDurationPolicy, UpdateExistingWorkloads := false }
    Status := { ProfileName := "", Ready := false, Phase := "", Conditions := [] } }

/-- A cached policy status with no failure. -/
def allLoaded : PolicyStatus :=
  { SuccessedNumber := 3, FailedNumber := 0,
    NodeMessages := [("n1", ArmorProfileReady), ("n2", ArmorProfileReady), ("n3", ArmorProfileReady)] }

/-- A stand-in for the helper `generatePolicyStatusKeyWithArmorProfile`: the key
`namespace/name` of the ArmorProfile, and an error for an ArmorProfile without
name. -/
def demoStatusKey (ap : ArmorProfile) : Except String String :=
  if ap.Name = "" then .error "no name" else .ok (ap.Namespace ++ "/" ++ ap.Name)

/-- An ArmorProfile of namespace `default` with a failure reported by node `n1` and
one reported by node `n9`. -/
def demoArmorProfile : ArmorProfile :=
  { blankArmorProfile "varmor-default-demo" "default" [] with
    Status :=
      { DesiredNumberLoaded := 2, CurrentNumberLoaded := 1
        Conditions :=
          [{ NodeName := "n1", CondType := "Ready", Status := ConditionFalse,
             LastTransitionTime := 0, Reason := "", Message := "load failed" },
           { NodeName := "n9", CondType := "Ready", Status := ConditionFalse,
             LastTransitionTime := 0, Reason := "", Message := "gone" }] } }

/-- The lists of ArmorProfiles of a cluster where only namespace `default` can be
listed. -/
def demoArmorProfileLists (ns : String) : Except String (List ArmorProfile) :=
  if ns = "default" then .ok [demoArmorProfile] else .error "forbidden"

/-- A status manager with empty caches. -/
def emptyManager : StatusManager :=
  { UpdateDesiredNumber := false, desiredNumber := 2, PolicyStatuses := [],
    ModelingStatuses := [], debug := false }

/-- A status manager that caches, for the policy `default/demo`, a policy status
with messages of three nodes and a modeling status with messages of two nodes. -/
def demoManager : StatusManager :=
  { UpdateDesiredNumber := false, desiredNumber := 3
    PolicyStatuses :=
      [("default/demo",
        { SuccessedNumber := 2, FailedNumber := 1
          NodeMessages := [("n1", ArmorProfileReady), ("n2", ArmorProfileReady),
                           ("n3", "load failed")] })]
    ModelingStatuses :=
      [("default/demo",
        { CompletedNumber := 2, NodeMessages := [("n1", "done"), ("n2", "done")] })]
    debug := false }

/-- A namespaced policy `demo` of namespace `default` on `webTarget` with the given
enforcer and mode, and a modeling duration of one minute. -/
def demoNamespacedPolicy (enforcer mode : String) : VarmorPolicy :=
  { Name := "demo", Namespace := "default", Labels := []
    Spec :=
      { Target := webTarget
        Policy :=
          { Enforcer := enforcer, Mode := mode, EnhanceProtect := none,
            ModelingOptions := some { Duration := 1 }, Privileged := false }
        UpdateExistingWorkloads := false }
    Status := { ProfileName := "", Ready := false, Phase := VarmorPolicyModeling, Conditions := [] } }

/-- A cluster whose API returns the policy `demo` of namespace `default`, in mode
BehaviorModeling with the BPF enforcer, and its ArmorProfile `demoArmorProfile`. -/
def demoReads : ClusterReads :=
  { armorProfile := fun _ _ => .ok demoArmorProfile
    createTime := 0
    varmorClusterPolicy := fun _ => .error "not found"
    varmorPolicy := fun _ _ => .ok (demoNamespacedPolicy "BPF" BehaviorModelingMode)
    desiredNumber := .ok 3
    armorProfileStatusError := none
    now := 0 }

/-- A cacher that holds the cluster policy `demo` and the policy `default/demo`,
both on `webTarget` with the enforcer AppArmorBPF in mode EnhanceProtect. -/
def demoCacher : PolicyCacher :=
  { ClusterPolicyTargets := [("demo", webTarget)]
    ClusterPolicyEnforcer := [("demo", "AppArmorBPF")]
    ClusterPolicyMode := [("demo", EnhanceProtectMode)]
    PolicyTargets := [("default/demo", webTarget)]
    PolicyEnforcer := [("default/demo", "AppArmorBPF")]
    PolicyMode := [("default/demo", EnhanceProtectMode)] }

/-- The egress information of a policy that allows the egress to the pods with the
label `app=web` and to the service `default/web`; selectors are written as
strings. -/
def demoEgressInfo : EgressInfo String String :=
  { ToPods := ["app=web"], ToServices := ["default/web"] }

/-- A preprocessor whose targets are the process 100 and the mount namespace 7. -/
def demoPreprocessor : DataPreprocessor := { targetPIDs := [100], targetMnts := [7] }

/-- A trace with the event types 1 (fork), 2 (exec) and 3 (another type): 100 forks
101, 101 executes, 101 forks 102, a process of the mount namespace 7 forks 200, and
an event of another type. -/
def demoTrace : List BpfTraceEvent :=
  [{ EventType := 1, ParentTgid := 100, ChildTgid := 101, MntNsId := 5 },
   { EventType := 2, ParentTgid := 101, ChildTgid := 101, MntNsId := 5 },
   { EventType := 1, ParentTgid := 101, ChildTgid := 102, MntNsId := 5 },
   { EventType := 1, ParentTgid := 50, ChildTgid := 200, MntNsId := 7 },
   { EventType := 3, ParentTgid := 102, ChildTgid := 300, MntNsId := 5 }]

/-- The file entry of `/etc/passwd` read by any user. -/
def passwdFile : File :=
  { Path := "/etc/passwd", Owner := false, OldPath := "", Permissions := ["r"] }

/-- The file entry of `/etc/hosts` read by any user. -/
def hostsRead : File :=
  { Path := "/etc/hosts", Owner := false, OldPath := "", Permissions := ["r"] }

/-- An ArmorProfile of namespace `default` with two conditions of the node `n1`. -/
def twiceReportedArmorProfile : ArmorProfile :=
  { blankArmorProfile "varmor-default-demo" "default" [] with
    Status :=
      { DesiredNumberLoaded := 2, CurrentNumberLoaded := 1
        Conditions :=
          [{ NodeName := "n1", CondType := "Ready", Status := ConditionFalse,
             LastTransitionTime := 0, Reason := "", Message := "load failed" },
           { NodeName := "n1", CondType := "Ready", Status := ConditionFalse,
             LastTransitionTime := 1, Reason := "", Message := "load failed again" }] } }

/-- A status manager that caches the policies `default/a` and `default/b`, both
loaded on the nodes `n1` and `n2`. -/
def twoPolicyManager : StatusManager :=
  { UpdateDesiredNumber := false, desiredNumber := 2
    PolicyStatuses :=
      [("default/a",
        { SuccessedNumber := 2, FailedNumber := 0
          NodeMessages := [("n1", ArmorProfileReady), ("n2", ArmorProfileReady)] }),
       ("default/b",
        { SuccessedNumber := 2, FailedNumber := 0
          NodeMessages := [("n1", ArmorProfileReady), ("n2", ArmorProfileReady)] })]
    ModelingStatuses := []
    debug := false }

/-- The report of a node under the Seccomp enforcer: the syscall `read` and no
AppArmor part. -/
def seccompOnlyShard : DynamicResult :=
  { AppArmor := none, Seccomp := some { Syscalls := ["read"] } }

/-- The text of the profile that `demoTemplate` gives for the profile name `p` and
the rule set of a model without entries, outside debug mode. -/
def demoProfileText : String :=
  "profile p \x7b\n"
    ++ "\n  # ---- EXEC ----\n"
    ++ "\n  # ---- FILE ----\n"
    ++ "\n  # ---- CAPABILITY ----\n"
    ++ "\n  # ---- NETWORK ----\n"
    ++ "  network,\n"
    ++ "\n  # ---- PTRACE ----\n"
    ++ "  ## suppress ptrace denials when using 'docker ps' or using 'ps' inside a container\n"
    ++ "  ptrace (trace,read,tracedby,readby) peer=p,\n"
    ++ "\n  # ---- SIGNAL ----\n"
    ++ "  ## host (privileged) processes may send signals to container processes.\n"
    ++ "  signal (receive) peer=unconfined,\n"
    ++ "  ## container processes may send signals amongst themselves.\n"
    ++ "  signal (send,receive) peer=p,\n"
    ++ "\n  # ---- ADDITIONAL ----\n"
    ++ "  umount,\n"
    ++ "\x7d\n"

/-- The standard base64 encoding of `demoProfileText`. -/
def demoProfileEncoded : String :=
  "cHJvZmlsZSBwIHsKCiAgIyAtLS0tIEVYRUMgLS0tLQoKICAjIC0tLS0gRklMRSAtLS0tCgogICMgLS0t"
    ++ "LSBDQVBBQklMSVRZIC0tLS0KCiAgIyAtLS0tIE5FVFdPUksgLS0tLQogIG5ldHdvcmssCgogICMgLS0t"
    ++ "LSBQVFJBQ0UgLS0tLQogICMjIHN1cHByZXNzIHB0cmFjZSBkZW5pYWxzIHdoZW4gdXNpbmcgJ2RvY2tl"
    ++ "ciBwcycgb3IgdXNpbmcgJ3BzJyBpbnNpZGUgYSBjb250YWluZXIKICBwdHJhY2UgKHRyYWNlLHJlYWQs"
    ++ "dHJhY2VkYnkscmVhZGJ5KSBwZWVyPXAsCgogICMgLS0tLSBTSUdOQUwgLS0tLQogICMjIGhvc3QgKHBy"
    ++ "aXZpbGVnZWQpIHByb2Nlc3NlcyBtYXkgc2VuZCBzaWduYWxzIHRvIGNvbnRhaW5lciBwcm9jZXNzZXMu"
    ++ "CiAgc2lnbmFsIChyZWNlaXZlKSBwZWVyPXVuY29uZmluZWQsCiAgIyMgY29udGFpbmVyIHByb2Nlc3Nl"
    ++ "cyBtYXkgc2VuZCBzaWduYWxzIGFtb25nc3QgdGhlbXNlbHZlcy4KICBzaWduYWwgKHNlbmQscmVjZWl2"
    ++ "ZSkgcGVlcj1wLAoKICAjIC0tLS0gQURESVRJT05BTCAtLS0tCiAgdW1vdW50LAp9Cg=="

/-! ## Properties of the admissibility checks -/

theorem testBit_of_and_eq_zero {a b : Nat} (h : a &&& b = 0) (i : Nat) :
    (a.testBit i && b.testBit i) = false := by
  have := congrArg (fun n => Nat.testBit n i) h
  simpa [Nat.testBit_and] using this

theorem accepted_update_keeps_mask (bpf m newE oldE : Nat) (hm : bpf &&& m = 0)
    (h : removesActivatedEnforcer bpf newE oldE = false) :
    (oldE &&& m) &&& newE = oldE &&& m := by
  have h' : newE &&& oldE = oldE ∨ newE ||| bpf = oldE := by
    unfold removesActivatedEnforcer at h
    by_cases h1 : newE &&& oldE = oldE
    · exact Or.inl h1
    · right
      by_contra h2
      simp [h1, h2] at h
  apply Nat.eq_of_testBit_eq
  intro i
  have hb := testBit_of_and_eq_zero hm i
  rcases h' with h1 | h2
  · have e := congrArg (fun n => Nat.testBit n i) h1
    simp only [Nat.testBit_and] at e ⊢
    revert e
    cases newE.testBit i <;> cases oldE.testBit i <;> cases m.testBit i <;> simp
  · have e := congrArg (fun n => Nat.testBit n i) h2
    simp only [Nat.testBit_or] at e
    simp only [Nat.testBit_and]
    revert e hb
    cases newE.testBit i <;> cases oldE.testBit i <;> cases m.testBit i <;>
      cases bpf.testBit i <;> simp

/-- C3: when the enforcer check of `ignoreUpdate` does not refuse an update from
the enforcer bitset `oldE` to `newE`, every AppArmor bit and every Seccomp bit
set in `oldE` is set in `newE`. The masks are those of `internal/types`, taken
with no bit in common with the BPF mask. -/
theorem accepted_update_keeps_AppArmor_and_Seccomp (t : EnforcerTypes)
    (hA : t.BPF &&& t.AppArmor = 0) (hS : t.BPF &&& t.Seccomp = 0) (newE oldE : Nat)
    (h : removesActivatedEnforcer t.BPF newE oldE = false) :
    (oldE &&& t.AppArmor) &&& newE = oldE &&& t.AppArmor
      ∧ (oldE &&& t.Seccomp) &&& newE = oldE &&& t.Seccomp :=
  ⟨accepted_update_keeps_mask t.BPF t.AppArmor newE oldE hA h,
   accepted_update_keeps_mask t.BPF t.Seccomp newE oldE hS h⟩

/-- Witness of C3: dropping BPF from AppArmor+BPF+Seccomp is accepted and keeps
the AppArmor and Seccomp bits. -/
theorem accepted_update_keeps_AppArmor_and_Seccomp_witness :
    removesActivatedEnforcer specEnforcerTypes.BPF 5 7 = false
      ∧ ((7 &&& specEnforcerTypes.AppArmor) &&& 5 = 7 &&& specEnforcerTypes.AppArmor
        ∧ (7 &&& specEnforcerTypes.Seccomp) &&& 5 = 7 &&& specEnforcerTypes.Seccomp) :=
  ⟨by decide,
   accepted_update_keeps_AppArmor_and_Seccomp specEnforcerTypes (by decide) (by decide) 5 7
     (by decide)⟩

/-- C4, the code at two failing inputs: the update from AppArmor+BPF (3) to
AppArmor+Seccomp (5) and the update from BPF (2) to AppArmor (1) keep every
AppArmor and Seccomp bit of the old bitset, and the enforcer check refuses both,
so that `ignoreUpdate` ignores the update with the message of that check. -/
theorem enforcer_check_refuses_BPF_replaced_by_Seccomp :
    ((3 &&& specEnforcerTypes.AppArmor) &&& 5 = 3 &&& specEnforcerTypes.AppArmor
      ∧ (3 &&& specEnforcerTypes.Seccomp) &&& 5 = 3 &&& specEnforcerTypes.Seccomp
      ∧ removesActivatedEnforcer specEnforcerTypes.BPF 5 3 = true)
    ∧ ((2 &&& specEnforcerTypes.AppArmor) &&& 1 = 2 &&& specEnforcerTypes.AppArmor
      ∧ (2 &&& specEnforcerTypes.Seccomp) &&& 1 = 2 &&& specEnforcerTypes.Seccomp
      ∧ removesActivatedEnforcer specEnforcerTypes.BPF 1 2 = true)
    ∧ (ignoreUpdate { enableBehaviorModeling := true } specEnforcerTypes
          (webPolicy "AppArmorSeccomp" AlwaysAllowMode VarmorPolicyProtecting)
          { Target := webTarget, Enforcer := "AppArmorBPF" } 0).1 = true
    ∧ (ignoreUpdate { enableBehaviorModeling := true } specEnforcerTypes
          (webPolicy "AppArmorSeccomp" AlwaysAllowMode VarmorPolicyProtecting)
          { Target := webTarget, Enforcer := "AppArmorBPF" } 0).2.Status.Conditions
        = [{ CondType := VarmorPolicyUpdated, Status := ConditionFalse, LastTransitionTime := 0,
             Reason := "Forbidden",
             Message := "Modifying a policy to remove the AppArmor or Seccomp enforcer is not allowed. To remove them, you need to recreate the policy object." }]
    ∧ (ignoreUpdate { enableBehaviorModeling := true } specEnforcerTypes
          (webPolicy "AppArmor" AlwaysAllowMode VarmorPolicyProtecting)
          { Target := webTarget, Enforcer := "BPF" } 0).1 = true := by
  decide

theorem overwriteCondition_found (c : VarmorPolicyCondition) (conds : List VarmorPolicyCondition)
    (h : (overwriteCondition c conds).2 = true) :
    (overwriteCondition c conds).1.find? (fun x => x.CondType == c.CondType) = some c := by
  induction conds with
  | nil => simp [overwriteCondition] at h
  | cons x xs ih =>
    unfold overwriteCondition at h ⊢
    by_cases hx : x.CondType = c.CondType
    · simp [hx]
    · simp only [hx, if_false] at h ⊢
      have hb : (x.CondType == c.CondType) = false := beq_false_of_ne hx
      simp only [List.find?, hb]
      exact ih h

theorem overwriteCondition_missing (c : VarmorPolicyCondition) (conds : List VarmorPolicyCondition)
    (h : (overwriteCondition c conds).2 = false) :
    (overwriteCondition c conds).1 = conds ∧ ∀ x ∈ conds, x.CondType ≠ c.CondType := by
  induction conds with
  | nil => simp [overwriteCondition]
  | cons x xs ih =>
    unfold overwriteCondition at h ⊢
    by_cases hx : x.CondType = c.CondType
    · simp [hx] at h
    · simp only [hx, if_false] at h ⊢
      obtain ⟨h1, h2⟩ := ih h
      refine ⟨by rw [h1], ?_⟩
      intro y hy
      rcases List.mem_cons.1 hy with rfl | hy
      · exact hx
      · exact h2 y hy

theorem find_append_of_all_ne (c : VarmorPolicyCondition) (conds : List VarmorPolicyCondition)
    (h : ∀ x ∈ conds, x.CondType ≠ c.CondType) :
    (conds ++ [c]).find? (fun x => x.CondType == c.CondType) = some c := by
  induction conds with
  | nil => simp
  | cons x xs ih =>
    have hx : x.CondType ≠ c.CondType := h x (List.mem_cons_self _ _)
    have hb : (x.CondType == c.CondType) = false := beq_false_of_ne hx
    simp only [List.cons_append, List.find?, hb]
    exact ih (fun y hy => h y (List.mem_cons_of_mem _ hy))

theorem updateConditions_records (conds : List VarmorPolicyCondition) (c : VarmorPolicyCondition)
    (ht : c.CondType = VarmorPolicyCreated ∨ c.CondType = VarmorPolicyUpdated
      ∨ c.CondType = VarmorPolicyReady) :
    (updateConditions conds c).find? (fun x => x.CondType == c.CondType) = some c := by
  unfold updateConditions
  simp only [ht, if_true]
  cases h : (overwriteCondition c conds).2
  · obtain ⟨h1, h2⟩ := overwriteCondition_missing c conds h
    simp only [Bool.false_eq_true, if_false, h1]
    exact find_append_of_all_ne c conds h2
  · simp only [if_true]
    exact overwriteCondition_found c conds h

/-- The condition that a status update records is the first of its type in the
written status, the written phase is the requested one unless `Unchanged` is
requested, and the spec is not touched. -/
theorem UpdateVarmorClusterPolicyStatus_records (vcp : VarmorClusterPolicy)
    (profileName : String) (ready : Bool) (phase condType status reason message : String)
    (now : Int)
    (ht : condType = VarmorPolicyCreated ∨ condType = VarmorPolicyUpdated
      ∨ condType = VarmorPolicyReady) :
    (UpdateVarmorClusterPolicyStatus vcp profileName ready phase condType status reason message
        now).Status.Conditions.find? (fun x => x.CondType == condType)
      = some { CondType := condType, Status := status, LastTransitionTime := now,
               Reason := reason, Message := message } := by
  unfold UpdateVarmorClusterPolicyStatus
  exact updateConditions_records vcp.Status.Conditions
    { CondType := condType, Status := status, LastTransitionTime := now,
      Reason := reason, Message := message } ht

theorem ignoreAdd_admits_iff_conditions (c : ClusterPolicyController) (ns : String)
    (vcp : VarmorClusterPolicy) (now : Int) :
    (ignoreAdd c ns vcp now).1 = false ↔
      ((vcp.Spec.Target.Kind = "Deployment" ∨ vcp.Spec.Target.Kind = "StatefulSet"
          ∨ vcp.Spec.Target.Kind = "DaemonSet" ∨ vcp.Spec.Target.Kind = "Pod")
        ∧ ((vcp.Spec.Target.Name ≠ "" ∧ vcp.Spec.Target.Selector = none)
          ∨ (vcp.Spec.Target.Name = "" ∧ vcp.Spec.Target.Selector ≠ none))
        ∧ (vcp.Spec.Policy.Mode = EnhanceProtectMode → vcp.Spec.Policy.EnhanceProtect ≠ none)
        ∧ (vcp.Spec.Policy.Mode = BehaviorModelingMode →
            c.enableBehaviorModeling = true ∧ vcp.Spec.Policy.ModelingOptions ≠ none)
        ∧ len (GenerateArmorProfileName ns ns vcp.Name true) ≤ 63) := by
  unfold ignoreAdd
  simp only [apply_ite Prod.fst]
  by_cases k : vcp.Spec.Target.Kind ≠ "Deployment" ∧ vcp.Spec.Target.Kind ≠ "StatefulSet"
      ∧ vcp.Spec.Target.Kind ≠ "DaemonSet" ∧ vcp.Spec.Target.Kind ≠ "Pod"
  · rw [if_pos k]
    constructor
    · intro h; cases h
    · intro h
      rcases h.1 with h1 | h1 | h1 | h1
      · exact absurd h1 k.1
      · exact absurd h1 k.2.1
      · exact absurd h1 k.2.2.1
      · exact absurd h1 k.2.2.2
  rw [if_neg k]
  by_cases e : vcp.Spec.Target.Name = "" ∧ vcp.Spec.Target.Selector = none
  · rw [if_pos e]
    constructor
    · intro h; cases h
    · intro h
      rcases h.2.1 with h1 | h1
      · exact absurd e.1 h1.1
      · exact absurd e.2 h1.2
  rw [if_neg e]
  by_cases b : vcp.Spec.Target.Name ≠ "" ∧ vcp.Spec.Target.Selector ≠ none
  · rw [if_pos b]
    constructor
    · intro h; cases h
    · intro h
      rcases h.2.1 with h1 | h1
      · exact absurd h1.2 b.2
      · exact absurd h1.1 b.1
  rw [if_neg b]
  by_cases p : vcp.Spec.Policy.Mode = EnhanceProtectMode ∧ vcp.Spec.Policy.EnhanceProtect = none
  · rw [if_pos p]
    constructor
    · intro h; cases h
    · intro h
      exact absurd p.2 (h.2.2.1 p.1)
  rw [if_neg p]
  by_cases d : c.enableBehaviorModeling = false ∧ vcp.Spec.Policy.Mode = BehaviorModelingMode
  · rw [if_pos d]
    constructor
    · intro h; cases h
    · intro h
      have := (h.2.2.2.1 d.2).1
      rw [d.1] at this
      cases this
  rw [if_neg d]
  by_cases m : c.enableBehaviorModeling = true ∧ vcp.Spec.Policy.Mode = BehaviorModelingMode
      ∧ vcp.Spec.Policy.ModelingOptions = none
  · rw [if_pos m]
    constructor
    · intro h; cases h
    · intro h
      exact absurd m.2.2 (h.2.2.2.1 m.2.1).2
  rw [if_neg m]
  by_cases l : len (GenerateArmorProfileName ns ns vcp.Name true) > 63
  · rw [if_pos l]
    constructor
    · intro h; cases h
    · intro h
      exact absurd h.2.2.2.2 (Nat.not_le.2 l)
  rw [if_neg l]
  refine ⟨fun _ => ⟨?_, ?_, ?_, ?_, ?_⟩, fun _ => rfl⟩
  · by_contra hk
    exact k ⟨fun x => hk (Or.inl x), fun x => hk (Or.inr (Or.inl x)),
      fun x => hk (Or.inr (Or.inr (Or.inl x))), fun x => hk (Or.inr (Or.inr (Or.inr x)))⟩
  · by_cases n : vcp.Spec.Target.Name = ""
    · by_cases s : vcp.Spec.Target.Selector = none
      · exact absurd ⟨n, s⟩ e
      · exact Or.inr ⟨n, s⟩
    · by_cases s : vcp.Spec.Target.Selector = none
      · exact Or.inl ⟨n, s⟩
      · exact absurd ⟨n, s⟩ b
  · intro hm ho
    exact p ⟨hm, ho⟩
  · intro hm
    refine ⟨?_, ?_⟩
    · cases hc : c.enableBehaviorModeling
      · exact absurd ⟨hc, hm⟩ d
      · rfl
    · intro ho
      cases hc : c.enableBehaviorModeling
      · exact absurd ⟨hc, hm⟩ d
      · exact m ⟨hc, hm, ho⟩
  · exact Nat.le_of_not_lt l

theorem ignoreAdd_rejection_recorded (c : ClusterPolicyController) (ns : String)
    (vcp : VarmorClusterPolicy) (now : Int) (h : (ignoreAdd c ns vcp now).1 = true) :
    ∃ cond, (ignoreAdd c ns vcp now).2.Status.Conditions.find?
        (fun x => x.CondType == VarmorPolicyCreated) = some cond
      ∧ cond.Status = ConditionFalse ∧ cond.Reason = "Forbidden" := by
  unfold ignoreAdd at h ⊢
  split_ifs at h ⊢ <;>
    exact ⟨_, UpdateVarmorClusterPolicyStatus_records _ _ _ _ _ _ _ _ _ (Or.inl rfl), rfl, rfl⟩

/-- C5: `ignoreAdd` admits a cluster policy (ignore = false) exactly when the
target kind is Deployment, StatefulSet, DaemonSet or Pod, exactly one of target
name and target selector is set, mode EnhanceProtect comes with enhanceProtect,
mode BehaviorModeling comes with the feature enabled and with modelingOptions,
and the derived ArmorProfile name is at most 63 bytes long; and every rejection
writes a status whose condition Created is False with reason Forbidden. -/
theorem ignoreAdd_admits_iff (c : ClusterPolicyController) (ns : String)
    (vcp : VarmorClusterPolicy) (now : Int) :
    ((ignoreAdd c ns vcp now).1 = false ↔
      ((vcp.Spec.Target.Kind = "Deployment" ∨ vcp.Spec.Target.Kind = "StatefulSet"
          ∨ vcp.Spec.Target.Kind = "DaemonSet" ∨ vcp.Spec.Target.Kind = "Pod")
        ∧ ((vcp.Spec.Target.Name ≠ "" ∧ vcp.Spec.Target.Selector = none)
          ∨ (vcp.Spec.Target.Name = "" ∧ vcp.Spec.Target.Selector ≠ none))
        ∧ (vcp.Spec.Policy.Mode = EnhanceProtectMode → vcp.Spec.Policy.EnhanceProtect ≠ none)
        ∧ (vcp.Spec.Policy.Mode = BehaviorModelingMode →
            c.enableBehaviorModeling = true ∧ vcp.Spec.Policy.ModelingOptions ≠ none)
        ∧ len (GenerateArmorProfileName ns ns vcp.Name true) ≤ 63))
    ∧ ((ignoreAdd c ns vcp now).1 = true →
        ∃ cond, (ignoreAdd c ns vcp now).2.Status.Conditions.find?
            (fun x => x.CondType == VarmorPolicyCreated) = some cond
          ∧ cond.Status = ConditionFalse ∧ cond.Reason = "Forbidden") :=
  ⟨ignoreAdd_admits_iff_conditions c ns vcp now, ignoreAdd_rejection_recorded c ns vcp now⟩

/-- C6, the code at the failing input: with the behavior-modeling feature
disabled, an update of a protecting AppArmor policy to mode BehaviorModeling
(modelingOptions set, target and enforcer unchanged) is not ignored by
`ignoreUpdate` and leaves the policy object as it was, while `ignoreAdd` refuses
the same policy. -/
theorem ignoreUpdate_admits_BehaviorModeling_when_feature_disabled :
    ignoreUpdate { enableBehaviorModeling := false } specEnforcerTypes
        (webPolicy "AppArmor" BehaviorModelingMode VarmorPolicyProtecting)
        { Target := webTarget, Enforcer := "AppArmor" } 0
      = (false, webPolicy "AppArmor" BehaviorModelingMode VarmorPolicyProtecting)
    ∧ (ignoreAdd { enableBehaviorModeling := false } "varmor"
        (webPolicy "AppArmor" BehaviorModelingMode VarmorPolicyProtecting) 0).1 = true := by
  decide

/-- C7: `ignoreUpdate` ignores the update, writes a status whose condition Updated
is False with reason Forbidden and keeps the phase (and the spec) of the policy,
whenever the new target differs from the target of the ArmorProfile, or the
policy is in phase Modeling and the new mode is not BehaviorModeling or the new
enforcer bitset differs from that of the ArmorProfile. -/
theorem ignoreUpdate_rejects_target_or_modeling_change (c : ClusterPolicyController)
    (t : EnforcerTypes) (newVcp : VarmorClusterPolicy) (oldAp : OldArmorProfile) (now : Int)
    (h : newVcp.Spec.Target ≠ oldAp.Target
      ∨ (newVcp.Status.Phase = VarmorPolicyModeling
        ∧ (newVcp.Spec.Policy.Mode ≠ BehaviorModelingMode
          ∨ t.GetEnforcerType newVcp.Spec.Policy.Enforcer
              ≠ t.GetEnforcerType oldAp.Enforcer))) :
    (ignoreUpdate c t newVcp oldAp now).1 = true
      ∧ (ignoreUpdate c t newVcp oldAp now).2.Status.Phase = newVcp.Status.Phase
      ∧ (ignoreUpdate c t newVcp oldAp now).2.Spec = newVcp.Spec
      ∧ ∃ cond, (ignoreUpdate c t newVcp oldAp now).2.Status.Conditions.find?
            (fun x => x.CondType == VarmorPolicyUpdated) = some cond
          ∧ cond.Status = ConditionFalse ∧ cond.Reason = "Forbidden" := by
  unfold ignoreUpdate
  simp only []
  by_cases h1 : newVcp.Spec.Target ≠ oldAp.Target
  · rw [if_pos h1]
    exact ⟨rfl, by simp [UpdateVarmorClusterPolicyStatus], rfl,
      _, UpdateVarmorClusterPolicyStatus_records _ _ _ _ _ _ _ _ _ (Or.inr (Or.inl rfl)), rfl, rfl⟩
  · rw [if_neg h1]
    rcases h with h | ⟨hp, hm⟩
    · exact absurd h h1
    · by_cases h2 : newVcp.Spec.Policy.Mode ≠ BehaviorModelingMode
      · rw [if_pos ⟨h2, hp⟩]
        exact ⟨rfl, by simp [UpdateVarmorClusterPolicyStatus], rfl,
          _, UpdateVarmorClusterPolicyStatus_records _ _ _ _ _ _ _ _ _ (Or.inr (Or.inl rfl)),
          rfl, rfl⟩
      · rw [if_neg (fun hh => h2 hh.1)]
        have h2' : newVcp.Spec.Policy.Mode = BehaviorModelingMode := not_not.1 h2
        have h3 : t.GetEnforcerType newVcp.Spec.Policy.Enforcer
            ≠ t.GetEnforcerType oldAp.Enforcer := by
          rcases hm with hm | hm
          · exact absurd hm h2
          · exact hm
        rw [if_pos ⟨h2', hp, h3⟩]
        exact ⟨rfl, by simp [UpdateVarmorClusterPolicyStatus], rfl,
          _, UpdateVarmorClusterPolicyStatus_records _ _ _ _ _ _ _ _ _ (Or.inr (Or.inl rfl)),
          rfl, rfl⟩

/-- Witness of C7: a policy in phase Modeling whose mode is changed to AlwaysAllow. -/
theorem ignoreUpdate_rejects_target_or_modeling_change_witness :
    ((webPolicy "AppArmor" AlwaysAllowMode VarmorPolicyModeling).Spec.Target ≠ webTarget
      ∨ ((webPolicy "AppArmor" AlwaysAllowMode VarmorPolicyModeling).Status.Phase
            = VarmorPolicyModeling
        ∧ ((webPolicy "AppArmor" AlwaysAllowMode VarmorPolicyModeling).Spec.Policy.Mode
              ≠ BehaviorModelingMode
          ∨ specEnforcerTypes.GetEnforcerType "AppArmor"
              ≠ specEnforcerTypes.GetEnforcerType "AppArmor")))
    ∧ (ignoreUpdate { enableBehaviorModeling := true } specEnforcerTypes
          (webPolicy "AppArmor" AlwaysAllowMode VarmorPolicyModeling)
          { Target := webTarget, Enforcer := "AppArmor" } 0).1 = true :=
  ⟨by decide,
   (ignoreUpdate_rejects_target_or_modeling_change { enableBehaviorModeling := true }
      specEnforcerTypes (webPolicy "AppArmor" AlwaysAllowMode VarmorPolicyModeling)
      { Target := webTarget, Enforcer := "AppArmor" } 0 (by decide)).1⟩

/-! ## Properties of the profile generator -/

theorem GenerateProfile_outside_table (g : Generators) (policy : Policy) (name ns : String)
    (complete : Bool) (h : specAdmissible policy.Mode policy.Enforcer = false) :
    ∃ err, GenerateProfile g policy name ns complete = .error err := by
  unfold specAdmissible at h
  simp only [decide_eq_false_iff_not, not_or, not_and] at h
  obtain ⟨h1, h2⟩ := h
  unfold GenerateProfile
  simp only []
  split_ifs with m1 e1 e2 m2 e3 e4 m3 e5 e6 m4 e7 hc e8 e9 m5 e10 e11 e12
  all_goals first
    | exact ⟨_, rfl⟩
    | (exfalso; first
        | exact (h1 (Or.inl m1)).1 e1
        | exact (h1 (Or.inl m1)).2 e2
        | exact (h1 (Or.inr (Or.inl m2))).1 e3
        | exact (h1 (Or.inr (Or.inl m2))).2 e4
        | exact (h1 (Or.inr (Or.inr m3))).1 e5
        | exact (h1 (Or.inr (Or.inr m3))).2 e6
        | exact (h2 (Or.inl m4)).1 e7
        | exact (h2 (Or.inl m4)).2 e9
        | exact (h2 (Or.inr m5)).1 e10
        | exact (h2 (Or.inr m5)).2 e12)


theorem GenerateProfile_inside_table (g : Generators) (policy : Policy) (name ns : String)
    (complete : Bool) (h : specAdmissible policy.Mode policy.Enforcer = true)
    (hb1 : ∃ b, g.bpfGenerateRuntimeDefaultProfile { Rules := [] } = .ok b)
    (hb2 : ∃ b, g.bpfGenerateEnhanceProtectProfile policy.EnhanceProtect { Rules := [] }
      policy.Privileged = .ok b)
    (hm : ∃ m, g.getArmorProfileModel ns name = .ok m) :
    ∃ p, GenerateProfile g policy name ns complete = .ok p ∧ p.Name = name
      ∧ p.Enforcer = policy.Enforcer := by
  obtain ⟨b1, hb1⟩ := hb1
  obtain ⟨b2, hb2⟩ := hb2
  obtain ⟨m, hm⟩ := hm
  unfold specAdmissible at h
  simp only [decide_eq_true_eq] at h
  unfold GenerateProfile
  simp only [hb1, hb2, hm]
  split_ifs with m1 e1 e2 m2 e3 e4 m3 e5 e6 m4 e7 hc e8 e9 m5 e10 e11 e12
  all_goals first
    | exact ⟨_, rfl, rfl, rfl⟩
    | (exfalso
       rcases h with ⟨hmode, henf⟩ | ⟨hmode, henf⟩
       all_goals simp_all [AlwaysAllowMode, RuntimeDefaultMode, EnhanceProtectMode,
         BehaviorModelingMode, DefenseInDepthMode])

/-- C8: `GenerateProfile` returns an error for every (mode, enforcer) pair outside
the admissible table, and for every pair inside the table it returns a profile
with the given name and the enforcer of the policy, provided the BPF generators
and the lookup of the ArmorProfileModel succeed. -/
theorem GenerateProfile_admissible_table (g : Generators) (policy : Policy) (name ns : String)
    (complete : Bool) :
    (specAdmissible policy.Mode policy.Enforcer = false →
      ∃ err, GenerateProfile g policy name ns complete = .error err)
    ∧ (specAdmissible policy.Mode policy.Enforcer = true →
        (∃ b, g.bpfGenerateRuntimeDefaultProfile { Rules := [] } = .ok b) →
        (∃ b, g.bpfGenerateEnhanceProtectProfile policy.EnhanceProtect { Rules := [] }
          policy.Privileged = .ok b) →
        (∃ m, g.getArmorProfileModel ns name = .ok m) →
        ∃ p, GenerateProfile g policy name ns complete = .ok p ∧ p.Name = name
          ∧ p.Enforcer = policy.Enforcer) :=
  ⟨GenerateProfile_outside_table g policy name ns complete,
   GenerateProfile_inside_table g policy name ns complete⟩

/-- Witness of C8: the pair (RuntimeDefault, BPF) is in the table and yields a
profile; the pair (RuntimeDefault, Seccomp) is outside and yields an error. -/
theorem GenerateProfile_admissible_table_witness :
    (specAdmissible RuntimeDefaultMode "BPF" = true
      ∧ ∃ p, GenerateProfile demoGenerators (demoPolicy "BPF" RuntimeDefaultMode)
          "varmor-demo" "demo" false = .ok p ∧ p.Name = "varmor-demo" ∧ p.Enforcer = "BPF")
    ∧ (specAdmissible RuntimeDefaultMode "Seccomp" = false
      ∧ ∃ err, GenerateProfile demoGenerators (demoPolicy "Seccomp" RuntimeDefaultMode)
          "varmor-demo" "demo" false = .error err) :=
  ⟨⟨by decide,
    (GenerateProfile_admissible_table demoGenerators (demoPolicy "BPF" RuntimeDefaultMode)
      "varmor-demo" "demo" false).2 (by decide) ⟨_, rfl⟩ ⟨_, rfl⟩ ⟨_, rfl⟩⟩,
   ⟨by decide,
    (GenerateProfile_admissible_table demoGenerators (demoPolicy "Seccomp" RuntimeDefaultMode)
      "varmor-demo" "demo" false).1 (by decide)⟩⟩

/-- C9, the code at the failing input: for a BehaviorModeling policy with the
Seccomp enforcer, `GenerateProfile` with complete = true returns a profile in
mode complain (the same profile as with complete = false), whereas with the
AppArmor enforcer complete = true gives mode enforce. -/
theorem GenerateProfile_Seccomp_complete_stays_complain (g : Generators) (name ns : String) :
    GenerateProfile g (demoPolicy "Seccomp" BehaviorModelingMode) name ns true
        = .ok { Name := name, Enforcer := "Seccomp", Mode := "complain", Content := "",
                BpfContent := { Rules := [] },
                SeccompContent := g.seccompGenerateBehaviorModelingProfile }
      ∧ GenerateProfile g (demoPolicy "Seccomp" BehaviorModelingMode) name ns true
        = GenerateProfile g (demoPolicy "Seccomp" BehaviorModelingMode) name ns false
      ∧ GenerateProfile g (demoPolicy "AppArmor" BehaviorModelingMode) name ns true
        = .ok { Name := name, Enforcer := "AppArmor", Mode := "enforce",
                Content := g.GenerateAlwaysAllowProfile name,
                BpfContent := { Rules := [] }, SeccompContent := "" } :=
  ⟨rfl, rfl, rfl⟩

/-! ## Properties of the status manager -/

/-- C10: for a namespaced policy the phase computed by the UpdateStatus handler
is Error when failedNumber > 0; otherwise, in mode BehaviorModeling, Completed
when the handler judges modeling complete and Modeling when it does not;
otherwise Protecting. This holds for every successedNumber and desiredNumber. -/
theorem updateStatusNamespaced_phase (mode : String) (policyStatus : PolicyStatus)
    (modelingStatus : Option ModelingStatus) (desiredNumber : Int) (vpPhase : String)
    (now createTime duration : Int) :
    (updateStatusNamespaced mode policyStatus modelingStatus desiredNumber vpPhase now
        createTime duration).2 =
      if policyStatus.FailedNumber > 0 then VarmorPolicyError
      else if mode = BehaviorModelingMode then
        if modelingComplete modelingStatus desiredNumber vpPhase now createTime duration = true
        then VarmorPolicyCompleted
        else VarmorPolicyModeling
      else VarmorPolicyProtecting := by
  unfold updateStatusNamespaced
  by_cases hf : policyStatus.FailedNumber > 0
  · simp only [if_pos hf]
  · simp only [if_neg hf]

/-! ## Properties of the profile synthesis -/

set_option maxRecDepth 1000000

/-- C2, the code at the failing input: in debug mode, two behavior models of the
one profile `p` that hold the same two signal entries in different orders (and
nothing else; the entries have different peers, as in a merged model) give
different rule sets and different encoded profiles. -/
theorem GenerateProfileWithBehaviorModel_depends_on_signal_order :
    (demoModel [sendKill, receiveTerm]).Signals.Perm (demoModel [receiveTerm, sendKill]).Signals
      ∧ buildRuleSet (demoModel [sendKill, receiveTerm]) "p" true
          ≠ buildRuleSet (demoModel [receiveTerm, sendKill]) "p" true
      ∧ (GenerateProfileWithBehaviorModel demoTemplate
            { AppArmor := some (demoModel [sendKill, receiveTerm]), Seccomp := none }
            true).toOption
          ≠ (GenerateProfileWithBehaviorModel demoTemplate
            { AppArmor := some (demoModel [receiveTerm, sendKill]), Seccomp := none }
            true).toOption :=
  ⟨List.Perm.swap _ _ _, by decide, by decide⟩

/-! ## Orders and sorting -/

theorem lexLe_total {α : Type} (le : α → α → Bool)
    (htot : ∀ a b, le a b = true ∨ le b a = true) :
    ∀ l l' : List α, lexLe le l l' = true ∨ lexLe le l' l = true := by
  intro l
  induction l with
  | nil => intro l'; left; cases l' <;> rfl
  | cons a as ih =>
    intro l'
    cases l' with
    | nil => right; rfl
    | cons b bs =>
      simp only [lexLe]
      cases hab : le a b <;> cases hba : le b a
      · rcases htot a b with h | h
        · rw [hab] at h; cases h
        · rw [hba] at h; cases h
      · right; simp
      · left; simp
      · simpa using ih bs

theorem lexLe_trans {α : Type} (le : α → α → Bool)
    (htrans : ∀ a b c, le a b = true → le b c = true → le a c = true) :
    ∀ l₁ l₂ l₃ : List α, lexLe le l₁ l₂ = true → lexLe le l₂ l₃ = true →
      lexLe le l₁ l₃ = true := by
  intro l₁
  induction l₁ with
  | nil => intro l₂ l₃ _ _; cases l₃ <;> rfl
  | cons a as ih =>
    intro l₂ l₃ h₁ h₂
    cases l₂ with
    | nil => simp [lexLe] at h₁
    | cons b bs =>
      cases l₃ with
      | nil => simp [lexLe] at h₂
      | cons c cs =>
        simp only [lexLe] at h₁ h₂ ⊢
        cases hab : le a b
        · simp [hab] at h₁
        cases hbc : le b c
        · simp [hbc] at h₂
        rw [htrans a b c hab hbc]
        simp only [if_true]
        cases hca : le c a
        · simp
        · simp only [if_true]
          have hcb : le c b = true := htrans c a b hca hab
          have hba : le b a = true := htrans b c a hbc hca
          simp only [hab, hba, hbc, hcb, if_true] at h₁ h₂
          exact ih bs cs h₁ h₂

theorem lexLe_antisymm {α : Type} (le : α → α → Bool)
    (hanti : ∀ a b, le a b = true → le b a = true → a = b) :
    ∀ l l' : List α, lexLe le l l' = true → lexLe le l' l = true → l = l' := by
  intro l
  induction l with
  | nil =>
    intro l' _ h
    cases l' with
    | nil => rfl
    | cons b bs => simp [lexLe] at h
  | cons a as ih =>
    intro l' h₁ h₂
    cases l' with
    | nil => simp [lexLe] at h₁
    | cons b bs =>
      simp only [lexLe] at h₁ h₂
      cases hab : le a b
      · simp [hab] at h₁
      cases hba : le b a
      · simp [hba] at h₂
      simp only [hab, hba, if_true] at h₁ h₂
      rw [hanti a b hab hba, ih bs h₁ h₂]

theorem natLe_total (a b : Nat) : natLe a b = true ∨ natLe b a = true := by
  simp only [natLe, decide_eq_true_eq]; exact Nat.le_total a b

theorem natLe_trans (a b c : Nat) (h₁ : natLe a b = true) (h₂ : natLe b c = true) :
    natLe a c = true := by
  simp only [natLe, decide_eq_true_eq] at *; exact Nat.le_trans h₁ h₂

theorem natLe_antisymm (a b : Nat) (h₁ : natLe a b = true) (h₂ : natLe b a = true) : a = b := by
  simp only [natLe, decide_eq_true_eq] at *; exact Nat.le_antisymm h₁ h₂

theorem strLe_total (a b : String) : strLe a b = true ∨ strLe b a = true :=
  lexLe_total natLe natLe_total _ _

theorem strLe_trans (a b c : String) (h₁ : strLe a b = true) (h₂ : strLe b c = true) :
    strLe a c = true :=
  lexLe_trans natLe natLe_trans _ _ _ h₁ h₂

theorem codes_injective : ∀ l l' : List Char, l.map Char.toNat = l'.map Char.toNat → l = l' := by
  intro l
  induction l with
  | nil => intro l' h; cases l' with
    | nil => rfl
    | cons b bs => simp at h
  | cons a as ih =>
    intro l' h
    cases l' with
    | nil => simp at h
    | cons b bs =>
      simp only [List.map_cons, List.cons.injEq] at h
      have hab : a = b := by
        have := congrArg Char.ofNat h.1
        simpa using this
      rw [hab, ih bs h.2]

theorem strLe_antisymm (a b : String) (h₁ : strLe a b = true) (h₂ : strLe b a = true) : a = b := by
  have h := codes_injective _ _ (lexLe_antisymm natLe natLe_antisymm _ _ h₁ h₂)
  exact String.ext h

theorem sortBy_perm {α : Type} (le : α → α → Bool) (l : List α) : (sortBy le l).Perm l :=
  List.perm_insertionSort _ l

theorem sortBy_eq_of_perm {α : Type} (le : α → α → Bool)
    (htot : ∀ a b, le a b = true ∨ le b a = true)
    (htrans : ∀ a b c, le a b = true → le b c = true → le a c = true)
    (hanti : ∀ a b, le a b = true → le b a = true → a = b)
    {l l' : List α} (h : l.Perm l') : sortBy le l = sortBy le l' := by
  haveI : IsTotal α (fun a b => le a b = true) := ⟨htot⟩
  haveI : IsTrans α (fun a b => le a b = true) := ⟨htrans⟩
  haveI : IsAntisymm α (fun a b => le a b = true) := ⟨hanti⟩
  exact List.eq_of_perm_of_sorted
    (((sortBy_perm le l).trans h).trans (sortBy_perm le l').symm)
    (List.sorted_insertionSort _ l) (List.sorted_insertionSort _ l')

theorem sortStrings_eq_of_perm {l l' : List String} (h : l.Perm l') :
    sortStrings l = sortStrings l' :=
  sortBy_eq_of_perm strLe strLe_total strLe_trans strLe_antisymm h

theorem perm_of_sortStrings_eq {l l' : List String} (h : sortStrings l = sortStrings l') :
    l.Perm l' := by
  unfold sortStrings at h
  have h₁ := sortBy_perm strLe l
  rw [h] at h₁
  exact h₁.symm.trans (sortBy_perm strLe l')

/-! ## Folds of operations that commute up to an equivalence -/

theorem foldl_congr_rel {σ α : Type} (f : σ → α → σ) (R : σ → σ → Prop)
    (hcong : ∀ s s' a, R s s' → R (f s a) (f s' a)) :
    ∀ (l : List α) (s s' : σ), R s s' → R (l.foldl f s) (l.foldl f s') := by
  intro l
  induction l with
  | nil => intro s s' h; exact h
  | cons a l ih => intro s s' h; exact ih _ _ (hcong s s' a h)

theorem foldl_move_rel {σ α : Type} (f : σ → α → σ) (R : σ → σ → Prop)
    (hrefl : ∀ s, R s s) (htrans : ∀ s₁ s₂ s₃, R s₁ s₂ → R s₂ s₃ → R s₁ s₃)
    (hcong : ∀ s s' a, R s s' → R (f s a) (f s' a))
    (C : α → α → Prop) (hcomm : ∀ s a b, C a b → R (f (f s a) b) (f (f s b) a)) (a : α) :
    ∀ (B : List α) (s : σ), (∀ b ∈ B, C a b) → R (B.foldl f (f s a)) (f (B.foldl f s) a) := by
  intro B
  induction B with
  | nil => intro s _; exact hrefl _
  | cons b B ih =>
    intro s h
    have h₁ : R (f (f s a) b) (f (f s b) a) := hcomm s a b (h b (List.mem_cons_self _ _))
    have h₂ := foldl_congr_rel f R hcong B _ _ h₁
    have h₃ := ih (f s b) (fun b' hb' => h b' (List.mem_cons_of_mem _ hb'))
    exact htrans _ _ _ h₂ h₃

theorem foldl_block_swap_rel {σ α : Type} (f : σ → α → σ) (R : σ → σ → Prop)
    (hrefl : ∀ s, R s s) (htrans : ∀ s₁ s₂ s₃, R s₁ s₂ → R s₂ s₃ → R s₁ s₃)
    (hcong : ∀ s s' a, R s s' → R (f s a) (f s' a))
    (C : α → α → Prop) (hcomm : ∀ s a b, C a b → R (f (f s a) b) (f (f s b) a)) :
    ∀ (A B : List α) (s : σ), (∀ a ∈ A, ∀ b ∈ B, C a b) →
      R (B.foldl f (A.foldl f s)) (A.foldl f (B.foldl f s)) := by
  intro A
  induction A with
  | nil => intro B s _; exact hrefl _
  | cons a A ih =>
    intro B s h
    have h₁ := ih B (f s a) (fun a' ha' => h a' (List.mem_cons_of_mem _ ha'))
    have h₂ := foldl_move_rel f R hrefl htrans hcong C hcomm a B s
      (h a (List.mem_cons_self _ _))
    have h₃ := foldl_congr_rel f R hcong A _ _ h₂
    exact htrans _ _ _ h₁ h₃

theorem foldl_perm_rel {σ β : Type} (F : σ → β → σ) (R : σ → σ → Prop)
    (hrefl : ∀ s, R s s) (htrans : ∀ s₁ s₂ s₃, R s₁ s₂ → R s₂ s₃ → R s₁ s₃)
    (hcong : ∀ s s' a, R s s' → R (F s a) (F s' a))
    (C : β → β → Prop) (hsymm : ∀ a b, C a b → C b a)
    (hcomm : ∀ s a b, C a b → R (F (F s a) b) (F (F s b) a))
    {l l' : List β} (h : l.Perm l') :
    l.Pairwise C → ∀ s s', R s s' → R (l.foldl F s) (l'.foldl F s') := by
  induction h with
  | nil => intro _ s s' hs; exact hs
  | cons x _ ih =>
    intro hp s s' hs
    exact ih (List.pairwise_cons.1 hp).2 _ _ (hcong s s' x hs)
  | swap x y l =>
    intro hp s s' hs
    have hyx : C y x := (List.pairwise_cons.1 hp).1 x (List.mem_cons_self _ _)
    have h₁ : R (F (F s y) x) (F (F s x) y) := hcomm s y x hyx
    have h₂ : R (F (F s x) y) (F (F s' x) y) := hcong _ _ y (hcong _ _ x hs)
    exact foldl_congr_rel F R hcong l _ _ (htrans _ _ _ h₁ h₂)
  | trans h₁ _ ih₁ ih₂ =>
    intro hp s s' hs
    have hp₂ := (List.Perm.pairwise_iff (fun {a b} hab => hsymm a b hab) h₁).1 hp
    exact htrans _ _ _ (ih₁ hp s s' hs) (ih₂ hp₂ s' s' (hrefl s'))

/-! ## Keyed merges -/

theorem bucket_mergeKeyed {α κ : Type} [DecidableEq κ] (key : α → κ) (upd : α → α → α)
    (hkey : ∀ x n, key (upd x n) = key x) (k : κ) (n : α) :
    ∀ l : List α, bucket key k (mergeKeyed key upd l n)
      = if key n = k then headMerge upd (bucket key k l) n else bucket key k l := by
  intro l
  induction l with
  | nil =>
    by_cases hn : key n = k <;> simp [mergeKeyed, bucket, headMerge, hn]
  | cons x xs ih =>
    unfold bucket at ih ⊢
    by_cases hnx : key n = key x
    · by_cases hx : key x = k
      · have hn : key n = k := hnx.trans hx
        simp [mergeKeyed, headMerge, hnx, hx, hkey]
      · have hn : ¬ key n = k := fun h => hx (hnx ▸ h)
        simp [mergeKeyed, hnx, hx, hkey]
    · by_cases hx : key x = k
      · have hn : ¬ key n = k := fun h => hnx (h.trans hx.symm)
        rw [if_neg hn] at ih ⊢
        simp [mergeKeyed, hnx, hx, hn, ih]
      · by_cases hn : key n = k
        · rw [if_pos hn] at ih ⊢
          simp [mergeKeyed, hnx, hx, ih]
        · rw [if_neg hn] at ih ⊢
          simp [mergeKeyed, hnx, hx, ih]

theorem SameBuckets.refl {α κ : Type} [DecidableEq κ] (key : α → κ) (c : α → α) (l : List α) :
    SameBuckets key c l l := fun _ => rfl

theorem SameBuckets.trans {α κ : Type} [DecidableEq κ] (key : α → κ) (c : α → α)
    (l₁ l₂ l₃ : List α) (h₁ : SameBuckets key c l₁ l₂) (h₂ : SameBuckets key c l₂ l₃) :
    SameBuckets key c l₁ l₃ := fun k => (h₁ k).trans (h₂ k)

theorem map_headMerge_congr {α : Type} (upd : α → α → α) (c : α → α)
    (hcong : ∀ x x' n, c x = c x' → c (upd x n) = c (upd x' n)) (n : α) :
    ∀ b b' : List α, b.map c = b'.map c → (headMerge upd b n).map c = (headMerge upd b' n).map c := by
  intro b b' h
  cases b with
  | nil =>
    cases b' with
    | nil => rfl
    | cons y ys => simp at h
  | cons x xs =>
    cases b' with
    | nil => simp at h
    | cons y ys =>
      simp only [List.map_cons, List.cons.injEq] at h
      simp only [headMerge, List.map_cons, List.cons.injEq]
      exact ⟨hcong x y n h.1, h.2⟩

theorem SameBuckets.mergeKeyed_congr {α κ : Type} [DecidableEq κ] {key : α → κ}
    {upd : α → α → α} {c : α → α} {Compat : α → α → Prop} (laws : KeyedLaws key upd c Compat)
    (l l' : List α) (n : α) (h : SameBuckets key c l l') :
    SameBuckets key c (mergeKeyed key upd l n) (mergeKeyed key upd l' n) := by
  intro k
  rw [bucket_mergeKeyed key upd laws.key_upd, bucket_mergeKeyed key upd laws.key_upd]
  by_cases hn : key n = k
  · rw [if_pos hn, if_pos hn]
    exact map_headMerge_congr upd c laws.cong n _ _ (h k)
  · rw [if_neg hn, if_neg hn]
    exact h k

theorem SameBuckets.mergeKeyed_comm {α κ : Type} [DecidableEq κ] {key : α → κ}
    {upd : α → α → α} {c : α → α} {Compat : α → α → Prop} (laws : KeyedLaws key upd c Compat)
    (l : List α) (n₁ n₂ : α) (h : Compat n₁ n₂) :
    SameBuckets key c (mergeKeyed key upd (mergeKeyed key upd l n₁) n₂)
      (mergeKeyed key upd (mergeKeyed key upd l n₂) n₁) := by
  intro k
  simp only [bucket_mergeKeyed key upd laws.key_upd]
  by_cases h₁ : key n₁ = k
  · by_cases h₂ : key n₂ = k
    · simp only [if_pos h₁, if_pos h₂]
      have h₁₂ : key n₁ = key n₂ := h₁.trans h₂.symm
      cases bucket key k l with
      | nil =>
        simp only [headMerge, List.map_cons, List.map_nil, List.cons.injEq, and_true]
        exact laws.first n₁ n₂ h h₁₂
      | cons x xs =>
        simp only [headMerge, List.map_cons, List.cons.injEq, and_true]
        exact laws.comm x n₁ n₂ h h₁₂
    · simp only [if_pos h₁, if_neg h₂]
  · by_cases h₂ : key n₂ = k
    · simp only [if_neg h₁, if_pos h₂]
    · simp only [if_neg h₁, if_neg h₂]

theorem SameBuckets.perm_map {α κ : Type} [DecidableEq κ] [DecidableEq α] {key : α → κ}
    {c : α → α} (hkey : ∀ x, key (c x) = key x) {l l' : List α}
    (h : SameBuckets key c l l') : (l.map c).Perm (l'.map c) := by
  have hcomm : ∀ (k : κ) (m : List α),
      (m.map c).filter (fun x => decide (key x = k)) = (bucket key k m).map c := by
    intro k m
    induction m with
    | nil => rfl
    | cons x xs ih =>
      unfold bucket at ih ⊢
      by_cases hx : key x = k
      · simp [List.filter, hx, hkey, ih]
      · simp [List.filter, hx, hkey, ih]
  rw [List.perm_iff_count]
  intro a
  have e₁ := List.count_filter (p := fun x => decide (key x = key a)) (a := a)
    (l := l.map c) (by simp)
  have e₂ := List.count_filter (p := fun x => decide (key x = key a)) (a := a)
    (l := l'.map c) (by simp)
  rw [← e₁, ← e₂, hcomm, hcomm, h (key a)]

/-- A keyed merge of blocks of entries gives the same entries, up to their order
and their canonical forms, for every order of arrival of the blocks, when the
entries of different blocks are related by `Compat`. -/
theorem mergeKeyed_blocks_perm {α κ : Type} [DecidableEq κ] [DecidableEq α] {key : α → κ}
    {upd : α → α → α} {c : α → α} {Compat : α → α → Prop} (laws : KeyedLaws key upd c Compat)
    (l : List α) {blocks blocks' : List (List α)} (h : blocks.Perm blocks')
    (hp : blocks.Pairwise (fun A B => ∀ a ∈ A, ∀ b ∈ B, Compat a b)) :
    ((blocks.foldl (fun acc block => block.foldl (mergeKeyed key upd) acc) l).map c).Perm
      ((blocks'.foldl (fun acc block => block.foldl (mergeKeyed key upd) acc) l).map c) := by
  apply SameBuckets.perm_map laws.key_canon
  have hcong : ∀ s s' (a : α), SameBuckets key c s s' →
      SameBuckets key c (mergeKeyed key upd s a) (mergeKeyed key upd s' a) :=
    fun s s' a hs => SameBuckets.mergeKeyed_congr laws s s' a hs
  refine foldl_perm_rel (fun acc block => block.foldl (mergeKeyed key upd) acc)
    (SameBuckets key c) (SameBuckets.refl key c) (SameBuckets.trans key c) ?_
    (fun A B => ∀ a ∈ A, ∀ b ∈ B, Compat a b) ?_ ?_ h hp l l (SameBuckets.refl key c l)
  · intro s s' A hs
    exact foldl_congr_rel (mergeKeyed key upd) (SameBuckets key c) hcong A s s' hs
  · intro A B hAB b hb a ha
    exact laws.symm a b (hAB a ha b hb)
  · intro s A B hAB
    exact foldl_block_swap_rel (mergeKeyed key upd) (SameBuckets key c) (SameBuckets.refl key c)
      (SameBuckets.trans key c) hcong Compat
      (fun s a b hab => SameBuckets.mergeKeyed_comm laws s a b hab) A B s hAB

/-! ## The loops of the merge as keyed merges -/

theorem mergePermissions_eq (perms newPerms : List String) :
    mergePermissions perms newPerms = perms ++ newPerms.filter (fun p => decide (p ∉ perms)) := by
  unfold mergePermissions
  have h : ∀ (N S : List String),
      N.foldl (fun stored newPerm => if newPerm ∈ perms then stored else stored ++ [newPerm]) S
        = S ++ N.filter (fun p => decide (p ∉ perms)) := by
    intro N
    induction N with
    | nil => intro S; simp
    | cons p N ih =>
      intro S
      by_cases hp : p ∈ perms
      · simp [List.foldl, hp, ih]
      · simp [List.foldl, hp, ih]
  exact h newPerms perms

theorem mergePermissions_perm_congr {P P' : List String} (N : List String) (h : P.Perm P') :
    (mergePermissions P N).Perm (mergePermissions P' N) := by
  rw [mergePermissions_eq, mergePermissions_eq]
  have hf : (fun p => decide (p ∉ P)) = (fun p => decide (p ∉ P')) := by
    funext p
    simp [h.mem_iff]
  rw [hf]
  exact h.append_right _

theorem mergePermissions_perm_comm (P : List String) {N₁ N₂ : List String} (h₁ : N₁.Nodup)
    (h₂ : N₂.Nodup) :
    (mergePermissions (mergePermissions P N₁) N₂).Perm
      (mergePermissions (mergePermissions P N₂) N₁) := by
  simp only [mergePermissions_eq, List.append_assoc]
  apply List.Perm.append_left
  rw [List.perm_ext_iff_of_nodup]
  · intro a
    simp only [List.mem_append, List.mem_filter, decide_eq_true_eq, not_or, not_and, not_not]
    tauto
  · rw [List.nodup_append]
    refine ⟨h₁.filter _, h₂.filter _, ?_⟩
    intro a ha hb
    simp only [List.mem_append, List.mem_filter, decide_eq_true_eq, not_or, not_and, not_not]
      at ha hb
    tauto
  · rw [List.nodup_append]
    refine ⟨h₂.filter _, h₁.filter _, ?_⟩
    intro a ha hb
    simp only [List.mem_append, List.mem_filter, decide_eq_true_eq, not_or, not_and, not_not]
      at ha hb
    tauto

theorem mergePermissions_perm_first {N₁ N₂ : List String} (h₁ : N₁.Nodup) (h₂ : N₂.Nodup) :
    (mergePermissions N₁ N₂).Perm (mergePermissions N₂ N₁) := by
  simp only [mergePermissions_eq]
  rw [List.perm_ext_iff_of_nodup]
  · intro a
    simp only [List.mem_append, List.mem_filter, decide_eq_true_eq]
    tauto
  · rw [List.nodup_append]
    refine ⟨h₁, h₂.filter _, ?_⟩
    intro a ha hb
    simp only [List.mem_filter, decide_eq_true_eq] at hb
    exact hb.2 ha
  · rw [List.nodup_append]
    refine ⟨h₂, h₁.filter _, ?_⟩
    intro a ha hb
    simp only [List.mem_filter, decide_eq_true_eq] at hb
    exact hb.2 ha

theorem mergeFile_eq_mergeKeyed : mergeFile = mergeKeyed fileKey updFile := by
  funext l n
  induction l with
  | nil => rfl
  | cons x xs ih =>
    simp only [mergeFile, mergeKeyed, fileKey, Prod.mk.injEq, ih]
    rfl

theorem mergePtrace_eq_mergeKeyed : mergePtrace = mergeKeyed (fun p => p.Peer) updPtrace := by
  funext l n
  induction l with
  | nil => rfl
  | cons x xs ih =>
    simp only [mergePtrace, mergeKeyed, ih]
    rfl

theorem mergeSignal_eq_mergeKeyed : mergeSignal = mergeKeyed (fun s => s.Peer) updSignal := by
  funext l n
  induction l with
  | nil => rfl
  | cons x xs ih =>
    simp only [mergeSignal, mergeKeyed, ih]
    rfl

theorem appendIfMissing_eq_mergeKeyed {α : Type} [DecidableEq α] (l : List α) (n : α) :
    (if n ∈ l then l else l ++ [n]) = mergeKeyed id (fun x _ => x) l n := by
  induction l with
  | nil => rfl
  | cons x xs ih =>
    by_cases h : n = x
    · simp [mergeKeyed, h]
    · by_cases hm : n ∈ xs
      · simp [mergeKeyed, h, hm, ← ih]
      · simp [mergeKeyed, h, hm, ← ih]

theorem mergeString_eq_mergeKeyed : mergeString = mergeKeyed id (fun x _ => x) := by
  funext l n
  exact appendIfMissing_eq_mergeKeyed l n

theorem mergeNetwork_eq_mergeKeyed : mergeNetwork = mergeKeyed id (fun x _ => x) := by
  funext l n
  exact appendIfMissing_eq_mergeKeyed l n

theorem plainLaws (α : Type) :
    KeyedLaws (id : α → α) (fun x _ => x) id (fun _ _ => True) where
  key_upd := fun _ _ => rfl
  key_canon := fun _ => rfl
  cong := fun _ _ _ h => h
  comm := fun _ _ _ _ _ => rfl
  first := fun _ _ _ h => h
  symm := fun _ _ _ => trivial

theorem canonFile_eq_iff (f g : File) :
    canonFile f = canonFile g ↔
      f.Path = g.Path ∧ f.Owner = g.Owner ∧ f.OldPath = g.OldPath
        ∧ f.Permissions.Perm g.Permissions := by
  constructor
  · intro h
    simp only [canonFile, File.mk.injEq] at h
    exact ⟨h.1, h.2.1, h.2.2.1, perm_of_sortStrings_eq h.2.2.2⟩
  · intro h
    simp only [canonFile, File.mk.injEq]
    exact ⟨h.1, h.2.1, h.2.2.1, sortStrings_eq_of_perm h.2.2.2⟩

theorem fileLaws :
    KeyedLaws fileKey updFile canonFile
      (fun n₁ n₂ => n₁.Permissions.Nodup ∧ n₂.Permissions.Nodup ∧ n₁.agreesOnOldPath n₂) where
  key_upd := fun _ _ => rfl
  key_canon := fun _ => rfl
  cong := by
    intro x x' n h
    rw [canonFile_eq_iff] at h ⊢
    obtain ⟨h₁, h₂, h₃, h₄⟩ := h
    refine ⟨h₁, h₂, ?_, mergePermissions_perm_congr _ h₄⟩
    simp only [updFile, h₃]
  comm := by
    intro x n₁ n₂ h hk
    rw [canonFile_eq_iff]
    have hk' : n₁.Path = n₂.Path ∧ n₁.Owner = n₂.Owner := by
      simpa [fileKey] using hk
    refine ⟨rfl, rfl, ?_, mergePermissions_perm_comm _ h.1 h.2.1⟩
    have ha := h.2.2 hk'.1 hk'.2
    simp only [updFile]
    by_cases hx : x.OldPath = ""
    · by_cases h1 : n₁.OldPath = ""
      · by_cases h2 : n₂.OldPath = ""
        · simp [hx, h1, h2]
        · simp [hx, h1, h2]
      · by_cases h2 : n₂.OldPath = ""
        · simp [hx, h1, h2]
        · rcases ha with ha | ha | ha
          · exact absurd ha h1
          · exact absurd ha h2
          · simp [hx, h1, h2, ha]
    · simp [hx]
  first := by
    intro n₁ n₂ h hk
    rw [canonFile_eq_iff]
    have hk' : n₁.Path = n₂.Path ∧ n₁.Owner = n₂.Owner := by
      simpa [fileKey] using hk
    refine ⟨hk'.1, hk'.2, ?_, mergePermissions_perm_first h.1 h.2.1⟩
    have ha := h.2.2 hk'.1 hk'.2
    simp only [updFile]
    by_cases h1 : n₁.OldPath = ""
    · by_cases h2 : n₂.OldPath = ""
      · simp [h1, h2]
      · simp [h1, h2]
    · by_cases h2 : n₂.OldPath = ""
      · simp [h1, h2]
      · rcases ha with ha | ha | ha
        · exact absurd ha h1
        · exact absurd ha h2
        · simp [h1, h2, ha]
  symm := by
    intro a b h
    refine ⟨h.2.1, h.1, ?_⟩
    intro hp ho
    rcases h.2.2 hp.symm ho.symm with h' | h' | h'
    · exact Or.inr (Or.inl h')
    · exact Or.inl h'
    · exact Or.inr (Or.inr h'.symm)

theorem canonPtrace_eq_iff (f g : Ptrace) :
    canonPtrace f = canonPtrace g ↔ f.Peer = g.Peer ∧ f.Permissions.Perm g.Permissions := by
  constructor
  · intro h
    simp only [canonPtrace, Ptrace.mk.injEq] at h
    exact ⟨h.2, perm_of_sortStrings_eq h.1⟩
  · intro h
    simp only [canonPtrace, Ptrace.mk.injEq]
    exact ⟨sortStrings_eq_of_perm h.2, h.1⟩

theorem ptraceLaws :
    KeyedLaws (fun p : Ptrace => p.Peer) updPtrace canonPtrace
      (fun n₁ n₂ => n₁.Permissions.Nodup ∧ n₂.Permissions.Nodup) where
  key_upd := fun _ _ => rfl
  key_canon := fun _ => rfl
  cong := by
    intro x x' n h
    rw [canonPtrace_eq_iff] at h ⊢
    exact ⟨h.1, mergePermissions_perm_congr _ h.2⟩
  comm := by
    intro x n₁ n₂ h _
    rw [canonPtrace_eq_iff]
    exact ⟨rfl, mergePermissions_perm_comm _ h.1 h.2⟩
  first := by
    intro n₁ n₂ h hk
    rw [canonPtrace_eq_iff]
    exact ⟨hk, mergePermissions_perm_first h.1 h.2⟩
  symm := fun _ _ h => ⟨h.2, h.1⟩

theorem canonSignal_eq_iff (f g : Signal) :
    canonSignal f = canonSignal g ↔
      f.Peer = g.Peer ∧ f.Permissions.Perm g.Permissions ∧ f.Signals.Perm g.Signals := by
  constructor
  · intro h
    simp only [canonSignal, Signal.mk.injEq] at h
    exact ⟨h.2.2, perm_of_sortStrings_eq h.1, perm_of_sortStrings_eq h.2.1⟩
  · intro h
    simp only [canonSignal, Signal.mk.injEq]
    exact ⟨sortStrings_eq_of_perm h.2.1, sortStrings_eq_of_perm h.2.2, h.1⟩

theorem signalLaws :
    KeyedLaws (fun s : Signal => s.Peer) updSignal canonSignal
      (fun n₁ n₂ => (n₁.Permissions.Nodup ∧ n₁.Signals.Nodup)
        ∧ (n₂.Permissions.Nodup ∧ n₂.Signals.Nodup)) where
  key_upd := fun _ _ => rfl
  key_canon := fun _ => rfl
  cong := by
    intro x x' n h
    rw [canonSignal_eq_iff] at h ⊢
    exact ⟨h.1, mergePermissions_perm_congr _ h.2.1, mergePermissions_perm_congr _ h.2.2⟩
  comm := by
    intro x n₁ n₂ h _
    rw [canonSignal_eq_iff]
    exact ⟨rfl, mergePermissions_perm_comm _ h.1.1 h.2.1,
      mergePermissions_perm_comm _ h.1.2 h.2.2⟩
  first := by
    intro n₁ n₂ h hk
    rw [canonSignal_eq_iff]
    exact ⟨hk, mergePermissions_perm_first h.1.1 h.2.1, mergePermissions_perm_first h.1.2 h.2.2⟩
  symm := fun _ _ h => ⟨h.2, h.1⟩

/-! ## The merge of a sequence of reports, field by field -/

theorem fields_le_total {α : Type} (fields : α → List String) (a b : α) :
    lexLe strLe (fields a) (fields b) = true ∨ lexLe strLe (fields b) (fields a) = true :=
  lexLe_total strLe strLe_total _ _

theorem fields_le_trans {α : Type} (fields : α → List String) (a b c : α)
    (h₁ : lexLe strLe (fields a) (fields b) = true)
    (h₂ : lexLe strLe (fields b) (fields c) = true) :
    lexLe strLe (fields a) (fields c) = true :=
  lexLe_trans strLe strLe_trans _ _ _ h₁ h₂

theorem fields_le_antisymm {α : Type} (fields : α → List String)
    (hinj : ∀ a b, fields a = fields b → a = b) (a b : α)
    (h₁ : lexLe strLe (fields a) (fields b) = true)
    (h₂ : lexLe strLe (fields b) (fields a) = true) : a = b :=
  hinj a b (lexLe_antisymm strLe strLe_antisymm _ _ h₁ h₂)

theorem fileFields_injective (a b : File) (h : a.fields = b.fields) : a = b := by
  cases a with
  | mk p o q ps =>
    cases b with
    | mk p' o' q' ps' =>
      simp only [File.fields, List.cons.injEq] at h
      obtain ⟨h₁, h₂, h₃, h₄⟩ := h
      have ho : o = o' := by
        revert h₂
        cases o <;> cases o' <;> simp
      rw [h₁, ho, h₃, h₄]

theorem networkFields_injective (a b : Network) (h : a.fields = b.fields) : a = b := by
  cases a; cases b
  simp only [Network.fields, List.cons.injEq, and_true] at h
  obtain ⟨h₁, h₂, h₃⟩ := h
  rw [h₁, h₂, h₃]

theorem ptraceFields_injective (a b : Ptrace) (h : a.fields = b.fields) : a = b := by
  cases a; cases b
  simp only [Ptrace.fields, List.cons.injEq] at h
  obtain ⟨h₁, h₂⟩ := h
  rw [h₁, h₂]

theorem signalFields_injective (a b : Signal) (h : a.fields = b.fields) : a = b := by
  cases a; cases b
  simp only [Signal.fields, List.cons.injEq, and_true] at h
  obtain ⟨h₁, h₂, h₃⟩ := h
  rw [h₁, h₂, h₃]

theorem sortBy_blocks_eq {α κ : Type} [DecidableEq κ] [DecidableEq α] {key : α → κ}
    {upd : α → α → α} {c : α → α} {Compat : α → α → Prop} (laws : KeyedLaws key upd c Compat)
    (le : α → α → Bool) (htot : ∀ a b, le a b = true ∨ le b a = true)
    (htrans : ∀ a b c, le a b = true → le b c = true → le a c = true)
    (hanti : ∀ a b, le a b = true → le b a = true → a = b)
    (field : DynamicResult → List α) (l : List α) {shards shards' : List DynamicResult}
    (h : shards.Perm shards')
    (hp : shards.Pairwise (fun s s' => ∀ a ∈ field s, ∀ b ∈ field s', Compat a b)) :
    sortBy le ((shards.foldl (fun acc s => (field s).foldl (mergeKeyed key upd) acc) l).map c)
      = sortBy le
          ((shards'.foldl (fun acc s => (field s).foldl (mergeKeyed key upd) acc) l).map c) := by
  apply sortBy_eq_of_perm le htot htrans hanti
  have := mergeKeyed_blocks_perm laws l (h.map field) (List.pairwise_map.2 hp)
  simpa only [List.foldl_map] using this

theorem sortBy_plain_blocks_eq {α : Type} [DecidableEq α]
    (le : α → α → Bool) (htot : ∀ a b, le a b = true ∨ le b a = true)
    (htrans : ∀ a b c, le a b = true → le b c = true → le a c = true)
    (hanti : ∀ a b, le a b = true → le b a = true → a = b)
    (field : DynamicResult → List α) (l : List α) {shards shards' : List DynamicResult}
    (h : shards.Perm shards') :
    sortBy le (shards.foldl (fun acc s => (field s).foldl (mergeKeyed id (fun x _ => x)) acc) l)
      = sortBy le
          (shards'.foldl (fun acc s => (field s).foldl (mergeKeyed id (fun x _ => x)) acc) l) := by
  have := sortBy_blocks_eq (plainLaws α) le htot htrans hanti field l h
    (List.pairwise_of_forall (fun _ _ _ _ _ _ => trivial))
  simpa only [List.map_id] using this

theorem sortStrings_blocks_eq (field : DynamicResult → List String) (l : List String)
    {shards shards' : List DynamicResult} (h : shards.Perm shards') :
    sortStrings (shards.foldl (fun acc s => (field s).foldl mergeString acc) l)
      = sortStrings (shards'.foldl (fun acc s => (field s).foldl mergeString acc) l) := by
  rw [mergeString_eq_mergeKeyed]
  exact sortBy_plain_blocks_eq strLe strLe_total strLe_trans strLe_antisymm field l h

theorem mergeAppArmor_empty (a : AppArmor) : mergeAppArmor a emptyAppArmor = a := by
  cases a; rfl

theorem modelAppArmor_MergeSeccompResult (apm : ArmorProfileModel) (s : Option Seccomp) :
    modelAppArmor (MergeSeccompResult apm s) = modelAppArmor apm := by
  cases s <;> rfl

theorem modelSyscalls_MergeAppArmorResult (apm : ArmorProfileModel) (a : Option AppArmor) :
    modelSyscalls (MergeAppArmorResult apm a) = modelSyscalls apm := by
  cases a <;> rfl

theorem modelAppArmor_mergeShard (apm : ArmorProfileModel) (s : DynamicResult) :
    modelAppArmor (mergeShard apm s) = mergeAppArmor (modelAppArmor apm) (shardAppArmor s) := by
  unfold mergeShard
  rw [modelAppArmor_MergeSeccompResult]
  cases h : s.AppArmor with
  | none => simp [MergeAppArmorResult, shardAppArmor, h, mergeAppArmor_empty]
  | some a => simp [MergeAppArmorResult, shardAppArmor, h, modelAppArmor]

theorem modelSyscalls_mergeShard (apm : ArmorProfileModel) (s : DynamicResult) :
    modelSyscalls (mergeShard apm s)
      = (shardSyscalls s).foldl mergeString (modelSyscalls apm) := by
  unfold mergeShard
  cases h : s.Seccomp with
  | none =>
    simp [MergeSeccompResult, shardSyscalls, h, emptySeccomp,
      modelSyscalls_MergeAppArmorResult]
  | some c =>
    simp only [MergeSeccompResult, shardSyscalls, h, Option.getD_some]
    exact congrArg (fun l => List.foldl mergeString l c.Syscalls)
      (modelSyscalls_MergeAppArmorResult apm s.AppArmor)

theorem modelAppArmor_mergeShards (shards : List DynamicResult) :
    ∀ apm : ArmorProfileModel, modelAppArmor (mergeShards apm shards)
      = shards.foldl (fun a s => mergeAppArmor a (shardAppArmor s)) (modelAppArmor apm) := by
  induction shards with
  | nil => intro apm; rfl
  | cons s l ih =>
    intro apm
    simp only [mergeShards, List.foldl_cons] at ih ⊢
    rw [ih, modelAppArmor_mergeShard]

theorem modelSyscalls_mergeShards (shards : List DynamicResult) :
    ∀ apm : ArmorProfileModel, modelSyscalls (mergeShards apm shards)
      = shards.foldl (fun acc s => (shardSyscalls s).foldl mergeString acc)
          (modelSyscalls apm) := by
  induction shards with
  | nil => intro apm; rfl
  | cons s l ih =>
    intro apm
    simp only [mergeShards, List.foldl_cons] at ih ⊢
    rw [ih, modelSyscalls_mergeShard]

theorem foldl_mergeAppArmor_fields (shards : List DynamicResult) :
    ∀ a : AppArmor, shards.foldl (fun a s => mergeAppArmor a (shardAppArmor s)) a
      = { Profiles :=
            shards.foldl (fun acc s => (shardAppArmor s).Profiles.foldl mergeString acc)
              a.Profiles
          Executions :=
            shards.foldl (fun acc s => (shardAppArmor s).Executions.foldl mergeString acc)
              a.Executions
          Files := shards.foldl (fun acc s => (shardAppArmor s).Files.foldl mergeFile acc) a.Files
          Capabilities :=
            shards.foldl (fun acc s => (shardAppArmor s).Capabilities.foldl mergeString acc)
              a.Capabilities
          Networks :=
            shards.foldl (fun acc s => (shardAppArmor s).Networks.foldl mergeNetwork acc)
              a.Networks
          Ptraces :=
            shards.foldl (fun acc s => (shardAppArmor s).Ptraces.foldl mergePtrace acc) a.Ptraces
          Signals :=
            shards.foldl (fun acc s => (shardAppArmor s).Signals.foldl mergeSignal acc) a.Signals
          Unhandled :=
            shards.foldl (fun acc s => (shardAppArmor s).Unhandled.foldl mergeString acc)
              a.Unhandled } := by
  induction shards with
  | nil => intro a; cases a; rfl
  | cons s l ih =>
    intro a
    simp only [List.foldl_cons]
    rw [ih]
    rfl

theorem isSome_AppArmor_mergeShards (shards : List DynamicResult) :
    ∀ apm : ArmorProfileModel, (mergeShards apm shards).DynamicResult.AppArmor.isSome
      = shards.foldl (fun b s => b || s.AppArmor.isSome) apm.DynamicResult.AppArmor.isSome := by
  induction shards with
  | nil => intro apm; rfl
  | cons s l ih =>
    intro apm
    simp only [mergeShards, List.foldl_cons] at ih ⊢
    rw [ih]
    congr 1
    unfold mergeShard
    cases s.AppArmor <;> cases s.Seccomp <;> simp [MergeAppArmorResult, MergeSeccompResult]

theorem isSome_Seccomp_mergeShards (shards : List DynamicResult) :
    ∀ apm : ArmorProfileModel, (mergeShards apm shards).DynamicResult.Seccomp.isSome
      = shards.foldl (fun b s => b || s.Seccomp.isSome) apm.DynamicResult.Seccomp.isSome := by
  induction shards with
  | nil => intro apm; rfl
  | cons s l ih =>
    intro apm
    simp only [mergeShards, List.foldl_cons] at ih ⊢
    rw [ih]
    congr 1
    unfold mergeShard
    cases s.AppArmor <;> cases s.Seccomp <;> simp [MergeAppArmorResult, MergeSeccompResult]

theorem foldl_or_perm {β : Type} (p : β → Bool) {l l' : List β} (h : l.Perm l') (b : Bool) :
    l.foldl (fun b s => b || p s) b = l'.foldl (fun b s => b || p s) b := by
  apply List.Perm.foldl_eq' h
  intro x _ y _ z
  cases z <;> cases p x <;> cases p y <;> rfl

theorem option_map_eq_of_getD {α β : Type} (f : α → β) (d : α) (o o' : Option α)
    (h₁ : o.isSome = o'.isSome) (h₂ : f (o.getD d) = f (o'.getD d)) : o.map f = o'.map f := by
  cases o <;> cases o' <;> simp_all

theorem canonAppArmor_mergeShards_perm (apm : ArmorProfileModel)
    {shards shards' : List DynamicResult} (hperm : shards.Perm shards')
    (hnodup : ∀ s ∈ shards, sublistsNodup s) (hold : shards.Pairwise oldPathsAgree) :
    canonAppArmor (modelAppArmor (mergeShards apm shards))
      = canonAppArmor (modelAppArmor (mergeShards apm shards')) := by
  rw [modelAppArmor_mergeShards, modelAppArmor_mergeShards, foldl_mergeAppArmor_fields,
    foldl_mergeAppArmor_fields]
  simp only [canonAppArmor, AppArmor.mk.injEq]
  refine ⟨sortStrings_blocks_eq _ _ hperm, sortStrings_blocks_eq _ _ hperm, ?_,
    sortStrings_blocks_eq _ _ hperm, ?_, ?_, ?_, sortStrings_blocks_eq _ _ hperm⟩
  · rw [mergeFile_eq_mergeKeyed]
    refine sortBy_blocks_eq fileLaws _ (fields_le_total _) (fields_le_trans _)
      (fields_le_antisymm _ fileFields_injective) (fun s => (shardAppArmor s).Files) _ hperm ?_
    refine List.Pairwise.imp_of_mem ?_ hold
    intro s s' hs hs' hss a ha b hb
    exact ⟨(hnodup s hs).1 a ha, (hnodup s' hs').1 b hb, hss a ha b hb⟩
  · rw [mergeNetwork_eq_mergeKeyed]
    exact sortBy_plain_blocks_eq _ (fields_le_total _) (fields_le_trans _)
      (fields_le_antisymm _ networkFields_injective) (fun s => (shardAppArmor s).Networks) _
      hperm
  · rw [mergePtrace_eq_mergeKeyed]
    refine sortBy_blocks_eq ptraceLaws _ (fields_le_total _) (fields_le_trans _)
      (fields_le_antisymm _ ptraceFields_injective) (fun s => (shardAppArmor s).Ptraces) _
      hperm ?_
    refine List.Pairwise.imp_of_mem ?_ hold
    intro s s' hs hs' _ a ha b hb
    exact ⟨(hnodup s hs).2.1 a ha, (hnodup s' hs').2.1 b hb⟩
  · rw [mergeSignal_eq_mergeKeyed]
    refine sortBy_blocks_eq signalLaws _
      (fun a b => lexLe_total (lexLe strLe) (lexLe_total strLe strLe_total) a.fields b.fields)
      (fun a b c => lexLe_trans (lexLe strLe) (lexLe_trans strLe strLe_trans) a.fields
        b.fields c.fields)
      (fun a b h₁ h₂ => signalFields_injective a b
        (lexLe_antisymm (lexLe strLe) (lexLe_antisymm strLe strLe_antisymm) a.fields b.fields
          h₁ h₂))
      (fun s => (shardAppArmor s).Signals) _ hperm ?_
    refine List.Pairwise.imp_of_mem ?_ hold
    intro s s' hs hs' _ a ha b hb
    exact ⟨(hnodup s hs).2.2 a ha, (hnodup s' hs').2.2 b hb⟩

/-! ## Properties of the merge of behavior models -/

/-- C1 as stated fails: two reports that give different old paths for the same
file are merged into different canonical models in the two orders of arrival
(the old path that arrived first is kept). -/
theorem mergeShards_order_decides_oldPath :
    [hostsShard "/a" ["r"], hostsShard "/b" ["r"]].Perm
        [hostsShard "/b" ["r"], hostsShard "/a" ["r"]]
      ∧ canonicalize (mergeShards emptyModel [hostsShard "/a" ["r"], hostsShard "/b" ["r"]])
        ≠ canonicalize (mergeShards emptyModel [hostsShard "/b" ["r"], hostsShard "/a" ["r"]]) :=
  ⟨List.Perm.swap _ _ _, by decide⟩

/-- C1, amended: for every accumulated model and every sequence of reports in
which no entry lists a permission or a signal twice and no two reports give
different non-empty old paths for the same file (path and owner bit), folding
`MergeAppArmorResult` and `MergeSeccompResult` over any permutation of the
sequence gives the same model after canonicalization (every list and every
permission or signal sub-list sorted, every field of every entry compared, the
old path included). -/
theorem mergeShards_permutation_canonical (apm : ArmorProfileModel)
    (shards shards' : List DynamicResult) (hperm : shards.Perm shards')
    (hnodup : ∀ s ∈ shards, sublistsNodup s) (hold : shards.Pairwise oldPathsAgree) :
    canonicalize (mergeShards apm shards) = canonicalize (mergeShards apm shards') := by
  have hA := option_map_eq_of_getD canonAppArmor emptyAppArmor
    (mergeShards apm shards).DynamicResult.AppArmor
    (mergeShards apm shards').DynamicResult.AppArmor
    (by rw [isSome_AppArmor_mergeShards, isSome_AppArmor_mergeShards]
        exact foldl_or_perm _ hperm _)
    (canonAppArmor_mergeShards_perm apm hperm hnodup hold)
  have hS := option_map_eq_of_getD (fun s : Seccomp => ({ Syscalls := sortStrings s.Syscalls } : Seccomp))
    emptySeccomp
    (mergeShards apm shards).DynamicResult.Seccomp
    (mergeShards apm shards').DynamicResult.Seccomp
    (by rw [isSome_Seccomp_mergeShards, isSome_Seccomp_mergeShards]
        exact foldl_or_perm _ hperm _)
    (by
      show ({ Syscalls := sortStrings (modelSyscalls (mergeShards apm shards)) } : Seccomp)
        = { Syscalls := sortStrings (modelSyscalls (mergeShards apm shards')) }
      rw [modelSyscalls_mergeShards, modelSyscalls_mergeShards]
      exact congrArg Seccomp.mk (sortStrings_blocks_eq shardSyscalls _ hperm))
  unfold canonicalize
  rw [hA, hS]

/-- Witness of C1, amended: two reports on the same file, one with an old path,
with different permissions. -/
theorem mergeShards_permutation_canonical_witness :
    ([hostsShard "" ["r"], hostsShard "/a" ["w", "r"]].Perm
        [hostsShard "/a" ["w", "r"], hostsShard "" ["r"]]
      ∧ (∀ s ∈ [hostsShard "" ["r"], hostsShard "/a" ["w", "r"]], sublistsNodup s)
      ∧ [hostsShard "" ["r"], hostsShard "/a" ["w", "r"]].Pairwise oldPathsAgree)
    ∧ canonicalize (mergeShards emptyModel [hostsShard "" ["r"], hostsShard "/a" ["w", "r"]])
      = canonicalize (mergeShards emptyModel [hostsShard "/a" ["w", "r"], hostsShard "" ["r"]]) :=
  ⟨⟨List.Perm.swap _ _ _, by decide, by decide⟩,
   mergeShards_permutation_canonical emptyModel _ _ (List.Perm.swap _ _ _) (by decide)
     (by decide)⟩

/-! ## Properties of the profile names -/

theorem ToLower_append (a b : String) : ToLower (a ++ b) = ToLower a ++ ToLower b := by
  apply String.ext
  simp [ToLower, String.data_append]

theorem append_left_cancel_string (p a b : String) (h : p ++ a = p ++ b) : a = b := by
  apply String.ext
  have := congrArg String.data h
  simp only [String.data_append] at this
  exact List.append_cancel_left this

/-- C14 as stated fails: a namespaced policy `c` of namespace `a-b` and a namespaced
policy `b-c` of namespace `a` derive the same ArmorProfile name, and so do a
namespaced policy `x` of namespace `cluster-varmor` and the cluster policy `x`
when the manager runs in namespace `varmor`. -/
theorem GenerateArmorProfileName_collisions :
    (GenerateArmorProfileName "varmor" "a-b" "c" false
        = GenerateArmorProfileName "varmor" "a" "b-c" false
      ∧ ("a-b", "c") ≠ ("a", "b-c"))
    ∧ (GenerateArmorProfileName "varmor" "cluster-varmor" "x" false
        = GenerateArmorProfileName "varmor" "" "x" true
      ∧ false ≠ true) := by
  decide

/-- C14, amended: two policies of the same scope and the same namespace derive the
same ArmorProfile name exactly when their names are equal up to the case of the
letters; policies of one scope and namespace whose lowercased names differ never
share an ArmorProfile name. -/
theorem GenerateArmorProfileName_injective_in_name (managerNamespace ns name name' : String)
    (clusterScope : Bool) :
    GenerateArmorProfileName managerNamespace ns name clusterScope
        = GenerateArmorProfileName managerNamespace ns name' clusterScope
      ↔ ToLower name = ToLower name' := by
  unfold GenerateArmorProfileName
  cases clusterScope
  · simp only [Bool.false_eq_true, if_false, ToLower_append]
    constructor
    · intro h; exact append_left_cancel_string _ _ _ h
    · intro h; rw [h]
  · simp only [if_true, ToLower_append]
    constructor
    · intro h; exact append_left_cancel_string _ _ _ h
    · intro h; rw [h]

/-- C15: for every cluster policy that `ignoreAdd` admits, the derived ArmorProfile
name `GenerateArmorProfileName(managerNamespace, policyName, true)` is at most 63
bytes long. -/
theorem ignoreAdd_admitted_name_length (c : ClusterPolicyController) (managerNamespace : String)
    (vcp : VarmorClusterPolicy) (now : Int)
    (h : (ignoreAdd c managerNamespace vcp now).1 = false) :
    len (GenerateArmorProfileName managerNamespace managerNamespace vcp.Name true) ≤ 63 :=
  ((ignoreAdd_admits_iff_conditions c managerNamespace vcp now).1 h).2.2.2.2

/-- Witness of C15: the policy `demo` on the Deployment `web`, with the manager in
namespace `varmor`. -/
theorem ignoreAdd_admitted_name_length_witness :
    (ignoreAdd { enableBehaviorModeling := true } "varmor"
        (webPolicy "AppArmor" AlwaysAllowMode VarmorPolicyPending) 0).1 = false
      ∧ len (GenerateArmorProfileName "varmor" "varmor"
          (webPolicy "AppArmor" AlwaysAllowMode VarmorPolicyPending).Name true) ≤ 63 :=
  ⟨by decide,
   ignoreAdd_admitted_name_length { enableBehaviorModeling := true } "varmor"
     (webPolicy "AppArmor" AlwaysAllowMode VarmorPolicyPending) 0 (by decide)⟩

theorem ToLower_eq_specLowercased (s : String) : ToLower s = specLowercased s := by
  unfold ToLower specLowercased
  congr 1

theorem specLowercased_no_upper (s : String) :
    ∀ c ∈ (specLowercased s).data, ¬ (65 ≤ c.toNat ∧ c.toNat ≤ 90) := by
  intro c hc
  simp only [specLowercased, List.mem_map] at hc
  obtain ⟨d, _, hd⟩ := hc
  by_cases hu : 65 ≤ d.toNat ∧ d.toNat ≤ 90
  · rw [if_pos hu] at hd
    subst hd
    obtain ⟨h₁, h₂⟩ := hu
    generalize d.toNat = n at h₁ h₂
    interval_cases n <;> decide
  · rw [if_neg hu] at hd
    subst hd
    exact hu

theorem ToLower_length (s : String) : (ToLower s).length = s.length := by
  unfold ToLower
  show (s.data.map Char.toLower).length = s.data.length
  exact List.length_map _ _

/-- C16: `GenerateArmorProfileName` returns, for cluster scope, the string
`varmor-cluster-<manager namespace>-<policy name>` with each letter `A` to `Z`
replaced by its lower-case letter and every other character kept, whatever the
argument `ns` is, and for namespace scope the string `varmor-<ns>-<policy name>`
lowercased in the same way; no letter `A` to `Z` is left in the result, and the
result has as many characters as the string before the lowering. -/
theorem GenerateArmorProfileName_format (managerNamespace ns ns' name : String) :
    GenerateArmorProfileName managerNamespace ns name true
        = specLowercased ("varmor-cluster-" ++ managerNamespace ++ "-" ++ name)
      ∧ GenerateArmorProfileName managerNamespace ns name true
        = GenerateArmorProfileName managerNamespace ns' name true
      ∧ GenerateArmorProfileName managerNamespace ns name false
        = specLowercased ("varmor-" ++ ns ++ "-" ++ name)
      ∧ (∀ clusterScope, ∀ c ∈ (GenerateArmorProfileName managerNamespace ns name clusterScope).data,
          ¬ (65 ≤ c.toNat ∧ c.toNat ≤ 90))
      ∧ (GenerateArmorProfileName managerNamespace ns name true).length
          = ("varmor-cluster-" ++ managerNamespace ++ "-" ++ name).length
      ∧ (GenerateArmorProfileName managerNamespace ns name false).length
          = ("varmor-" ++ ns ++ "-" ++ name).length := by
  refine ⟨?_, rfl, ?_, ?_, ?_, ?_⟩
  · simp only [GenerateArmorProfileName, if_true, ToLower_eq_specLowercased]
  · simp only [GenerateArmorProfileName, Bool.false_eq_true, if_false, ToLower_eq_specLowercased]
  · intro clusterScope c hc
    unfold GenerateArmorProfileName at hc
    rw [ToLower_eq_specLowercased] at hc
    exact specLowercased_no_upper _ c hc
  · simp only [GenerateArmorProfileName, if_true]
    exact ToLower_length _
  · simp only [GenerateArmorProfileName, Bool.false_eq_true, if_false]
    exact ToLower_length _

/-- C16, at a concrete input: with the manager in namespace `varmor`, the policy
`Demo-APP` of namespace `Kube-System` gets the name `varmor-cluster-varmor-demo-app`
as a cluster policy, for any value of `ns`, and the name
`varmor-kube-system-demo-app` as a namespaced policy. -/
theorem GenerateArmorProfileName_format_witness :
    GenerateArmorProfileName "varmor" "Kube-System" "Demo-APP" true
        = "varmor-cluster-varmor-demo-app"
      ∧ GenerateArmorProfileName "varmor" "" "Demo-APP" true = "varmor-cluster-varmor-demo-app"
      ∧ GenerateArmorProfileName "varmor" "Kube-System" "Demo-APP" false
        = "varmor-kube-system-demo-app" :=
  ⟨(GenerateArmorProfileName_format "varmor" "Kube-System" "" "Demo-APP").1.trans (by decide),
   ((GenerateArmorProfileName_format "varmor" "Kube-System" "" "Demo-APP").2.1.symm.trans
      (GenerateArmorProfileName_format "varmor" "Kube-System" "" "Demo-APP").1).trans (by decide),
   (GenerateArmorProfileName_format "varmor" "Kube-System" "" "Demo-APP").2.2.1.trans
      (by decide)⟩

/-- C17, counterexample: a model into which only the report of a node under the
Seccomp enforcer was merged has no AppArmor part, so it has no profile name, and
`GenerateProfileWithBehaviorModel` returns no error for it: the program stops at
the dereference of the nil pointer. -/
theorem GenerateProfileWithBehaviorModel_nil_AppArmor :
    (mergeShard emptyModel seccompOnlyShard).DynamicResult.AppArmor = none
      ∧ GenerateProfileWithBehaviorModel demoTemplate
          (mergeShard emptyModel seccompOnlyShard).DynamicResult false = .nilDereference
      ∧ ¬ ∃ err, GenerateProfileWithBehaviorModel demoTemplate
          (mergeShard emptyModel seccompOnlyShard).DynamicResult false = .error err :=
  ⟨by decide, by decide, by
    rintro ⟨err, h⟩
    have hn : GenerateProfileWithBehaviorModel demoTemplate
        (mergeShard emptyModel seccompOnlyShard).DynamicResult false = .nilDereference := by
      decide
    rw [hn] at h
    cases h⟩

/-- C17, amended: for a behavior model that has an AppArmor part,
`GenerateProfileWithBehaviorModel` returns an error exactly when the list of
profile names does not have exactly one element; with exactly one name it
returns the base64 encoding of the text made of the head of the template, that
name, the middle of the template, the rule sets (those of ptrace and signal with
the name as peer) and the end of the template. For a model without AppArmor part
the call neither returns a profile nor an error: it stops at the dereference of
the nil pointer, and only then. -/
theorem GenerateProfileWithBehaviorModel_result (t : ProfileTemplate)
    (dynamicResult : DynamicResult) (debug : Bool) :
    (GenerateProfileWithBehaviorModel t dynamicResult debug = .nilDereference
        ↔ dynamicResult.AppArmor = none)
      ∧ ∀ appArmor, dynamicResult.AppArmor = some appArmor →
          ((∃ err, GenerateProfileWithBehaviorModel t dynamicResult debug = .error err)
            ↔ appArmor.Profiles.length ≠ 1)
          ∧ ∀ profileName, appArmor.Profiles = [profileName] →
              GenerateProfileWithBehaviorModel t dynamicResult debug
                = .ok (EncodeToString
                    (t.before ++ profileName ++ t.between
                      ++ (buildExecRules appArmor ++ buildFileRules appArmor
                        ++ buildCapabilityRules appArmor ++ buildNetworkRules appArmor debug
                        ++ buildPtraceRules appArmor profileName debug
                        ++ buildSignalRules appArmor profileName debug
                        ++ buildDefaultAllowRules appArmor)
                      ++ t.after)) := by
  unfold GenerateProfileWithBehaviorModel
  cases ha : dynamicResult.AppArmor with
  | none => simp
  | some a =>
    refine ⟨?_, ?_⟩
    · cases hp : a.Profiles with
      | nil => simp [hp]
      | cons x l =>
        cases l with
        | nil => simp [hp]
        | cons y l' => simp [hp]
    · intro appArmor happ
      cases happ
      refine ⟨?_, ?_⟩
      · cases hp : a.Profiles with
        | nil => simp [hp]
        | cons x l =>
          cases l with
          | nil => simp [hp]
          | cons y l' => simp [hp]
      · intro profileName hp
        simp only [hp]
        rfl

/-- C17, amended, at a concrete input: for the model of the profile `p` without
entries, outside debug mode and with the template `demoTemplate`, the call returns
the base64 encoding of `demoProfileText`, the profile `p`, which is the string
`demoProfileEncoded`. -/
theorem GenerateProfileWithBehaviorModel_result_witness :
    GenerateProfileWithBehaviorModel demoTemplate
        { AppArmor := some (demoModel []), Seccomp := none } false
      = .ok (EncodeToString demoProfileText)
    ∧ EncodeToString demoProfileText = demoProfileEncoded :=
  ⟨(((GenerateProfileWithBehaviorModel_result demoTemplate
        { AppArmor := some (demoModel []), Seccomp := none } false).2 (demoModel []) rfl).2
      "p" rfl).trans (by decide),
   by decide⟩

/-! ## Properties of the phase and of the completion of modeling -/

/-- C11, the code at the failing input: the cluster policy `demo` in mode
BehaviorModeling is admitted by `ignoreAdd`, and with no failed node the
UpdateStatus handler gives it the phase Protecting, where the handler of a
namespaced policy in the same mode gives Modeling; for every cluster policy the
phase is Error or Protecting, whatever the mode. -/
theorem updateStatusCluster_never_Modeling (vcp : VarmorClusterPolicy)
    (policyStatus : PolicyStatus) (desiredNumber : Int) :
    (updateStatusCluster vcp policyStatus desiredNumber).2
        = (if policyStatus.FailedNumber > 0 then VarmorPolicyError else VarmorPolicyProtecting)
      ∧ (ignoreAdd { enableBehaviorModeling := true } "varmor"
          (webPolicy "AppArmor" BehaviorModelingMode VarmorPolicyPending) 0).1 = false
      ∧ (updateStatusCluster (webPolicy "AppArmor" BehaviorModelingMode VarmorPolicyPending)
          allLoaded 3).2 = VarmorPolicyProtecting
      ∧ (updateStatusNamespaced BehaviorModelingMode allLoaded
          (some { CompletedNumber := 0, NodeMessages := [] }) 3 VarmorPolicyPending 0 0 1).2
        = VarmorPolicyModeling := by
  refine ⟨rfl, ?_, ?_, ?_⟩ <;> decide

/-- C12 as stated fails: with no cached modeling status, a policy in phase Modeling
whose duration of one minute ended nine minutes ago is not judged complete by
the handler, while the rule of the specification judges it complete. -/
theorem modelingComplete_needs_phase_Completed :
    modelingComplete none 1 VarmorPolicyModeling (10 * Minute) 0 1 = false
      ∧ specModelingComplete none 1 (10 * Minute) 0 1 = true := by
  decide

theorem wrapInt64_of_fits (x : Int) (h : -2 ^ 63 ≤ x ∧ x < 2 ^ 63) : wrapInt64 x = x := by
  unfold wrapInt64
  omega

/-- C12, amended: in the UpdateStatus handler a BehaviorModeling policy is judged
complete if and only if the cached `completedNumber` is at least `desiredNumber`,
or the cache holds no modeling status for it, the phase recorded in its status
is already Completed, and the clock is after the creation time of the
ArmorProfile plus `duration` minutes (for a duration whose nanoseconds fit an
`int64`). -/
theorem modelingComplete_iff (modelingStatus : Option ModelingStatus) (desiredNumber : Int)
    (phase : String) (now createTime duration : Int)
    (hfit : -2 ^ 63 ≤ duration * Minute ∧ duration * Minute < 2 ^ 63) :
    modelingComplete modelingStatus desiredNumber phase now createTime duration = true ↔
      (∃ ms, modelingStatus = some ms ∧ ms.CompletedNumber ≥ desiredNumber)
        ∨ (modelingStatus = none ∧ phase = VarmorPolicyCompleted
          ∧ now > createTime + duration * Minute) := by
  unfold modelingComplete
  rw [wrapInt64_of_fits _ hfit]
  cases modelingStatus with
  | none =>
    by_cases hp : phase = VarmorPolicyCompleted
    · by_cases ht : now > createTime + duration * Minute
      · simp [hp, ht]
      · simp [hp, ht]
    · simp [hp]
  | some ms =>
    by_cases hc : ms.CompletedNumber ≥ desiredNumber
    · simp [hc]
    · simp [hc]

/-- Witness of C12, amended: no cached modeling status, phase Completed, a duration
of one minute that ended nine minutes ago. -/
theorem modelingComplete_iff_witness :
    (-2 ^ 63 ≤ (1 : Int) * Minute ∧ (1 : Int) * Minute < 2 ^ 63)
      ∧ modelingComplete none 1 VarmorPolicyCompleted (10 * Minute) 0 1 = true :=
  ⟨by decide,
   (modelingComplete_iff none 1 VarmorPolicyCompleted (10 * Minute) 0 1 (by decide)).2
     (Or.inr ⟨rfl, rfl, by decide⟩)⟩

/-- C13, the code at the failing input: for the cluster policy `demo` in mode
BehaviorModeling with duration 0, which `ignoreAdd` admits, `NewArmorProfile`
returns an ArmorProfile and no error; for the namespaced policy with the same
policy it returns the error on the duration. -/
theorem NewArmorProfile_cluster_accepts_zero_duration :
    (ignoreAdd { enableBehaviorModeling := true } "varmor" zeroDurationClusterPolicy 0).1 = false
      ∧ (NewArmorProfile demoGenerators "varmor" (.cluster zeroDurationClusterPolicy [])).2 = none
      ∧ ((NewArmorProfile demoGenerators "varmor" (.cluster zeroDurationClusterPolicy [])).1.map
          (fun ap => (ap.Name, ap.Spec.Profile.Mode, ap.Spec.BehaviorModeling)))
        = some ("varmor-cluster-varmor-demo", "complain", { Enable := false, Duration := 0 })
      ∧ (NewArmorProfile demoGenerators "varmor" (.namespaced zeroDurationNamespacedPolicy)).2
        = some "invalid parameter: .Spec.Policy.ModelingOptions.Duration == 0" := by
  decide

/-! ## Maps -/

theorem mapGet_mapSet {β : Type} (m : List (String × β)) (k k' : String) (v : β) :
    mapGet (mapSet m k v) k' = if k = k' then some v else mapGet m k' := by
  induction m with
  | nil => simp [mapSet, mapGet]
  | cons e rest ih =>
    obtain ⟨k₀, v₀⟩ := e
    by_cases h₀ : k₀ = k
    · subst h₀
      by_cases h : k₀ = k'
      · simp [mapSet, mapGet, h]
      · simp [mapSet, mapGet, h]
    · by_cases h : k₀ = k'
      · subst h
        have hk : ¬ k = k₀ := fun hk => h₀ hk.symm
        simp [mapSet, mapGet, h₀, hk]
      · simp [mapSet, mapGet, h₀, h, ih]

theorem mem_mapKeys_iff {β : Type} (m : List (String × β)) (k : String) :
    k ∈ mapKeys m ↔ mapGet m k ≠ none := by
  induction m with
  | nil => simp [mapKeys, mapGet]
  | cons e rest ih =>
    obtain ⟨k₀, v₀⟩ := e
    unfold mapKeys at ih ⊢
    by_cases h : k₀ = k
    · simp [mapGet, h]
    · have h' : ¬ k = k₀ := fun hk => h hk.symm
      simp [mapGet, h, h', ih]

theorem mem_mapKeys_mapSet {β : Type} (m : List (String × β)) (k x : String) (v : β) :
    x ∈ mapKeys (mapSet m k v) ↔ x = k ∨ x ∈ mapKeys m := by
  rw [mem_mapKeys_iff, mem_mapKeys_iff, mapGet_mapSet]
  by_cases h : k = x
  · simp [h]
  · have h' : ¬ x = k := fun hx => h hx.symm
    simp [h, h']

theorem nodup_mapKeys_mapSet {β : Type} (m : List (String × β)) (k : String) (v : β)
    (h : (mapKeys m).Nodup) : (mapKeys (mapSet m k v)).Nodup := by
  induction m with
  | nil => simp [mapSet, mapKeys]
  | cons e rest ih =>
    obtain ⟨k₀, v₀⟩ := e
    have h₁ : k₀ ∉ mapKeys rest ∧ (mapKeys rest).Nodup := by
      simpa [mapKeys] using h
    by_cases h₀ : k₀ = k
    · subst h₀
      simpa [mapSet, mapKeys] using h
    · have hmem : k₀ ∉ mapKeys (mapSet rest k v) := by
        rw [mem_mapKeys_mapSet]
        intro hc
        rcases hc with hc | hc
        · exact h₀ hc
        · exact h₁.1 hc
      have hnd := ih h₁.2
      simp only [mapSet, h₀, if_false]
      exact List.nodup_cons.2 ⟨hmem, hnd⟩

theorem InStringArray_iff (c : String) (array : List String) :
    InStringArray c array = true ↔ c ∈ array := by
  unfold InStringArray
  simp [List.any_eq_true]

/-! ## Properties of the rebuild of the policy statuses -/

theorem mapGet_conditions_fold (nodes : List String) (node : String) :
    ∀ (conditions : List ArmorProfileCondition) (ps : PolicyStatus),
      mapGet (conditions.foldl
        (fun (policyStatus : PolicyStatus) condition =>
          if InStringArray condition.NodeName nodes then
            { policyStatus with
              FailedNumber := policyStatus.FailedNumber + 1
              NodeMessages :=
                mapSet policyStatus.NodeMessages condition.NodeName condition.Message }
          else policyStatus) ps).NodeMessages node
        = if InStringArray node nodes then
            match (conditions.filter (fun c => decide (c.NodeName = node))).getLast? with
            | some c => some c.Message
            | none => mapGet ps.NodeMessages node
          else mapGet ps.NodeMessages node := by
  intro conditions
  induction conditions with
  | nil => intro ps; simp
  | cons c rest ih =>
    intro ps
    rw [List.foldl_cons, ih]
    by_cases hn : c.NodeName = node
    · subst hn
      by_cases ho : InStringArray c.NodeName nodes = true
      · simp only [ho, if_true, List.filter_cons, decide_True, List.getLast?_cons,
          mapGet_mapSet]
        cases (List.filter (fun c' => decide (c'.NodeName = c.NodeName)) rest).getLast? <;> simp
      · simp [ho]
    · by_cases ho : InStringArray c.NodeName nodes = true
      · simp [ho, hn, List.filter_cons, mapGet_mapSet]
      · simp [ho, hn, List.filter_cons]

theorem mapGet_nodes_fold (x : String) :
    ∀ (ns : List String) (ps : PolicyStatus),
      mapGet (ns.foldl
        (fun (policyStatus : PolicyStatus) node =>
          if (mapGet policyStatus.NodeMessages node).isNone then
            { policyStatus with
              SuccessedNumber := policyStatus.SuccessedNumber + 1
              NodeMessages := mapSet policyStatus.NodeMessages node ArmorProfileReady }
          else policyStatus) ps).NodeMessages x
        = match mapGet ps.NodeMessages x with
          | some v => some v
          | none => if x ∈ ns then some ArmorProfileReady else none := by
  intro ns
  induction ns with
  | nil =>
    intro ps
    simp only [List.foldl_nil]
    cases mapGet ps.NodeMessages x <;> simp
  | cons n rest ih =>
    intro ps
    rw [List.foldl_cons, ih]
    by_cases hx : n = x
    · subst hx
      cases hg : mapGet ps.NodeMessages n with
      | none => simp [hg, mapGet_mapSet]
      | some v => simp [hg]
    · have hx' : ¬ x = n := fun h => hx h.symm
      cases hn : mapGet ps.NodeMessages n with
      | none => simp [hn, mapGet_mapSet, hx, hx']
      | some v => simp [hn, hx']

theorem nodup_conditions_fold (nodes : List String) :
    ∀ (conditions : List ArmorProfileCondition) (ps : PolicyStatus),
      (mapKeys ps.NodeMessages).Nodup →
      (mapKeys (conditions.foldl
        (fun (policyStatus : PolicyStatus) condition =>
          if InStringArray condition.NodeName nodes then
            { policyStatus with
              FailedNumber := policyStatus.FailedNumber + 1
              NodeMessages :=
                mapSet policyStatus.NodeMessages condition.NodeName condition.Message }
          else policyStatus) ps).NodeMessages).Nodup := by
  intro conditions
  induction conditions with
  | nil => intro ps h; exact h
  | cons c rest ih =>
    intro ps h
    rw [List.foldl_cons]
    apply ih
    by_cases ho : InStringArray c.NodeName nodes = true
    · simp only [ho, if_true]
      exact nodup_mapKeys_mapSet _ _ _ h
    · simp only [ho]
      exact h

theorem nodup_nodes_fold :
    ∀ (ns : List String) (ps : PolicyStatus),
      (mapKeys ps.NodeMessages).Nodup →
      (mapKeys (ns.foldl
        (fun (policyStatus : PolicyStatus) node =>
          if (mapGet policyStatus.NodeMessages node).isNone then
            { policyStatus with
              SuccessedNumber := policyStatus.SuccessedNumber + 1
              NodeMessages := mapSet policyStatus.NodeMessages node ArmorProfileReady }
          else policyStatus) ps).NodeMessages).Nodup := by
  intro ns
  induction ns with
  | nil => intro ps h; exact h
  | cons n rest ih =>
    intro ps h
    rw [List.foldl_cons]
    apply ih
    by_cases ho : (mapGet ps.NodeMessages n).isNone = true
    · simp only [ho, if_true]
      exact nodup_mapKeys_mapSet _ _ _ h
    · simp only [ho]
      exact h

theorem mapGet_rebuildPolicyStatus (nodes : List String)
    (conditions : List ArmorProfileCondition) (node : String) :
    mapGet (rebuildPolicyStatus nodes conditions).NodeMessages node
      = if node ∈ nodes then some (reportedMessage conditions node) else none := by
  unfold rebuildPolicyStatus reportedMessage
  simp only []
  rw [mapGet_nodes_fold, mapGet_conditions_fold]
  by_cases hn : node ∈ nodes
  · have ho : InStringArray node nodes = true := (InStringArray_iff node nodes).2 hn
    simp only [ho, hn, if_true, mapGet]
    cases (List.filter (fun c => decide (c.NodeName = node)) conditions).getLast? <;> rfl
  · have ho : ¬ InStringArray node nodes = true := fun h => hn ((InStringArray_iff node nodes).1 h)
    simp [ho, hn, mapGet]

theorem nodup_rebuildPolicyStatus (nodes : List String)
    (conditions : List ArmorProfileCondition) :
    (mapKeys (rebuildPolicyStatus nodes conditions).NodeMessages).Nodup := by
  unfold rebuildPolicyStatus
  simp only []
  apply nodup_nodes_fold
  apply nodup_conditions_fold
  simp [mapKeys]

theorem rebuild_namespaces_fold
    (key : ArmorProfile → Except String String) (nodes : List String)
    (apLists : String → Except String (List ArmorProfile)) :
    ∀ (nsItems : List String) (m : StatusManager),
      nsItems.foldl
        (fun (m : StatusManager) ns =>
          match apLists ns with
          | .error _ => m
          | .ok apItems =>
            apItems.foldl
              (fun (m : StatusManager) ap =>
                match key ap with
                | .error _ => m
                | .ok statusKey =>
                  { m with
                    PolicyStatuses :=
                      mapSet m.PolicyStatuses statusKey
                        (rebuildPolicyStatus nodes ap.Status.Conditions) })
              m)
        m
      = (listedArmorProfiles nsItems apLists).foldl
          (fun (m : StatusManager) ap =>
            match key ap with
            | .error _ => m
            | .ok statusKey =>
              { m with
                PolicyStatuses :=
                  mapSet m.PolicyStatuses statusKey
                    (rebuildPolicyStatus nodes ap.Status.Conditions) })
          m := by
  intro nsItems
  induction nsItems with
  | nil => intro m; rfl
  | cons ns rest ih =>
    intro m
    unfold listedArmorProfiles at ih ⊢
    rw [List.foldl_cons, ih, List.flatMap_cons, List.foldl_append]
    cases apLists ns <;> rfl

theorem rebuild_fold_other_key (key : ArmorProfile → Except String String)
    (nodes : List String) (k : String) :
    ∀ (aps : List ArmorProfile) (m : StatusManager),
      k ∉ derivedStatusKeys key aps →
      mapGet (aps.foldl
          (fun (m : StatusManager) ap =>
            match key ap with
            | .error _ => m
            | .ok statusKey =>
              { m with
                PolicyStatuses :=
                  mapSet m.PolicyStatuses statusKey
                    (rebuildPolicyStatus nodes ap.Status.Conditions) })
          m).PolicyStatuses k
        = mapGet m.PolicyStatuses k := by
  intro aps
  induction aps with
  | nil => intro m _; rfl
  | cons a rest ih =>
    intro m hk
    rw [List.foldl_cons]
    unfold derivedStatusKeys at hk ih
    rw [List.filterMap_cons] at hk
    cases ha : key a with
    | error e =>
      rw [ha] at hk
      exact ih m hk
    | ok k₀ =>
      rw [ha] at hk
      simp only [List.mem_cons, not_or] at hk
      rw [ih _ hk.2]
      simp only [mapGet_mapSet]
      rw [if_neg (fun h => hk.1 h.symm)]

theorem rebuild_fold_own_key (key : ArmorProfile → Except String String)
    (nodes : List String) (k : String) (ap : ArmorProfile) (hkey : key ap = .ok k) :
    ∀ (aps : List ArmorProfile) (m : StatusManager),
      (derivedStatusKeys key aps).Nodup → ap ∈ aps →
      mapGet (aps.foldl
          (fun (m : StatusManager) ap =>
            match key ap with
            | .error _ => m
            | .ok statusKey =>
              { m with
                PolicyStatuses :=
                  mapSet m.PolicyStatuses statusKey
                    (rebuildPolicyStatus nodes ap.Status.Conditions) })
          m).PolicyStatuses k
        = some (rebuildPolicyStatus nodes ap.Status.Conditions) := by
  intro aps
  induction aps with
  | nil => intro m _ h; simp at h
  | cons a rest ih =>
    intro m hnd hmem
    rw [List.foldl_cons]
    have hnd' := hnd
    unfold derivedStatusKeys at hnd'
    rw [List.filterMap_cons] at hnd'
    rcases List.mem_cons.1 hmem with h | h
    · subst h
      rw [hkey] at hnd'
      simp only [List.nodup_cons] at hnd'
      rw [rebuild_fold_other_key key nodes k rest _ hnd'.1]
      simp only [hkey, mapGet_mapSet, if_true]
    · apply ih _ _ h
      cases ha : key a with
      | error e =>
        rw [ha] at hnd'
        exact hnd'
      | ok k₀ =>
        rw [ha] at hnd'
        exact (List.nodup_cons.1 hnd').2

theorem nodup_rebuild_fold (key : ArmorProfile → Except String String) (nodes : List String) :
    ∀ (aps : List ArmorProfile) (m : StatusManager),
      (mapKeys m.PolicyStatuses).Nodup →
      (mapKeys (aps.foldl
          (fun (m : StatusManager) ap =>
            match key ap with
            | .error _ => m
            | .ok statusKey =>
              { m with
                PolicyStatuses :=
                  mapSet m.PolicyStatuses statusKey
                    (rebuildPolicyStatus nodes ap.Status.Conditions) })
          m).PolicyStatuses).Nodup := by
  intro aps
  induction aps with
  | nil => intro m h; exact h
  | cons a rest ih =>
    intro m h
    rw [List.foldl_cons]
    apply ih
    cases key a with
    | error e => exact h
    | ok k₀ => exact nodup_mapKeys_mapSet _ _ _ h

/-- C18: `rebuildPolicyStatuses` gives every listed ArmorProfile with a derivable
status key one entry of `PolicyStatuses`, under that key; the keys of the node
messages of the entry are exactly the online nodes, each once; an online node
that a condition of the ArmorProfile names maps to the message of that condition
(of the last one, if several name it), every other online node maps to
`ArmorProfileReady`, and no offline node has a message. The helper that derives
the keys gives different keys to the listed ArmorProfiles. -/
theorem rebuildPolicyStatuses_entry (m : StatusManager)
    (key : ArmorProfile → Except String String) (nsItems nodes : List String)
    (apLists : String → Except String (List ArmorProfile))
    (hwf : (mapKeys m.PolicyStatuses).Nodup)
    (hkeys : (derivedStatusKeys key (listedArmorProfiles nsItems apLists)).Nodup)
    (ap : ArmorProfile) (hap : ap ∈ listedArmorProfiles nsItems apLists)
    (statusKey : String) (hk : key ap = .ok statusKey) :
    (rebuildPolicyStatuses m key (.ok nsItems) (.ok nodes) apLists).2 = none
      ∧ (mapKeys (rebuildPolicyStatuses m key (.ok nsItems) (.ok nodes)
            apLists).1.PolicyStatuses).count statusKey = 1
      ∧ ∃ ps, mapGet (rebuildPolicyStatuses m key (.ok nsItems) (.ok nodes)
            apLists).1.PolicyStatuses statusKey = some ps
          ∧ (mapKeys ps.NodeMessages).Nodup
          ∧ (∀ node, node ∈ mapKeys ps.NodeMessages ↔ node ∈ nodes)
          ∧ (∀ node ∈ nodes, mapGet ps.NodeMessages node
              = some (reportedMessage ap.Status.Conditions node))
          ∧ (∀ node ∈ nodes, (∀ c ∈ ap.Status.Conditions, c.NodeName ≠ node) →
              mapGet ps.NodeMessages node = some ArmorProfileReady)
          ∧ (∀ node ∈ nodes, ∀ c ∈ ap.Status.Conditions, c.NodeName = node →
              (∀ c' ∈ ap.Status.Conditions, c'.NodeName = node → c'.Message = c.Message) →
              mapGet ps.NodeMessages node = some c.Message) := by
  unfold rebuildPolicyStatuses
  simp only []
  rw [rebuild_namespaces_fold]
  have hget := rebuild_fold_own_key key nodes statusKey ap hk
    (listedArmorProfiles nsItems apLists) m hkeys hap
  have hnd := nodup_rebuild_fold key nodes (listedArmorProfiles nsItems apLists) m hwf
  refine ⟨trivial, ?_, rebuildPolicyStatus nodes ap.Status.Conditions, hget,
    nodup_rebuildPolicyStatus nodes _, ?_, ?_, ?_, ?_⟩
  · apply List.count_eq_one_of_mem hnd
    rw [mem_mapKeys_iff, hget]
    simp
  · intro node
    rw [mem_mapKeys_iff, mapGet_rebuildPolicyStatus]
    by_cases hn : node ∈ nodes
    · simp [hn]
    · simp [hn]
  · intro node hn
    rw [mapGet_rebuildPolicyStatus, if_pos hn]
  · intro node hn hnone
    rw [mapGet_rebuildPolicyStatus, if_pos hn]
    unfold reportedMessage
    have hf : List.filter (fun c => decide (c.NodeName = node)) ap.Status.Conditions = [] := by
      rw [List.filter_eq_nil_iff]
      intro c hc
      simpa using hnone c hc
    rw [hf]
    rfl
  · intro node hn c hc hcn hall
    rw [mapGet_rebuildPolicyStatus, if_pos hn]
    unfold reportedMessage
    cases hl : (List.filter (fun c => decide (c.NodeName = node)) ap.Status.Conditions).getLast?
      with
    | none =>
      rw [List.getLast?_eq_none_iff, List.filter_eq_nil_iff] at hl
      exact absurd (by simpa using hcn) (hl c hc)
    | some c' =>
      have hmem := List.mem_of_getLast?_eq_some hl
      rw [List.mem_filter] at hmem
      simp only [decide_eq_true_eq] at hmem
      simp only [hall c' hmem.1 hmem.2]

/-- Witness of C18: one ArmorProfile in namespace `default`, the namespace
`kube-system` that cannot be listed, and the online nodes `n1` and `n2`. -/
theorem rebuildPolicyStatuses_entry_witness :
    ((mapKeys emptyManager.PolicyStatuses).Nodup
      ∧ (derivedStatusKeys demoStatusKey
          (listedArmorProfiles ["default", "kube-system"] demoArmorProfileLists)).Nodup
      ∧ demoArmorProfile ∈ listedArmorProfiles ["default", "kube-system"] demoArmorProfileLists
      ∧ demoStatusKey demoArmorProfile = .ok "default/varmor-default-demo")
    ∧ (rebuildPolicyStatuses emptyManager demoStatusKey (.ok ["default", "kube-system"])
        (.ok ["n1", "n2"]) demoArmorProfileLists).2 = none :=
  ⟨⟨by decide, by decide, by decide, rfl⟩,
   (rebuildPolicyStatuses_entry emptyManager demoStatusKey ["default", "kube-system"]
      ["n1", "n2"] demoArmorProfileLists (by decide) (by decide) demoArmorProfile (by decide)
      "default/varmor-default-demo" rfl).1⟩

/-! ## Properties of the periodic update and of the reset -/

theorem mapGet_filter_key {β : Type} (p : String → Bool) (k : String) :
    ∀ m : List (String × β),
      mapGet (m.filter (fun e => p e.1)) k = if p k then mapGet m k else none := by
  intro m
  induction m with
  | nil => simp [mapGet]
  | cons e rest ih =>
    obtain ⟨k₀, v₀⟩ := e
    by_cases h₀ : k₀ = k
    · subst h₀
      by_cases hp : p k₀ = true
      · simp [List.filter_cons, hp, mapGet]
      · simp [List.filter_cons, hp, mapGet, ih]
    · by_cases hp : p k₀ = true
      · simp [List.filter_cons, hp, mapGet, h₀, ih]
      · simp [List.filter_cons, hp, mapGet, h₀, ih]

theorem refresh_fold_NodeMessages (nodes : List String) :
    ∀ (es : List (String × String)) (ps : PolicyStatus),
      (es.foldl
        (fun (policyStatus : PolicyStatus) entry =>
          if InStringArray entry.1 nodes then
            if entry.2 = ArmorProfileReady then
              { policyStatus with SuccessedNumber := policyStatus.SuccessedNumber + 1 }
            else { policyStatus with FailedNumber := policyStatus.FailedNumber + 1 }
          else { policyStatus with NodeMessages := mapDelete policyStatus.NodeMessages entry.1 })
        ps).NodeMessages
      = ps.NodeMessages.filter
          (fun e => !(es.any (fun x => decide (x.1 = e.1) && !(InStringArray x.1 nodes)))) := by
  intro es
  induction es with
  | nil => intro ps; simp
  | cons x rest ih =>
    intro ps
    rw [List.foldl_cons, ih]
    by_cases ho : InStringArray x.1 nodes = true
    · by_cases hr : x.2 = ArmorProfileReady
      · simp [ho, hr]
      · simp [ho, hr]
    · have ho' : InStringArray x.1 nodes = false := by simpa using ho
      simp only [ho', Bool.false_eq_true, if_false, mapDelete, List.filter_filter]
      apply List.filter_congr
      intro e _
      by_cases hx : x.1 = e.1
      · have he : InStringArray e.1 nodes = false := hx ▸ ho'
        simp [hx, he]
      · have hx' : ¬ e.1 = x.1 := fun h => hx h.symm
        simp [hx, hx', ho']

theorem refreshPolicyStatus_NodeMessages (nodes : List String) (ps : PolicyStatus) :
    (refreshPolicyStatus nodes ps).NodeMessages
      = ps.NodeMessages.filter (fun e => InStringArray e.1 nodes) := by
  unfold refreshPolicyStatus
  rw [refresh_fold_NodeMessages]
  apply List.filter_congr
  intro e he
  by_cases ho : InStringArray e.1 nodes = true
  · rw [ho]
    simp only [Bool.not_eq_true', List.any_eq_false, Bool.and_eq_true, decide_eq_true_eq,
      Bool.not_eq_true', not_and, Bool.not_eq_false]
    intro x _ hx
    rw [hx]
    exact ho
  · have ho' : InStringArray e.1 nodes = false := by simpa using ho
    rw [ho']
    simp only [Bool.not_eq_false', List.any_eq_true, Bool.and_eq_true, decide_eq_true_eq,
      Bool.not_eq_true']
    exact ⟨e, he, rfl, ho'⟩

theorem updateCRStatus_fold_blocked (nodes : List String) :
    ∀ (es : List (String × PolicyStatus)) (state : TickState), state.blocked = true →
      es.foldl (updateCRStatus nodes) state = state := by
  intro es
  induction es with
  | nil => intro state _; rfl
  | cons e rest ih =>
    intro state hb
    have hstep : updateCRStatus nodes state e = state := by
      unfold updateCRStatus
      rw [if_pos hb]
    rw [List.foldl_cons, hstep]
    exact ih state hb

theorem retrieveDesiredNumber_ok (m : StatusManager) (desired : Int) :
    (retrieveDesiredNumber m (.ok desired)).2 = none
      ∧ (retrieveDesiredNumber m (.ok desired)).1.PolicyStatuses = m.PolicyStatuses := by
  unfold retrieveDesiredNumber
  cases m.debug <;> exact ⟨rfl, rfl⟩

/-- When `UpdateStatusCh` is full, `updateAllCRStatus` does not return: with the
policies `default/a` and `default/b` in the cache and 100 keys in the channel, the
status of the first policy is refreshed and stored, the send of its key blocks,
and the status of the second policy keeps the message of the node `n2`, where the
agent does not run. -/
theorem updateAllCRStatus_blocks_on_full_channel :
    updateAllCRStatus twoPolicyManager (List.replicate 100 "default/a") [] (.ok 1) (.ok ["n1"])
      = { manager :=
            { twoPolicyManager with
              desiredNumber := 1
              PolicyStatuses :=
                [("default/a",
                  { SuccessedNumber := 1, FailedNumber := 0
                    NodeMessages := [("n1", ArmorProfileReady)] }),
                 ("default/b",
                  { SuccessedNumber := 2, FailedNumber := 0
                    NodeMessages := [("n1", ArmorProfileReady), ("n2", ArmorProfileReady)] })] }
          channel := List.replicate 100 "default/a"
          arrivals := []
          blocked := true } := by
  decide

/-- C20, the code at the failing input: processing `Reset` for the key
`default/demo` of `demoManager` zeroes the counters and empties the node messages
of the policy status, and zeroes `completedNumber` of the modeling status, whose
node messages stay as they were. -/
theorem handleReset_keeps_modeling_NodeMessages :
    handleReset demoManager "default/demo"
      = { demoManager with
          PolicyStatuses :=
            [("default/demo", { SuccessedNumber := 0, FailedNumber := 0, NodeMessages := [] })]
          ModelingStatuses :=
            [("default/demo",
              { CompletedNumber := 0, NodeMessages := [("n1", "done"), ("n2", "done")] })] } := by
  decide

/-! ## Properties of the deletion of a status and of the update of an absent one -/

theorem mapDelete_mapDelete {β : Type} (m : List (String × β)) (k : String) :
    mapDelete (mapDelete m k) k = mapDelete m k := by
  unfold mapDelete
  rw [List.filter_filter]
  congr 1
  funext entry
  simp

theorem mapGet_mapDelete {β : Type} (m : List (String × β)) (k k' : String) :
    mapGet (mapDelete m k) k' = if k' = k then none else mapGet m k' := by
  have h := mapGet_filter_key (fun x => decide (x ≠ k)) k' m
  unfold mapDelete
  rw [h]
  by_cases hk : k' = k
  · simp [hk]
  · simp [hk]

theorem mapDelete_of_not_mem {β : Type} (m : List (String × β)) (k : String)
    (h : k ∉ mapKeys m) : mapDelete m k = m := by
  unfold mapDelete
  rw [List.filter_eq_self]
  intro entry hentry
  have : entry.1 ≠ k := by
    intro hk
    apply h
    unfold mapKeys
    exact hk ▸ List.mem_map_of_mem Prod.fst hentry
  simpa using this

theorem mem_mapKeys_mapDelete {β : Type} (m : List (String × β)) (k x : String) :
    x ∈ mapKeys (mapDelete m k) ↔ x ≠ k ∧ x ∈ mapKeys m := by
  rw [mem_mapKeys_iff, mem_mapKeys_iff, mapGet_mapDelete]
  by_cases h : x = k
  · simp [h]
  · simp [h]

/-- C21: for every state of the caches and every key, processing `Delete` for the
key twice leaves the manager as processing it once does; when the key is in
neither cache, processing `Delete` leaves the manager as it was; and processing
`UpdateStatus` for the key after `Delete` leaves the manager as it was and sends
no object to the cluster API, whatever the cluster answers. -/
theorem handleDelete_idempotent_then_UpdateStatus_noop (managerNamespace : String)
    (m : StatusManager) (statusKey : String) (r : ClusterReads) :
    handleDelete (handleDelete m statusKey) statusKey = handleDelete m statusKey
      ∧ (statusKey ∉ mapKeys m.PolicyStatuses → statusKey ∉ mapKeys m.ModelingStatuses →
          handleDelete m statusKey = m)
      ∧ handleUpdateStatus managerNamespace (handleDelete m statusKey) statusKey r
          = (handleDelete m statusKey, []) := by
  refine ⟨?_, ?_, ?_⟩
  · simp only [handleDelete, mapDelete_mapDelete]
  · intro h₁ h₂
    simp only [handleDelete, mapDelete_of_not_mem _ _ h₁, mapDelete_of_not_mem _ _ h₂]
  · have h : mapGet (handleDelete m statusKey).PolicyStatuses statusKey = none := by
      simp [handleDelete, mapGet_mapDelete]
    unfold handleUpdateStatus
    rw [h]

/-- C21, at a concrete input: `Delete` for the key `default/demo` of `demoManager`
empties both caches, a second `Delete` and a following `UpdateStatus` change
nothing. -/
theorem handleDelete_idempotent_then_UpdateStatus_noop_witness :
    handleDelete demoManager "default/demo" = { demoManager with PolicyStatuses := [], ModelingStatuses := [] }
      ∧ handleDelete (handleDelete demoManager "default/demo") "default/demo"
          = handleDelete demoManager "default/demo"
      ∧ handleUpdateStatus "varmor" (handleDelete demoManager "default/demo") "default/demo"
          demoReads = (handleDelete demoManager "default/demo", []) :=
  ⟨by decide,
   (handleDelete_idempotent_then_UpdateStatus_noop "varmor" demoManager "default/demo" demoReads).1,
   (handleDelete_idempotent_then_UpdateStatus_noop "varmor" demoManager "default/demo" demoReads).2.2⟩

/-! ## Properties of the cache of the policies -/

/-- C22: on an update event for a policy whose key is cached with enforcer `e` (a
cluster policy `vcp`, a namespaced policy `vp`), when the new enforcers fail the
check (`new & old ≠ old` and `new | BPF ≠ old`) the cacher is left as it was:
target, enforcer and mode of the row are unchanged. Otherwise the cached enforcer
and mode of the key become those of the new policy, the map of the targets is
unchanged, the rows of the other keys keep their enforcer and mode, and the maps
of the other scope are unchanged. -/
theorem update_of_cached_policy (t : EnforcerTypes) (c : PolicyCacher)
    (vcp : VarmorClusterPolicy) (vp : VarmorPolicy) :
    (∀ e, mapGet c.ClusterPolicyEnforcer (MetaNamespaceKeyFunc "" vcp.Name) = some e →
      (removesActivatedEnforcer t.BPF (t.GetEnforcerType vcp.Spec.Policy.Enforcer)
          (t.GetEnforcerType e) = true →
        updateVarmorClusterPolicy t c vcp = c)
      ∧ (removesActivatedEnforcer t.BPF (t.GetEnforcerType vcp.Spec.Policy.Enforcer)
          (t.GetEnforcerType e) = false →
        (updateVarmorClusterPolicy t c vcp).ClusterPolicyTargets = c.ClusterPolicyTargets
        ∧ (∀ key, mapGet (updateVarmorClusterPolicy t c vcp).ClusterPolicyEnforcer key
            = if MetaNamespaceKeyFunc "" vcp.Name = key then some vcp.Spec.Policy.Enforcer
              else mapGet c.ClusterPolicyEnforcer key)
        ∧ (∀ key, mapGet (updateVarmorClusterPolicy t c vcp).ClusterPolicyMode key
            = if MetaNamespaceKeyFunc "" vcp.Name = key then some vcp.Spec.Policy.Mode
              else mapGet c.ClusterPolicyMode key)
        ∧ (updateVarmorClusterPolicy t c vcp).PolicyTargets = c.PolicyTargets
        ∧ (updateVarmorClusterPolicy t c vcp).PolicyEnforcer = c.PolicyEnforcer
        ∧ (updateVarmorClusterPolicy t c vcp).PolicyMode = c.PolicyMode))
    ∧ (∀ e, mapGet c.PolicyEnforcer (MetaNamespaceKeyFunc vp.Namespace vp.Name) = some e →
      (removesActivatedEnforcer t.BPF (t.GetEnforcerType vp.Spec.Policy.Enforcer)
          (t.GetEnforcerType e) = true →
        updateVarmorPolicy t c vp = c)
      ∧ (removesActivatedEnforcer t.BPF (t.GetEnforcerType vp.Spec.Policy.Enforcer)
          (t.GetEnforcerType e) = false →
        (updateVarmorPolicy t c vp).PolicyTargets = c.PolicyTargets
        ∧ (∀ key, mapGet (updateVarmorPolicy t c vp).PolicyEnforcer key
            = if MetaNamespaceKeyFunc vp.Namespace vp.Name = key then some vp.Spec.Policy.Enforcer
              else mapGet c.PolicyEnforcer key)
        ∧ (∀ key, mapGet (updateVarmorPolicy t c vp).PolicyMode key
            = if MetaNamespaceKeyFunc vp.Namespace vp.Name = key then some vp.Spec.Policy.Mode
              else mapGet c.PolicyMode key)
        ∧ (updateVarmorPolicy t c vp).ClusterPolicyTargets = c.ClusterPolicyTargets
        ∧ (updateVarmorPolicy t c vp).ClusterPolicyEnforcer = c.ClusterPolicyEnforcer
        ∧ (updateVarmorPolicy t c vp).ClusterPolicyMode = c.ClusterPolicyMode)) := by
  refine ⟨fun e h => ⟨?_, ?_⟩, fun e h' => ⟨?_, ?_⟩⟩
  · intro hr
    unfold removesActivatedEnforcer at hr
    simp only [updateVarmorClusterPolicy, h, hr, if_true]
  · intro hr
    unfold removesActivatedEnforcer at hr
    simp [updateVarmorClusterPolicy, h, hr, mapGet_mapSet]
  · intro hr
    unfold removesActivatedEnforcer at hr
    simp only [updateVarmorPolicy, h', hr, if_true]
  · intro hr
    unfold removesActivatedEnforcer at hr
    simp [updateVarmorPolicy, h', hr, mapGet_mapSet]

/-- C22, at a concrete input: in a cacher that holds the cluster policy `demo` and
the policy `default/demo`, both with the enforcer AppArmorBPF in mode
EnhanceProtect, an update to the enforcer BPF is refused for both, and an update
to the enforcer AppArmor in mode RuntimeDefault is taken, the targets staying as
they were. -/
theorem update_of_cached_policy_witness :
    (updateVarmorClusterPolicy specEnforcerTypes demoCacher (webPolicy "BPF" RuntimeDefaultMode "")
        = demoCacher
      ∧ updateVarmorPolicy specEnforcerTypes demoCacher
          (demoNamespacedPolicy "BPF" RuntimeDefaultMode) = demoCacher)
    ∧ ((updateVarmorClusterPolicy specEnforcerTypes demoCacher
          (webPolicy "AppArmor" RuntimeDefaultMode "")).ClusterPolicyTargets
        = demoCacher.ClusterPolicyTargets
      ∧ (updateVarmorPolicy specEnforcerTypes demoCacher
          (demoNamespacedPolicy "AppArmor" RuntimeDefaultMode)).PolicyTargets
        = demoCacher.PolicyTargets) :=
  ⟨⟨((update_of_cached_policy specEnforcerTypes demoCacher (webPolicy "BPF" RuntimeDefaultMode "")
        (demoNamespacedPolicy "BPF" RuntimeDefaultMode)).1 "AppArmorBPF" (by decide)).1
      (by decide),
    ((update_of_cached_policy specEnforcerTypes demoCacher (webPolicy "BPF" RuntimeDefaultMode "")
        (demoNamespacedPolicy "BPF" RuntimeDefaultMode)).2 "AppArmorBPF" (by decide)).1
      (by decide)⟩,
   ⟨(((update_of_cached_policy specEnforcerTypes demoCacher
        (webPolicy "AppArmor" RuntimeDefaultMode "")
        (demoNamespacedPolicy "AppArmor" RuntimeDefaultMode)).1 "AppArmorBPF" (by decide)).2
      (by decide)).1,
    (((update_of_cached_policy specEnforcerTypes demoCacher
        (webPolicy "AppArmor" RuntimeDefaultMode "")
        (demoNamespacedPolicy "AppArmor" RuntimeDefaultMode)).2 "AppArmorBPF" (by decide)).2
      (by decide)).1⟩⟩

theorem rowsComplete_handleCacherEvent (t : EnforcerTypes) (c : PolicyCacher)
    (event : CacherEvent) (hc : rowsComplete c)
    (hu : updatesOfCachedPolicies t c [event] = true) :
    rowsComplete (handleCacherEvent t c event) := by
  intro key
  have hk := hc key
  cases event with
  | addCluster vcp =>
    simp only [handleCacherEvent, addVarmorClusterPolicy, mem_mapKeys_mapSet]
    tauto
  | deleteCluster vcp =>
    simp only [handleCacherEvent, deleteVarmorClusterPolicy, mem_mapKeys_mapDelete]
    tauto
  | addPolicy vp =>
    simp only [handleCacherEvent, addVarmorPolicy, mem_mapKeys_mapSet]
    tauto
  | deletePolicy vp =>
    simp only [handleCacherEvent, deleteVarmorPolicy, mem_mapKeys_mapDelete]
    tauto
  | updateCluster vcp =>
    have hcached : MetaNamespaceKeyFunc "" vcp.Name ∈ mapKeys c.ClusterPolicyTargets := by
      rw [mem_mapKeys_iff]
      intro hn
      simp [updatesOfCachedPolicies, hn] at hu
    have hk' := hc (MetaNamespaceKeyFunc "" vcp.Name)
    simp only [handleCacherEvent, updateVarmorClusterPolicy]
    split_ifs with hr
    · exact hk
    · simp only [mem_mapKeys_mapSet]
      generalize MetaNamespaceKeyFunc "" vcp.Name = k at hcached hk' ⊢
      obtain ⟨⟨h₁, h₂⟩, h₃⟩ := hk
      obtain ⟨⟨h₁', h₂'⟩, -⟩ := hk'
      refine ⟨⟨⟨fun hx => Or.inr (h₁.1 hx), fun hx => ?_⟩, ⟨fun hx => ?_, fun hx => ?_⟩⟩, h₃⟩
      · rcases hx with hx | hx
        · exact hx ▸ hcached
        · exact h₁.2 hx
      · rcases hx with hx | hx
        · exact Or.inl hx
        · exact Or.inr (h₂.1 hx)
      · rcases hx with hx | hx
        · exact Or.inl hx
        · exact Or.inr (h₂.2 hx)
  | updatePolicy vp =>
    have hcached : MetaNamespaceKeyFunc vp.Namespace vp.Name ∈ mapKeys c.PolicyTargets := by
      rw [mem_mapKeys_iff]
      intro hn
      simp [updatesOfCachedPolicies, hn] at hu
    have hk' := hc (MetaNamespaceKeyFunc vp.Namespace vp.Name)
    simp only [handleCacherEvent, updateVarmorPolicy]
    split_ifs with hr
    · exact hk
    · simp only [mem_mapKeys_mapSet]
      generalize MetaNamespaceKeyFunc vp.Namespace vp.Name = k at hcached hk' ⊢
      obtain ⟨h₃, ⟨h₁, h₂⟩⟩ := hk
      obtain ⟨-, ⟨h₁', h₂'⟩⟩ := hk'
      refine ⟨h₃, ⟨⟨fun hx => Or.inr (h₁.1 hx), fun hx => ?_⟩, ⟨fun hx => ?_, fun hx => ?_⟩⟩⟩
      · rcases hx with hx | hx
        · exact hx ▸ hcached
        · exact h₁.2 hx
      · rcases hx with hx | hx
        · exact Or.inl hx
        · exact Or.inr (h₂.1 hx)
      · rcases hx with hx | hx
        · exact Or.inl hx
        · exact Or.inr (h₂.2 hx)

/-- C30, counterexample: after the single event of an update of the cluster policy
`demo`, handled by a cacher with empty maps, the key `demo` has an enforcer and a
mode and no target: the rows of the cacher are not complete. -/
theorem update_of_uncached_policy_has_no_target :
    handleCacherEvents specEnforcerTypes NewPolicyCacher
        [.updateCluster (webPolicy "AppArmor" EnhanceProtectMode "")]
      = { NewPolicyCacher with
          ClusterPolicyEnforcer := [("demo", "AppArmor")]
          ClusterPolicyMode := [("demo", EnhanceProtectMode)] }
    ∧ ¬ rowsComplete (handleCacherEvents specEnforcerTypes NewPolicyCacher
        [.updateCluster (webPolicy "AppArmor" EnhanceProtectMode "")]) :=
  ⟨by decide, fun h => absurd ((h "demo").1.1.2 (by decide)) (by decide)⟩

/-- C30, amended: after any sequence of add, update and delete events in which
every update event concerns a policy whose target is cached when the event is
handled, handled by a cacher whose rows are complete (as those of a new cacher
are), the target, enforcer and mode maps have the same keys for each scope. -/
theorem handleCacherEvents_rowsComplete (t : EnforcerTypes) (c : PolicyCacher)
    (events : List CacherEvent) (hc : rowsComplete c)
    (hu : updatesOfCachedPolicies t c events = true) :
    rowsComplete (handleCacherEvents t c events) := by
  induction events generalizing c with
  | nil => exact hc
  | cons event events ih =>
    have hu' : updatesOfCachedPolicies t c [event] = true
        ∧ updatesOfCachedPolicies t (handleCacherEvent t c event) events = true := by
      simp only [updatesOfCachedPolicies, Bool.and_true, Bool.and_eq_true] at hu ⊢
      exact hu
    exact ih (handleCacherEvent t c event) (rowsComplete_handleCacherEvent t c event hc hu'.1)
      hu'.2

/-- C30, amended, at a concrete input: a new cacher that handles the add of the
cluster policy `demo`, its update to mode RuntimeDefault, the add of the policy
`default/demo` and the deletion of the cluster policy has complete rows. -/
theorem handleCacherEvents_rowsComplete_witness :
    rowsComplete (handleCacherEvents specEnforcerTypes NewPolicyCacher
      [.addCluster (webPolicy "AppArmor" EnhanceProtectMode ""),
       .updateCluster (webPolicy "AppArmor" RuntimeDefaultMode ""),
       .addPolicy (demoNamespacedPolicy "BPF" EnhanceProtectMode),
       .deleteCluster (webPolicy "AppArmor" RuntimeDefaultMode "")]) :=
  handleCacherEvents_rowsComplete specEnforcerTypes NewPolicyCacher _
    (fun _ => ⟨⟨Iff.rfl, Iff.rfl⟩, ⟨Iff.rfl, Iff.rfl⟩⟩) (by decide)

/-! ## Properties of the cache of the egress information -/

/-- C24, counterexample: when the generation of the profile returns no egress
information, the third step of the update handler leaves the egress cache as it
was: the entry that the previous spec of the policy `demo` left is still there. -/
theorem updateEgressCache_keeps_entry_without_egressInfo :
    updateEgressCache [("demo", demoEgressInfo)] "demo" none = [("demo", demoEgressInfo)]
      ∧ mapGet (updateEgressCache [("demo", demoEgressInfo)] "demo" none) "demo"
          = some demoEgressInfo := by
  decide

/-- C24, amended: after an accepted update of a policy for which the generation of
the profile returned egress information, the egress cache holds an entry for the
key of the policy if and only if `toPods` or `toServices` of that information is
not empty, and the entry is that information: the entry of the previous spec is
removed first. When no egress information is returned the cache is left as it
was. The entries of the other keys are unchanged in both cases. -/
theorem updateEgressCache_entry {P S : Type} (egressCache : List (String × EgressInfo P S))
    (statusKey : String) (egressInfo : Option (EgressInfo P S)) :
    (∀ info, egressInfo = some info →
        mapGet (updateEgressCache egressCache statusKey egressInfo) statusKey
          = if info.ToPods.length > 0 ∨ info.ToServices.length > 0 then some info else none)
      ∧ (egressInfo = none → updateEgressCache egressCache statusKey egressInfo = egressCache)
      ∧ (∀ key, key ≠ statusKey →
          mapGet (updateEgressCache egressCache statusKey egressInfo) key
            = mapGet egressCache key) := by
  refine ⟨?_, ?_, ?_⟩
  · intro info hinfo
    subst hinfo
    by_cases h' : info.ToPods.length > 0 ∨ info.ToServices.length > 0
    · simp only [updateEgressCache, if_pos h', mapGet_mapSet, if_true]
    · simp only [updateEgressCache, if_neg h', mapGet_mapDelete, if_true]
  · intro hnone
    subst hnone
    rfl
  · intro key hkey
    have hkey' : ¬ statusKey = key := fun hc => hkey hc.symm
    cases egressInfo with
    | none => rfl
    | some info =>
      by_cases h' : info.ToPods.length > 0 ∨ info.ToServices.length > 0
      · simp only [updateEgressCache, if_pos h', mapGet_mapSet, if_neg hkey', mapGet_mapDelete,
          if_neg hkey]
      · simp only [updateEgressCache, if_neg h', mapGet_mapDelete, if_neg hkey]

/-- C24, amended, at concrete inputs: with the entry of the previous spec of the
policy `demo` in the cache, an update whose egress information names a pod
replaces the entry, and an update whose egress information is empty removes it. -/
theorem updateEgressCache_entry_witness :
    mapGet (updateEgressCache [("demo", demoEgressInfo)] "demo"
        (some { ToPods := ["app=db"], ToServices := [] })) "demo"
      = some { ToPods := ["app=db"], ToServices := [] }
    ∧ mapGet (updateEgressCache [("demo", demoEgressInfo)] "demo"
        (some { ToPods := [], ToServices := [] })) "demo" = none :=
  ⟨(updateEgressCache_entry [("demo", demoEgressInfo)] "demo"
      (some { ToPods := ["app=db"], ToServices := [] })).1 _ rfl,
   (updateEgressCache_entry [("demo", demoEgressInfo)] "demo"
      (some { ToPods := [], ToServices := [] })).1 _ rfl⟩

/-! ## Properties of the target processes of a trace -/

theorem gatherTargetPID_targetMnts (fork exec : Nat) (p : DataPreprocessor)
    (event : BpfTraceEvent) : (gatherTargetPID fork exec p event).targetMnts = p.targetMnts := by
  unfold gatherTargetPID addTargetPID
  split_ifs <;> rfl

theorem gatherTargetPID_mono (fork exec : Nat) (p : DataPreprocessor) (event : BpfTraceEvent)
    (x : Nat) (hx : x ∈ p.targetPIDs) : x ∈ (gatherTargetPID fork exec p event).targetPIDs := by
  unfold gatherTargetPID addTargetPID
  split_ifs <;> simp [hx]

theorem gatherTargetPID_mem (fork exec : Nat) (p : DataPreprocessor) (event : BpfTraceEvent)
    (x : Nat) (hx : x ∈ (gatherTargetPID fork exec p event).targetPIDs) :
    x ∈ p.targetPIDs ∨ x = event.ChildTgid := by
  unfold gatherTargetPID addTargetPID at hx
  split_ifs at hx <;> first | exact Or.inl hx | (simp at hx; tauto)

theorem gather_fold_targetMnts (fork exec : Nat) (events : List BpfTraceEvent) :
    ∀ p : DataPreprocessor,
      (events.foldl (gatherTargetPID fork exec) p).targetMnts = p.targetMnts := by
  induction events with
  | nil => intro p; rfl
  | cons event events ih =>
    intro p
    rw [List.foldl_cons, ih, gatherTargetPID_targetMnts]

theorem gather_fold_mono (fork exec : Nat) (events : List BpfTraceEvent) :
    ∀ (p : DataPreprocessor) (x : Nat), x ∈ p.targetPIDs →
      x ∈ (events.foldl (gatherTargetPID fork exec) p).targetPIDs := by
  induction events with
  | nil => intro p x hx; exact hx
  | cons event events ih =>
    intro p x hx
    rw [List.foldl_cons]
    exact ih _ x (gatherTargetPID_mono fork exec p event x hx)

theorem gather_fold_mem (fork exec : Nat) (events : List BpfTraceEvent) :
    ∀ (p : DataPreprocessor) (x : Nat),
      x ∈ (events.foldl (gatherTargetPID fork exec) p).targetPIDs →
      x ∈ p.targetPIDs ∨ ∃ event ∈ events, event.ChildTgid = x := by
  induction events with
  | nil => intro p x hx; exact Or.inl hx
  | cons event events ih =>
    intro p x hx
    rw [List.foldl_cons] at hx
    rcases ih _ x hx with h | ⟨e, he, hc⟩
    · rcases gatherTargetPID_mem fork exec p event x h with h | h
      · exact Or.inl h
      · exact Or.inr ⟨event, List.mem_cons_self _ _, h.symm⟩
    · exact Or.inr ⟨e, List.mem_cons_of_mem _ he, hc⟩

/-- An event on which the body of the loop adds nothing to `q`, a state with the
mount namespaces of `p` that holds the processes of `p` after the event, when the
parent of the event, if it is in `q`, is in `p`. -/
theorem gatherTargetPID_eq_self (fork exec : Nat) (p q : DataPreprocessor)
    (event : BpfTraceEvent) (hm : q.targetMnts = p.targetMnts)
    (hsub : ∀ x ∈ (gatherTargetPID fork exec p event).targetPIDs, x ∈ q.targetPIDs)
    (hpar : event.ParentTgid ≠ event.ChildTgid → event.ParentTgid ∈ q.targetPIDs →
      event.ParentTgid ∈ p.targetPIDs) :
    gatherTargetPID fork exec q event = q := by
  by_cases hc : event.ChildTgid ∈ q.targetPIDs
  · unfold gatherTargetPID addTargetPID containTargetPID
    simp [hc]
  · have hstep : event.ChildTgid ∉ (gatherTargetPID fork exec p event).targetPIDs :=
      fun h => hc (hsub _ h)
    have hp : event.ChildTgid ∉ p.targetPIDs :=
      fun h => hstep (gatherTargetPID_mono fork exec p event _ h)
    by_cases ht : event.EventType = fork ∨ event.EventType = exec
    · by_cases h₁ : event.ParentTgid ≠ event.ChildTgid ∧ event.ParentTgid ∈ q.targetPIDs
      · exfalso
        apply hstep
        have hpp := hpar h₁.1 h₁.2
        unfold gatherTargetPID addTargetPID containTargetPID
        simp [ht, h₁.1, hpp, hp]
      · by_cases h₂ : event.MntNsId ∈ q.targetMnts
        · exfalso
          apply hstep
          have h₂' : event.MntNsId ∈ p.targetMnts := hm ▸ h₂
          unfold gatherTargetPID addTargetPID containTargetPID containTargetMnt
          by_cases h₃ : event.ParentTgid ≠ event.ChildTgid ∧ event.ParentTgid ∈ p.targetPIDs
          · simp [ht, h₃.1, h₃.2, hp]
          · have h₃' : ¬ (event.ParentTgid ≠ event.ChildTgid ∧
                decide (event.ParentTgid ∈ p.targetPIDs) = true ∧
                ¬ decide (event.ChildTgid ∈ p.targetPIDs) = true) := by
              intro hcon
              exact h₃ ⟨hcon.1, by simpa using hcon.2.1⟩
            simp only [ht, if_true, if_neg h₃']
            simp [h₂', hp]
        · unfold gatherTargetPID containTargetPID containTargetMnt
          have h₁' : ¬ (event.ParentTgid ≠ event.ChildTgid ∧
              decide (event.ParentTgid ∈ q.targetPIDs) = true ∧
              ¬ decide (event.ChildTgid ∈ q.targetPIDs) = true) := by
            intro hcon
            exact h₁ ⟨hcon.1, by simpa using hcon.2.1⟩
          have h₂' : ¬ (decide (event.MntNsId ∈ q.targetMnts) = true ∧
              ¬ decide (event.ChildTgid ∈ q.targetPIDs) = true) := by
            intro hcon
            exact h₂ (by simpa using hcon.1)
          simp only [ht, if_true, if_neg h₁', if_neg h₂']
    · unfold gatherTargetPID
      simp only [if_neg ht]

theorem gather_fold_fixed_point (fork exec : Nat) (events : List BpfTraceEvent)
    (hb : happensBeforeOrder events) :
    ∀ p : DataPreprocessor,
      events.foldl (gatherTargetPID fork exec)
          (events.foldl (gatherTargetPID fork exec) p)
        = events.foldl (gatherTargetPID fork exec) p := by
  induction events with
  | nil => intro p; rfl
  | cons event events ih =>
    intro p
    unfold happensBeforeOrder at hb
    rw [List.pairwise_cons] at hb
    have hrest := ih hb.2 (gatherTargetPID fork exec p event)
    rw [List.foldl_cons]
    have hself : gatherTargetPID fork exec
        (events.foldl (gatherTargetPID fork exec) (gatherTargetPID fork exec p event)) event
        = events.foldl (gatherTargetPID fork exec) (gatherTargetPID fork exec p event) := by
      apply gatherTargetPID_eq_self fork exec p
      · rw [gather_fold_targetMnts, gatherTargetPID_targetMnts]
      · intro x hx
        exact gather_fold_mono fork exec events _ x hx
      · intro hne hpar
        rcases gather_fold_mem fork exec events _ _ hpar with h | ⟨e, he, hc⟩
        · rcases gatherTargetPID_mem fork exec p event _ h with h | h
          · exact h
          · exact absurd h hne
        · exact absurd hc (hb.1 e he)
    rw [List.foldl_cons, hself]
    exact hrest

/-- C23: when the trace is in happens-before order (no event whose child is a
process comes after an event whose parent is that process), the set of target
processes that one pass of `gatherTargetPIDs` computes is a fixed point: a second
pass over the same trace, from the state that the first pass left, adds no
process and leaves the state as it was. -/
theorem gatherTargetPIDs_fixed_point (SchedProcessFork SchedProcessExec : Nat)
    (p : DataPreprocessor) (events : List BpfTraceEvent) (hb : happensBeforeOrder events) :
    gatherTargetPIDs SchedProcessFork SchedProcessExec
        (gatherTargetPIDs SchedProcessFork SchedProcessExec p (.ok events)) (.ok events)
      = gatherTargetPIDs SchedProcessFork SchedProcessExec p (.ok events) := by
  unfold gatherTargetPIDs
  exact gather_fold_fixed_point SchedProcessFork SchedProcessExec events hb p

/-- C23, at a concrete input: in the trace `demoTrace`, which is in happens-before
order, the first pass from the target process 100 and the mount namespace 7 finds
the processes 101, 102 and 200, and the second pass adds none. -/
theorem gatherTargetPIDs_fixed_point_witness :
    happensBeforeOrder demoTrace
      ∧ gatherTargetPIDs 1 2 demoPreprocessor (.ok demoTrace)
          = { targetPIDs := [100, 101, 102, 200], targetMnts := [7] }
      ∧ gatherTargetPIDs 1 2 (gatherTargetPIDs 1 2 demoPreprocessor (.ok demoTrace))
          (.ok demoTrace) = gatherTargetPIDs 1 2 demoPreprocessor (.ok demoTrace) :=
  ⟨by decide, by decide,
   gatherTargetPIDs_fixed_point 1 2 demoPreprocessor demoTrace (by decide)⟩

/-- Without the happens-before order one pass is not a fixed point: in the reverse
of `demoTrace` the fork of 102 by 101 comes before the fork of 101 by 100, so the
first pass misses 102 and the second pass adds it. -/
theorem gatherTargetPIDs_second_pass_adds_without_order :
    ¬ happensBeforeOrder demoTrace.reverse
      ∧ gatherTargetPIDs 1 2 demoPreprocessor (.ok demoTrace.reverse)
          = { targetPIDs := [100, 200, 101], targetMnts := [7] }
      ∧ gatherTargetPIDs 1 2 (gatherTargetPIDs 1 2 demoPreprocessor (.ok demoTrace.reverse))
          (.ok demoTrace.reverse) = { targetPIDs := [100, 200, 101, 102], targetMnts := [7] } := by
  decide

/-! ## Properties of the change of mode after the modeling -/

/-- Whenever the handler of `UpdateMode` gets the policy and its ArmorProfile from
the cluster and `GenerateProfile` returns an error, the handler goes on to the
dereference of the nil profile. -/
theorem handleUpdateMode_of_GenerateProfile_error (g : Generators) (managerNamespace : String)
    (m : StatusManager) (statusKey : String) (r : ClusterReads) (ns vpName err : String)
    (vp : VarmorPolicy) (ap : ArmorProfile)
    (hk : SplitMetaNamespaceKey statusKey = .ok (ns, vpName))
    (hvp : r.varmorPolicy ns vpName = .ok vp)
    (hap : r.armorProfile ns (GenerateArmorProfileName managerNamespace ns vpName false) = .ok ap)
    (herr : GenerateProfile g vp.Spec.Policy ap.Name ap.Namespace true = .error err) :
    ∃ m', handleUpdateMode g managerNamespace m statusKey r = .nilDereference m' := by
  unfold handleUpdateMode
  simp only [hk, hvp, hap, herr]
  exact ⟨_, rfl⟩

/-- C27, the code at the failing input: for the policy `default/demo`, in mode
BehaviorModeling with the BPF enforcer, `GenerateProfile` returns an error and no
profile, and the handler of `UpdateMode`, after the reset of the counters of the
policy, reaches the dereference of the nil profile: it does not end with the
ArmorProfile left unchanged. -/
theorem handleUpdateMode_dereferences_nil_profile :
    GenerateProfile demoGenerators (demoNamespacedPolicy "BPF" BehaviorModelingMode).Spec.Policy
        demoArmorProfile.Name demoArmorProfile.Namespace true
      = .error "not supported by the BPF enforcer"
    ∧ handleUpdateMode demoGenerators "varmor" demoManager "default/demo" demoReads
      = .nilDereference
          { demoManager with
            PolicyStatuses :=
              [("default/demo", { SuccessedNumber := 0, FailedNumber := 0, NodeMessages := [] })] } :=
  ⟨rfl, by decide⟩

/-! ## Properties of the merge of a file entry -/

theorem mergeFile_of_match (before : List File) (file : File) (after : List File)
    (newFile : File)
    (hb : ∀ f ∈ before, ¬ (f.Path = newFile.Path ∧ f.Owner = newFile.Owner))
    (hp : file.Path = newFile.Path) (ho : file.Owner = newFile.Owner) :
    mergeFile (before ++ file :: after) newFile
      = before ++
          { file with
            Permissions :=
              file.Permissions ++ newFile.Permissions.filter (fun p => decide (p ∉ file.Permissions))
            OldPath :=
              if file.OldPath = "" ∧ newFile.OldPath ≠ "" then newFile.OldPath
              else file.OldPath } :: after := by
  induction before with
  | nil =>
    simp only [List.nil_append, mergeFile, hp, ho, and_self, if_true, mergePermissions_eq]
  | cons f before ih =>
    have hf : ¬ (newFile.Path = f.Path ∧ newFile.Owner = f.Owner) := fun h =>
      hb f (List.mem_cons_self _ _) ⟨h.1.symm, h.2.symm⟩
    simp only [List.cons_append, mergeFile, if_neg hf]
    exact congrArg (fun l => f :: l) (ih (fun g hg => hb g (List.mem_cons_of_mem _ hg)))

theorem mergeFile_of_no_match (files : List File) (newFile : File)
    (hb : ∀ f ∈ files, ¬ (f.Path = newFile.Path ∧ f.Owner = newFile.Owner)) :
    mergeFile files newFile = files ++ [newFile] := by
  induction files with
  | nil => rfl
  | cons f files ih =>
    have hf : ¬ (newFile.Path = f.Path ∧ newFile.Owner = f.Owner) := fun h =>
      hb f (List.mem_cons_self _ _) ⟨h.1.symm, h.2.symm⟩
    simp only [List.cons_append, mergeFile, if_neg hf]
    exact congrArg (fun l => f :: l) (ih (fun g hg => hb g (List.mem_cons_of_mem _ hg)))

/-- C25: `MergeAppArmorResult` merges the file entries of the incoming shard one by
one into the accumulated entries, and for every accumulated list and incoming
entry: when `file` is the first accumulated entry with the path and owner of the
incoming one, the entry count is unchanged, the other entries are unchanged, the
permission list of `file` becomes its list followed by the incoming permissions
that were not in it, and its oldPath becomes the incoming one exactly when it was
empty and the incoming one is not; when no accumulated entry has the path and
owner of the incoming one, that entry is appended unchanged. -/
theorem MergeAppArmorResult_file_entry (apm : ArmorProfileModel) (appArmor : AppArmor) :
    (modelAppArmor (MergeAppArmorResult apm (some appArmor))).Files
        = appArmor.Files.foldl mergeFile (modelAppArmor apm).Files
    ∧ ∀ (files : List File) (newFile : File),
        (∀ (before : List File) (file : File) (after : List File),
            files = before ++ file :: after →
            (∀ f ∈ before, ¬ (f.Path = newFile.Path ∧ f.Owner = newFile.Owner)) →
            file.Path = newFile.Path → file.Owner = newFile.Owner →
            (mergeFile files newFile).length = files.length
            ∧ mergeFile files newFile
              = before ++
                  { Path := file.Path
                    Owner := file.Owner
                    Permissions :=
                      file.Permissions
                        ++ newFile.Permissions.filter (fun p => decide (p ∉ file.Permissions))
                    OldPath :=
                      if file.OldPath = "" ∧ newFile.OldPath ≠ "" then newFile.OldPath
                      else file.OldPath } :: after)
        ∧ ((∀ f ∈ files, ¬ (f.Path = newFile.Path ∧ f.Owner = newFile.Owner)) →
            mergeFile files newFile = files ++ [newFile]) := by
  refine ⟨rfl, fun files newFile => ⟨?_, mergeFile_of_no_match files newFile⟩⟩
  intro before file after hfiles hb hp ho
  subst hfiles
  have h := mergeFile_of_match before file after newFile hb hp ho
  refine ⟨?_, h⟩
  rw [h]
  simp

/-- C25, at concrete inputs: the report of `/etc/hosts` written, merged into a model
that holds `/etc/passwd` and `/etc/hosts` read, extends the permissions of the
second entry and adopts the old path; the report of the same path with the owner
bit set is appended as a third entry. -/
theorem MergeAppArmorResult_file_entry_witness :
    mergeFile [passwdFile, hostsRead]
        { Path := "/etc/hosts", Owner := false, OldPath := "/etc/hosts.old",
          Permissions := ["w", "r"] }
      = [passwdFile,
         { Path := "/etc/hosts", Owner := false, OldPath := "/etc/hosts.old",
           Permissions := ["r", "w"] }]
    ∧ mergeFile [passwdFile, hostsRead]
        { Path := "/etc/hosts", Owner := true, OldPath := "", Permissions := ["w"] }
      = [passwdFile, hostsRead,
         { Path := "/etc/hosts", Owner := true, OldPath := "", Permissions := ["w"] }] :=
  ⟨((((MergeAppArmorResult_file_entry emptyModel emptyAppArmor).2 [passwdFile, hostsRead]
        { Path := "/etc/hosts", Owner := false, OldPath := "/etc/hosts.old",
          Permissions := ["w", "r"] }).1 [passwdFile] hostsRead [] rfl
      (by decide) rfl rfl).2).trans (by decide),
   (((MergeAppArmorResult_file_entry emptyModel emptyAppArmor).2 [passwdFile, hostsRead]
        { Path := "/etc/hosts", Owner := true, OldPath := "", Permissions := ["w"] }).2
      (by decide)).trans (by decide)⟩

/-! ## Properties of the FILE rules of the synthesized profile -/

theorem sortStrings_sorted (l : List String) :
    (sortStrings l).Pairwise (fun a b => strLe a b = true) := by
  haveI : IsTotal String (fun a b => strLe a b = true) := ⟨strLe_total⟩
  haveI : IsTrans String (fun a b => strLe a b = true) := ⟨strLe_trans⟩
  exact List.sorted_insertionSort _ l

/-- C26: the FILE section that `buildFileRules` emits is its header followed by the
rules of the file entries of the model, one rule for each entry, in sorted order;
and the rule of an entry is the indentation, `owner ` exactly when the owner bit
of the entry is set, the path, a blank, and the concatenation of a list of
permissions that is sorted and holds the permissions of the entry, without the
occurrences of `a` exactly when the entry holds both `a` and `w`. -/
theorem buildFileRules_rules (appArmor : AppArmor) :
    (∃ rules : List String,
        buildFileRules appArmor = "\n  # ---- FILE ----\n" ++ Join rules ""
        ∧ rules.Pairwise (fun a b => strLe a b = true)
        ∧ rules.Perm (appArmor.Files.map fileRule))
    ∧ ∀ file : File, ∃ perms : List String,
        fileRule file
          = (if file.Owner then "  owner " else "  ") ++ file.Path ++ " " ++ Join perms "" ++ ",\n"
        ∧ perms.Pairwise (fun a b => strLe a b = true)
        ∧ perms.Perm
            (if "a" ∈ file.Permissions ∧ "w" ∈ file.Permissions then
              file.Permissions.filter (fun p => decide (p ≠ "a"))
            else file.Permissions) := by
  refine ⟨⟨sortStrings (appArmor.Files.map fileRule), rfl, sortStrings_sorted _,
    sortBy_perm strLe _⟩, fun file => ⟨filePermissions file, ?_, sortStrings_sorted _, ?_⟩⟩
  · unfold fileRule
    by_cases h : file.Owner = true
    · simp only [h, if_true]
    · simp only [h, Bool.false_eq_true, if_false]
  · unfold filePermissions
    by_cases h : "a" ∈ file.Permissions ∧ "w" ∈ file.Permissions
    · have h' : (InStringArray "a" file.Permissions && InStringArray "w" file.Permissions) = true := by
        rw [Bool.and_eq_true, InStringArray_iff, InStringArray_iff]
        exact h
      simp only [h', if_true, if_pos h]
      have hf : (fun p : String => p != "a") = (fun p : String => decide (p ≠ "a")) := by
        funext p
        by_cases hp : p = "a" <;> simp [hp]
      rw [hf]
      exact sortBy_perm strLe _
    · have h' : ¬ (InStringArray "a" file.Permissions && InStringArray "w" file.Permissions) = true := by
        rw [Bool.and_eq_true, InStringArray_iff, InStringArray_iff]
        exact h
      simp only [h', if_false, if_neg h]
      exact sortBy_perm strLe _

/-- C26, at a concrete input: for a model with the entries `/etc/passwd` (read) and
`/var/log/app.log` (owner; `w`, `a`, `r`), the section is the header, the rule of
the second entry, with `owner` and the permissions `rw`, and the rule of the first
entry. -/
theorem buildFileRules_rules_witness :
    buildFileRules
        { emptyAppArmor with
          Files := [passwdFile,
                    { Path := "/var/log/app.log", Owner := true, OldPath := "",
                      Permissions := ["w", "a", "r"] }] }
      = "\n  # ---- FILE ----\n  /etc/passwd r,\n  owner /var/log/app.log rw,\n"
    ∧ ∃ perms : List String,
        fileRule { Path := "/var/log/app.log", Owner := true, OldPath := "",
                   Permissions := ["w", "a", "r"] }
          = "  owner " ++ "/var/log/app.log" ++ " " ++ Join perms "" ++ ",\n"
        ∧ perms.Pairwise (fun a b => strLe a b = true)
        ∧ perms.Perm ["w", "r"] :=
  ⟨by decide,
   (buildFileRules_rules emptyAppArmor).2
     { Path := "/var/log/app.log", Owner := true, OldPath := "", Permissions := ["w", "a", "r"] }⟩

/-! ## Properties of a repeated merge -/

theorem mergeKeyed_again {α κ : Type} [DecidableEq κ] (key : α → κ) (upd : α → α → α)
    (hkey : ∀ x n, key (upd x n) = key x) (hself : ∀ n, upd n n = n)
    (hidem : ∀ x n, upd (upd x n) n = upd x n) (l : List α) (n : α) :
    mergeKeyed key upd (mergeKeyed key upd l n) n = mergeKeyed key upd l n := by
  induction l with
  | nil => simp [mergeKeyed, hself]
  | cons x xs ih =>
    by_cases h : key n = key x
    · simp [mergeKeyed, h, hkey, hidem]
    · simp [mergeKeyed, h, ih]

theorem mergeKeyed_absorbs_mono {α κ : Type} [DecidableEq κ] (key : α → κ) (upd : α → α → α)
    (hkey : ∀ x n, key (upd x n) = key x)
    (hmono : ∀ x n y, upd x n = x → upd (upd x y) n = upd x y) (l : List α) (n y : α)
    (h : mergeKeyed key upd l n = l) :
    mergeKeyed key upd (mergeKeyed key upd l y) n = mergeKeyed key upd l y := by
  induction l with
  | nil => simp [mergeKeyed] at h
  | cons x xs ih =>
    by_cases hn : key n = key x
    · have hx : upd x n = x := by simpa [mergeKeyed, hn] using h
      by_cases hy : key y = key x
      · simp [mergeKeyed, hy, hn, hkey, hmono x n y hx]
      · simp [mergeKeyed, hy, hn, hx]
    · have hxs : mergeKeyed key upd xs n = xs := by simpa [mergeKeyed, hn] using h
      by_cases hy : key y = key x
      · simp [mergeKeyed, hy, hn, hkey, hxs]
      · simp [mergeKeyed, hy, hn, ih hxs]

theorem foldl_mergeKeyed_absorbs_mono {α κ : Type} [DecidableEq κ] (key : α → κ)
    (upd : α → α → α) (hkey : ∀ x n, key (upd x n) = key x)
    (hmono : ∀ x n y, upd x n = x → upd (upd x y) n = upd x y) (n : α) :
    ∀ (s l : List α), mergeKeyed key upd l n = l →
      mergeKeyed key upd (s.foldl (mergeKeyed key upd) l) n = s.foldl (mergeKeyed key upd) l := by
  intro s
  induction s with
  | nil => intro l h; exact h
  | cons y s ih =>
    intro l h
    exact ih _ (mergeKeyed_absorbs_mono key upd hkey hmono l n y h)

theorem foldl_mergeKeyed_absorbs {α κ : Type} [DecidableEq κ] (key : α → κ)
    (upd : α → α → α) (hkey : ∀ x n, key (upd x n) = key x) (hself : ∀ n, upd n n = n)
    (hidem : ∀ x n, upd (upd x n) n = upd x n)
    (hmono : ∀ x n y, upd x n = x → upd (upd x y) n = upd x y) :
    ∀ (s l : List α), ∀ n ∈ s,
      mergeKeyed key upd (s.foldl (mergeKeyed key upd) l) n = s.foldl (mergeKeyed key upd) l := by
  intro s
  induction s with
  | nil => intro l n hn; simp at hn
  | cons y s ih =>
    intro l n hn
    rcases List.mem_cons.1 hn with hn | hn
    · subst hn
      exact foldl_mergeKeyed_absorbs_mono key upd hkey hmono n s _
        (mergeKeyed_again key upd hkey hself hidem l n)
    · exact ih _ n hn

theorem foldl_of_absorbed {α : Type} (f : List α → α → List α) :
    ∀ (s l : List α), (∀ n ∈ s, f l n = l) → s.foldl f l = l := by
  intro s
  induction s with
  | nil => intro l _; rfl
  | cons y s ih =>
    intro l h
    rw [List.foldl_cons, h y (List.mem_cons_self _ _)]
    exact ih l (fun n hn => h n (List.mem_cons_of_mem _ hn))

/-- A keyed merge of a sequence of entries, done twice, gives what it gives done
once. -/
theorem foldl_mergeKeyed_twice {α κ : Type} [DecidableEq κ] (key : α → κ)
    (upd : α → α → α) (hkey : ∀ x n, key (upd x n) = key x) (hself : ∀ n, upd n n = n)
    (hidem : ∀ x n, upd (upd x n) n = upd x n)
    (hmono : ∀ x n y, upd x n = x → upd (upd x y) n = upd x y) (s l : List α) :
    s.foldl (mergeKeyed key upd) (s.foldl (mergeKeyed key upd) l)
      = s.foldl (mergeKeyed key upd) l :=
  foldl_of_absorbed _ s _ (foldl_mergeKeyed_absorbs key upd hkey hself hidem hmono s l)

theorem mergePermissions_eq_self_iff (perms newPerms : List String) :
    mergePermissions perms newPerms = perms ↔ ∀ p ∈ newPerms, p ∈ perms := by
  rw [mergePermissions_eq]
  constructor
  · intro h p hp
    by_contra hn
    have hmem : p ∈ newPerms.filter (fun p => decide (p ∉ perms)) := by
      simp [List.mem_filter, hp, hn]
    have hnil : newPerms.filter (fun p => decide (p ∉ perms)) = [] := by
      simpa using h
    rw [hnil] at hmem
    simp at hmem
  · intro h
    have hnil : newPerms.filter (fun p => decide (p ∉ perms)) = [] := by
      rw [List.filter_eq_nil_iff]
      intro p hp
      simp [h p hp]
    rw [hnil, List.append_nil]

theorem mem_mergePermissions (perms newPerms : List String) (p : String) :
    p ∈ mergePermissions perms newPerms ↔ p ∈ perms ∨ p ∈ newPerms := by
  rw [mergePermissions_eq]
  by_cases h : p ∈ perms
  · simp [h]
  · simp [List.mem_filter, h]

theorem mergePermissions_self (perms : List String) : mergePermissions perms perms = perms :=
  (mergePermissions_eq_self_iff perms perms).2 (fun _ h => h)

theorem mergePermissions_again (perms newPerms : List String) :
    mergePermissions (mergePermissions perms newPerms) newPerms
      = mergePermissions perms newPerms :=
  (mergePermissions_eq_self_iff _ _).2
    (fun p hp => (mem_mergePermissions perms newPerms p).2 (Or.inr hp))

theorem mergePermissions_absorbs_mono (perms newPerms other : List String)
    (h : mergePermissions perms newPerms = perms) :
    mergePermissions (mergePermissions perms other) newPerms = mergePermissions perms other :=
  (mergePermissions_eq_self_iff _ _).2
    (fun p hp => (mem_mergePermissions perms other p).2
      (Or.inl ((mergePermissions_eq_self_iff perms newPerms).1 h p hp)))

theorem foldl_mergeFile_twice (s l : List File) :
    s.foldl mergeFile (s.foldl mergeFile l) = s.foldl mergeFile l := by
  rw [mergeFile_eq_mergeKeyed]
  apply foldl_mergeKeyed_twice
  · intro x n; rfl
  · intro n
    obtain ⟨path, owner, old, perms⟩ := n
    simp only [updFile, mergePermissions_self, File.mk.injEq, true_and, and_true]
    by_cases h : old = "" <;> simp [h]
  · intro x n
    obtain ⟨path, owner, old, perms⟩ := x
    simp only [updFile, mergePermissions_again, File.mk.injEq, true_and, and_true]
    by_cases h : old = "" <;> by_cases h' : n.OldPath = "" <;> simp [h, h']
  · intro x n y h
    obtain ⟨path, owner, old, perms⟩ := x
    simp only [updFile, File.mk.injEq, true_and] at h
    simp only [updFile, mergePermissions_absorbs_mono _ _ _ h.2, File.mk.injEq, true_and,
      and_true]
    have h₁ := h.1
    by_cases ho : old = "" <;> by_cases hn : n.OldPath = "" <;> by_cases hy : y.OldPath = "" <;>
      simp [ho, hn, hy] at h₁ ⊢

theorem foldl_mergePtrace_twice (s l : List Ptrace) :
    s.foldl mergePtrace (s.foldl mergePtrace l) = s.foldl mergePtrace l := by
  rw [mergePtrace_eq_mergeKeyed]
  apply foldl_mergeKeyed_twice
  · intro x n; rfl
  · intro n
    simp only [updPtrace, mergePermissions_self]
  · intro x n
    simp only [updPtrace, mergePermissions_again]
  · intro x n y h
    obtain ⟨perms, peer⟩ := x
    simp only [updPtrace, Ptrace.mk.injEq, and_true] at h
    simp only [updPtrace, mergePermissions_absorbs_mono _ _ _ h]

theorem foldl_mergeSignal_twice (s l : List Signal) :
    s.foldl mergeSignal (s.foldl mergeSignal l) = s.foldl mergeSignal l := by
  rw [mergeSignal_eq_mergeKeyed]
  apply foldl_mergeKeyed_twice
  · intro x n; rfl
  · intro n
    simp only [updSignal, mergePermissions_self]
  · intro x n
    simp only [updSignal, mergePermissions_again]
  · intro x n y h
    obtain ⟨perms, signals, peer⟩ := x
    simp only [updSignal, Signal.mk.injEq, and_true] at h
    simp only [updSignal, mergePermissions_absorbs_mono _ _ _ h.1,
      mergePermissions_absorbs_mono _ _ _ h.2]

theorem foldl_mergeString_twice (s l : List String) :
    s.foldl mergeString (s.foldl mergeString l) = s.foldl mergeString l := by
  rw [mergeString_eq_mergeKeyed]
  exact foldl_mergeKeyed_twice id (fun x _ => x) (fun _ _ => rfl) (fun _ => rfl)
    (fun _ _ => rfl) (fun _ _ _ _ => rfl) s l

theorem foldl_mergeNetwork_twice (s l : List Network) :
    s.foldl mergeNetwork (s.foldl mergeNetwork l) = s.foldl mergeNetwork l := by
  rw [mergeNetwork_eq_mergeKeyed]
  exact foldl_mergeKeyed_twice id (fun x _ => x) (fun _ _ => rfl) (fun _ => rfl)
    (fun _ _ => rfl) (fun _ _ _ _ => rfl) s l

theorem mergeAppArmor_twice (acc appArmor : AppArmor) :
    mergeAppArmor (mergeAppArmor acc appArmor) appArmor = mergeAppArmor acc appArmor := by
  simp only [mergeAppArmor, foldl_mergeString_twice, foldl_mergeFile_twice,
    foldl_mergeNetwork_twice, foldl_mergePtrace_twice, foldl_mergeSignal_twice]

/-- C28: merging the same shard twice is the same as merging it once: for every
accumulated model and every shard, nil or not, a second `MergeAppArmorResult` of
the AppArmor part leaves the model that the first one gave, a second
`MergeSeccompResult` of the Seccomp part leaves the model that the first one
gave, and so does a second merge of both parts of the report of a node. -/
theorem merge_same_shard_twice (apm : ArmorProfileModel) (appArmor : Option AppArmor)
    (seccomp : Option Seccomp) (shard : DynamicResult) :
    MergeAppArmorResult (MergeAppArmorResult apm appArmor) appArmor
        = MergeAppArmorResult apm appArmor
      ∧ MergeSeccompResult (MergeSeccompResult apm seccomp) seccomp
        = MergeSeccompResult apm seccomp
      ∧ mergeShard (mergeShard apm shard) shard = mergeShard apm shard := by
  refine ⟨?_, ?_, ?_⟩
  · cases appArmor with
    | none => rfl
    | some a => simp only [MergeAppArmorResult, Option.getD_some, mergeAppArmor_twice]
  · cases seccomp with
    | none => rfl
    | some sc => simp only [MergeSeccompResult, Option.getD_some, foldl_mergeString_twice]
  · obtain ⟨a, sc⟩ := shard
    cases a with
    | none =>
      cases sc with
      | none => rfl
      | some sc =>
        simp only [mergeShard, MergeAppArmorResult, MergeSeccompResult, Option.getD_some,
          foldl_mergeString_twice]
    | some a =>
      cases sc with
      | none =>
        simp only [mergeShard, MergeAppArmorResult, MergeSeccompResult, Option.getD_some,
          mergeAppArmor_twice]
      | some sc =>
        simp only [mergeShard, MergeAppArmorResult, MergeSeccompResult, Option.getD_some,
          mergeAppArmor_twice, foldl_mergeString_twice]

/-- C28, at a concrete input: the report `hostsShard` with a repeated permission,
merged into the empty model, gives the same model when it is merged again. -/
theorem merge_same_shard_twice_witness :
    mergeShard emptyModel (hostsShard "/etc/hosts.old" ["r", "w", "r"])
      = { DynamicResult :=
            { AppArmor :=
                some { emptyAppArmor with
                       Profiles := ["p"]
                       Files := [{ Path := "/etc/hosts", Owner := false,
                                   OldPath := "/etc/hosts.old", Permissions := ["r", "w", "r"] }] }
              Seccomp := some { Syscalls := ["read"] } } }
    ∧ mergeShard (mergeShard emptyModel (hostsShard "/etc/hosts.old" ["r", "w", "r"]))
        (hostsShard "/etc/hosts.old" ["r", "w", "r"])
      = mergeShard emptyModel (hostsShard "/etc/hosts.old" ["r", "w", "r"]) :=
  ⟨by decide,
   (merge_same_shard_twice emptyModel none none (hostsShard "/etc/hosts.old" ["r", "w", "r"])).2.2⟩

/-! ## Properties of the counters of the policy statuses -/

theorem mapSet_of_mapGet_none {β : Type} (m : List (String × β)) (k : String) (v : β)
    (h : mapGet m k = none) : mapSet m k v = m ++ [(k, v)] := by
  induction m with
  | nil => rfl
  | cons e rest ih =>
    obtain ⟨k₀, v₀⟩ := e
    by_cases h₀ : k₀ = k
    · simp [mapGet, h₀] at h
    · have hr : mapGet rest k = none := by simpa [mapGet, h₀] using h
      simp [mapSet, h₀, ih hr]

theorem mem_mapSet {β : Type} (m : List (String × β)) (k : String) (v : β)
    (e : String × β) (he : e ∈ mapSet m k v) : e ∈ m ∨ e = (k, v) := by
  induction m with
  | nil =>
    right
    simpa [mapSet] using he
  | cons x rest ih =>
    obtain ⟨k₀, v₀⟩ := x
    by_cases h₀ : k₀ = k
    · simp only [mapSet, h₀, if_true, List.mem_cons] at he
      rcases he with he | he
      · exact Or.inr he
      · exact Or.inl (List.mem_cons_of_mem _ he)
    · simp only [mapSet, h₀, if_false, List.mem_cons] at he
      rcases he with he | he
      · exact Or.inl (he ▸ List.mem_cons_self _ _)
      · rcases ih he with h | h
        · exact Or.inl (List.mem_cons_of_mem _ h)
        · exact Or.inr h

/-- The loop of `rebuildPolicyStatuses` over the conditions: each condition of a
node of `nodes` is counted as a failure, and when these conditions name distinct
nodes that have no message yet, each adds one message. -/
theorem conditions_fold_counts (nodes : List String) :
    ∀ (conditions : List ArmorProfileCondition) (ps : PolicyStatus),
      ((conditions.filter (fun c => InStringArray c.NodeName nodes)).map
          (fun c => c.NodeName)).Nodup →
      (∀ c ∈ conditions, InStringArray c.NodeName nodes = true →
          mapGet ps.NodeMessages c.NodeName = none) →
      conditions.foldl
          (fun (policyStatus : PolicyStatus) condition =>
            if InStringArray condition.NodeName nodes then
              { policyStatus with
                FailedNumber := policyStatus.FailedNumber + 1
                NodeMessages :=
                  mapSet policyStatus.NodeMessages condition.NodeName condition.Message }
            else policyStatus)
          ps
        = { SuccessedNumber := ps.SuccessedNumber
            FailedNumber :=
              ps.FailedNumber
                + ((conditions.filter (fun c => InStringArray c.NodeName nodes)).length : Nat)
            NodeMessages :=
              ps.NodeMessages
                ++ (conditions.filter (fun c => InStringArray c.NodeName nodes)).map
                    (fun c => (c.NodeName, c.Message)) } := by
  intro conditions
  induction conditions with
  | nil => intro ps _ _; simp
  | cons c rest ih =>
    intro ps hnd hnone
    rw [List.foldl_cons]
    by_cases ho : InStringArray c.NodeName nodes = true
    · simp only [ho, if_true, List.filter_cons_of_pos, List.map_cons, List.nodup_cons,
        List.length_cons] at hnd ⊢
      have hc := hnone c (List.mem_cons_self _ _) ho
      rw [ih _ hnd.2]
      · simp only [mapSet_of_mapGet_none _ _ _ hc, List.append_assoc, List.singleton_append,
          PolicyStatus.mk.injEq, true_and, and_true]
        push_cast
        ring
      · intro c' hc' ho'
        have hne : c.NodeName ≠ c'.NodeName := by
          intro heq
          apply hnd.1
          rw [heq]
          have hmem : c' ∈ rest.filter (fun c => InStringArray c.NodeName nodes) :=
            List.mem_filter.2 ⟨hc', ho'⟩
          exact List.mem_map_of_mem (fun c => c.NodeName) hmem
        show mapGet (mapSet ps.NodeMessages c.NodeName c.Message) c'.NodeName = none
        rw [mapGet_mapSet, if_neg hne]
        exact hnone c' (List.mem_cons_of_mem _ hc') ho'
    · have ho' : InStringArray c.NodeName nodes = false := by simpa using ho
      simp only [ho', Bool.false_eq_true, if_false, List.filter_cons, hnd] at hnd ⊢
      exact ih ps hnd (fun c' hc' => hnone c' (List.mem_cons_of_mem _ hc'))

/-- The loop of `rebuildPolicyStatuses` over the nodes keeps the agreement of the
counters with the node messages. -/
theorem nodes_fold_countersMatch :
    ∀ (nodes : List String) (ps : PolicyStatus), countersMatch ps →
      countersMatch
        (nodes.foldl
          (fun (policyStatus : PolicyStatus) node =>
            if (mapGet policyStatus.NodeMessages node).isNone then
              { policyStatus with
                SuccessedNumber := policyStatus.SuccessedNumber + 1
                NodeMessages := mapSet policyStatus.NodeMessages node ArmorProfileReady }
            else policyStatus)
          ps) := by
  intro nodes
  induction nodes with
  | nil => intro ps h; exact h
  | cons node rest ih =>
    intro ps h
    rw [List.foldl_cons]
    apply ih
    by_cases hn : mapGet ps.NodeMessages node = none
    · simp only [hn, Option.isNone_none, if_true, countersMatch,
        mapSet_of_mapGet_none _ _ _ hn, List.countP_append, List.countP_singleton, beq_self_eq_true,
        if_true, Bool.not_true, Bool.false_eq_true, if_false]
      refine ⟨?_, ?_⟩
      · rw [h.1]
        push_cast
        ring
      · rw [h.2]
        simp
    · have hs : (mapGet ps.NodeMessages node).isNone = false := by
        cases hg : mapGet ps.NodeMessages node with
        | none => exact absurd hg hn
        | some v => rfl
      simp only [hs, Bool.false_eq_true, if_false]
      exact h

theorem rebuildPolicyStatus_countersMatch (nodes : List String)
    (conditions : List ArmorProfileCondition) (h : failuresOfDistinctNodes nodes conditions) :
    countersMatch (rebuildPolicyStatus nodes conditions) := by
  unfold rebuildPolicyStatus
  apply nodes_fold_countersMatch
  rw [conditions_fold_counts nodes conditions
    { SuccessedNumber := 0, FailedNumber := 0, NodeMessages := [] } h.1 (fun _ _ _ => rfl)]
  have hready : ∀ l : List ArmorProfileCondition,
      (∀ c ∈ l, c.Message ≠ ArmorProfileReady) →
      (l.map (fun c => (c.NodeName, c.Message))).countP
          (fun entry => entry.2 == ArmorProfileReady) = 0
      ∧ (l.map (fun c => (c.NodeName, c.Message))).countP
          (fun entry => !(entry.2 == ArmorProfileReady)) = l.length := by
    intro l
    induction l with
    | nil => intro _; simp
    | cons c l ih =>
      intro hl
      have hc := hl c (List.mem_cons_self _ _)
      have hrest := ih (fun c' hc' => hl c' (List.mem_cons_of_mem _ hc'))
      simp [List.countP_cons, hc, hrest.1, hrest.2]
  have hr := hready (conditions.filter (fun c => InStringArray c.NodeName nodes))
    (fun c hc => h.2 c (List.mem_filter.1 hc).1 (List.mem_filter.1 hc).2)
  simp only [countersMatch, List.nil_append, hr.1, hr.2]
  simp

theorem refresh_fold_counters (nodes : List String) :
    ∀ (es : List (String × String)) (ps : PolicyStatus),
      (es.foldl
          (fun (policyStatus : PolicyStatus) entry =>
            if InStringArray entry.1 nodes then
              if entry.2 = ArmorProfileReady then
                { policyStatus with SuccessedNumber := policyStatus.SuccessedNumber + 1 }
              else { policyStatus with FailedNumber := policyStatus.FailedNumber + 1 }
            else { policyStatus with NodeMessages := mapDelete policyStatus.NodeMessages entry.1 })
          ps).SuccessedNumber
        = ps.SuccessedNumber
          + ((es.filter (fun e => InStringArray e.1 nodes)).countP
              (fun entry => entry.2 == ArmorProfileReady) : Nat)
      ∧ (es.foldl
          (fun (policyStatus : PolicyStatus) entry =>
            if InStringArray entry.1 nodes then
              if entry.2 = ArmorProfileReady then
                { policyStatus with SuccessedNumber := policyStatus.SuccessedNumber + 1 }
              else { policyStatus with FailedNumber := policyStatus.FailedNumber + 1 }
            else { policyStatus with NodeMessages := mapDelete policyStatus.NodeMessages entry.1 })
          ps).FailedNumber
        = ps.FailedNumber
          + ((es.filter (fun e => InStringArray e.1 nodes)).countP
              (fun entry => !(entry.2 == ArmorProfileReady)) : Nat) := by
  intro es
  induction es with
  | nil => intro ps; simp
  | cons x rest ih =>
    intro ps
    rw [List.foldl_cons]
    by_cases ho : InStringArray x.1 nodes = true
    · by_cases hr : x.2 = ArmorProfileReady
      · have h := ih { ps with SuccessedNumber := ps.SuccessedNumber + 1 }
        simp only [ho, hr, if_true, List.filter_cons_of_pos, List.countP_cons, beq_self_eq_true,
          Bool.not_true, Bool.false_eq_true, if_false, h.1, h.2]
        refine ⟨?_, ?_⟩
        · push_cast
          ring
        · simp
      · have h := ih { ps with FailedNumber := ps.FailedNumber + 1 }
        have hb : (x.2 == ArmorProfileReady) = false := by simpa using hr
        simp only [ho, hr, if_true, if_false, List.filter_cons_of_pos, List.countP_cons, hb,
          Bool.not_false, Bool.false_eq_true, h.1, h.2]
        refine ⟨?_, ?_⟩
        · simp
        · push_cast
          ring
    · have ho' : InStringArray x.1 nodes = false := by simpa using ho
      have h := ih { ps with NodeMessages := mapDelete ps.NodeMessages x.1 }
      simp only [ho', Bool.false_eq_true, if_false, List.filter_cons, h.1, h.2]
      exact ⟨trivial, trivial⟩

theorem refreshPolicyStatus_countersMatch (nodes : List String) (ps : PolicyStatus) :
    countersMatch (refreshPolicyStatus nodes ps) := by
  have hm := refreshPolicyStatus_NodeMessages nodes ps
  have hc := refresh_fold_counters nodes ps.NodeMessages
    { ps with FailedNumber := 0, SuccessedNumber := 0 }
  unfold countersMatch
  rw [hm]
  unfold refreshPolicyStatus
  rw [hc.1, hc.2]
  simp

theorem updateCRStatus_countersMatch (nodes : List String) (state : TickState)
    (entry : String × PolicyStatus) (h : allCountersMatch state.manager) :
    allCountersMatch (updateCRStatus nodes state entry).manager := by
  have hset : allCountersMatch
      { state.manager with
        PolicyStatuses :=
          mapSet state.manager.PolicyStatuses entry.1 (refreshPolicyStatus nodes entry.2) } := by
    intro e he
    rcases mem_mapSet _ _ _ e he with he | he
    · exact h e he
    · rw [he]
      exact refreshPolicyStatus_countersMatch nodes entry.2
  unfold updateCRStatus
  by_cases hb : state.blocked = true
  · rw [if_pos hb]
    exact h
  · rw [if_neg hb]
    by_cases hc : ((state.channel ++ state.arrivals.headD []).take UpdateStatusChCapacity).length
        < UpdateStatusChCapacity
    · simp only [hc, if_true]
      exact hset
    · simp only [hc, if_false]
      exact hset

theorem updateAll_fold_countersMatch (nodes : List String) :
    ∀ (entries : List (String × PolicyStatus)) (state : TickState),
      allCountersMatch state.manager →
      allCountersMatch (entries.foldl (updateCRStatus nodes) state).manager := by
  intro entries
  induction entries with
  | nil => intro state h; exact h
  | cons entry rest ih =>
    intro state h
    rw [List.foldl_cons]
    exact ih _ (updateCRStatus_countersMatch nodes state entry h)

theorem updateAllCRStatus_countersMatch (m : StatusManager) (channel : List String)
    (arrivals : List (List String)) (desiredResult : Except String Int)
    (nodesResult : Except String (List String)) (h : allCountersMatch m) :
    allCountersMatch
      (updateAllCRStatus m channel arrivals desiredResult nodesResult).manager := by
  unfold updateAllCRStatus
  by_cases hl : m.PolicyStatuses.length = 0
  · simp only [hl, if_true]
    exact h
  · simp only [hl, if_false]
    cases desiredResult with
    | error err => exact h
    | ok n =>
      have hd : allCountersMatch (retrieveDesiredNumber m (.ok n)).1 := by
        unfold retrieveDesiredNumber
        by_cases hdbg : m.debug = true
        · simp only [hdbg, if_true]
          exact h
        · simp only [hdbg, Bool.false_eq_true, if_false]
          exact h
      have hn : (retrieveDesiredNumber m (.ok n)).2 = none := (retrieveDesiredNumber_ok m n).1
      cases hr : retrieveDesiredNumber m (.ok n) with
      | mk m' err =>
        rw [hr] at hd hn
        simp only at hn
        subst hn
        cases nodesResult with
        | error err => exact hd
        | ok nodes => exact updateAll_fold_countersMatch nodes _ _ hd

theorem reset_entry_countersMatch (m : StatusManager) (statusKey : String) (ps : PolicyStatus)
    (h : allCountersMatch m) :
    allCountersMatch
      { m with
        PolicyStatuses :=
          mapSet m.PolicyStatuses statusKey
            { ps with SuccessedNumber := 0, FailedNumber := 0, NodeMessages := [] } } := by
  intro e he
  rcases mem_mapSet _ _ _ e he with he | he
  · exact h e he
  · rw [he]
    exact ⟨rfl, rfl⟩

theorem handleReset_countersMatch (m : StatusManager) (statusKey : String)
    (h : allCountersMatch m) : allCountersMatch (handleReset m statusKey) := by
  unfold handleReset
  cases hp : mapGet m.PolicyStatuses statusKey with
  | none =>
    cases hm : mapGet m.ModelingStatuses statusKey with
    | none => simpa [hm] using h
    | some ms => simpa [hm] using h
  | some ps =>
    have h' := reset_entry_countersMatch m statusKey ps h
    cases hm : mapGet m.ModelingStatuses statusKey with
    | none => simpa [hm] using h'
    | some ms => simpa [hm] using h'

theorem handleUpdateMode_countersMatch (g : Generators) (managerNamespace : String)
    (m : StatusManager) (statusKey : String) (r : ClusterReads) (h : allCountersMatch m) :
    allCountersMatch (handleUpdateMode g managerNamespace m statusKey r).manager := by
  have hreset : allCountersMatch
      (match mapGet m.PolicyStatuses statusKey with
        | some policyStatus =>
          { m with
            PolicyStatuses :=
              mapSet m.PolicyStatuses statusKey
                { policyStatus with FailedNumber := 0, SuccessedNumber := 0, NodeMessages := [] } }
        | none => m) := by
    cases hp : mapGet m.PolicyStatuses statusKey with
    | none => exact h
    | some ps => exact reset_entry_countersMatch m statusKey ps h
  unfold handleUpdateMode
  cases hk : SplitMetaNamespaceKey statusKey with
  | error err => exact h
  | ok parts =>
    obtain ⟨ns, vpName⟩ := parts
    simp only
    cases hvp : r.varmorPolicy ns vpName with
    | error err => exact hreset
    | ok vp =>
      simp only
      cases hap : r.armorProfile ns (GenerateArmorProfileName managerNamespace ns vpName false) with
      | error err => exact hreset
      | ok ap =>
        simp only
        cases hg : GenerateProfile g vp.Spec.Policy ap.Name ap.Namespace true with
        | error err => exact hreset
        | ok profile => exact hreset

theorem rebuild_profiles_fold_countersMatch (key : ArmorProfile → Except String String)
    (nodes : List String) :
    ∀ (apItems : List ArmorProfile) (m : StatusManager),
      allCountersMatch m →
      (∀ ap ∈ apItems, failuresOfDistinctNodes nodes ap.Status.Conditions) →
      allCountersMatch
        (apItems.foldl
          (fun (m : StatusManager) ap =>
            match key ap with
            | .error _ => m
            | .ok statusKey =>
              { m with
                PolicyStatuses :=
                  mapSet m.PolicyStatuses statusKey
                    (rebuildPolicyStatus nodes ap.Status.Conditions) })
          m) := by
  intro apItems
  induction apItems with
  | nil => intro m h _; exact h
  | cons ap rest ih =>
    intro m h hap
    rw [List.foldl_cons]
    apply ih
    · cases hk : key ap with
      | error err => exact h
      | ok statusKey =>
        intro e he
        rcases mem_mapSet _ _ _ e he with he | he
        · exact h e he
        · rw [he]
          exact rebuildPolicyStatus_countersMatch nodes _ (hap ap (List.mem_cons_self _ _))
    · exact fun ap' hap' => hap ap' (List.mem_cons_of_mem _ hap')

theorem rebuild_namespaces_fold_countersMatch (key : ArmorProfile → Except String String)
    (nodes : List String) (apLists : String → Except String (List ArmorProfile)) :
    ∀ (nsItems : List String) (m : StatusManager),
      allCountersMatch m →
      (∀ ap ∈ listedArmorProfiles nsItems apLists,
          failuresOfDistinctNodes nodes ap.Status.Conditions) →
      allCountersMatch
        (nsItems.foldl
          (fun (m : StatusManager) ns =>
            match apLists ns with
            | .error _ => m
            | .ok apItems =>
              apItems.foldl
                (fun (m : StatusManager) ap =>
                  match key ap with
                  | .error _ => m
                  | .ok statusKey =>
                    { m with
                      PolicyStatuses :=
                        mapSet m.PolicyStatuses statusKey
                          (rebuildPolicyStatus nodes ap.Status.Conditions) })
                m)
          m) := by
  intro nsItems
  induction nsItems with
  | nil => intro m h _; exact h
  | cons ns rest ih =>
    intro m h hap
    rw [List.foldl_cons]
    apply ih
    · cases hl : apLists ns with
      | error err => exact h
      | ok apItems =>
        apply rebuild_profiles_fold_countersMatch key nodes apItems m h
        intro ap hmem
        apply hap
        simp only [listedArmorProfiles, List.flatMap_cons, hl, List.mem_append]
        exact Or.inl hmem
    · intro ap hmem
      apply hap
      simp only [listedArmorProfiles, List.flatMap_cons, List.mem_append]
      exact Or.inr hmem

/-- C29, counterexample: from an ArmorProfile with two conditions of the node `n1`,
where the agent runs, `rebuildPolicyStatuses` produces an entry with one node
message and `FailedNumber` 2. -/
theorem rebuildPolicyStatuses_counts_conditions :
    (rebuildPolicyStatuses emptyManager demoStatusKey (.ok ["default"]) (.ok ["n1", "n2"])
        (fun _ => .ok [twiceReportedArmorProfile])).1.PolicyStatuses
      = [("default/varmor-default-demo",
          { SuccessedNumber := 1, FailedNumber := 2
            NodeMessages := [("n1", "load failed again"), ("n2", ArmorProfileReady)] })]
    ∧ ¬ allCountersMatch
        (rebuildPolicyStatuses emptyManager demoStatusKey (.ok ["default"]) (.ok ["n1", "n2"])
          (fun _ => .ok [twiceReportedArmorProfile])).1 :=
  ⟨by decide, fun h => absurd (h _ (List.mem_cons_self _ _)).2 (by decide)⟩

/-- C29, amended: when the counters of every entry of `PolicyStatuses` agree with
its node messages (`SuccessedNumber` is the number of the messages equal to
`ArmorProfileReady`, `FailedNumber` the number of the others, so their sum is the
number of the messages), they still do after `rebuildPolicyStatuses`, provided
that in every ArmorProfile that it visits the conditions of the nodes where the
agent runs name distinct nodes and none has the message `ArmorProfileReady`; and
they still do after the tick (`updateAllCRStatus`, in the state in which it
returns or is blocked), after `Reset` and after `UpdateMode`, whatever the cluster
answers. -/
theorem counters_match_node_messages (m : StatusManager) (h : allCountersMatch m) :
    (∀ (key : ArmorProfile → Except String String) (nsItems nodes : List String)
        (apLists : String → Except String (List ArmorProfile)),
        (∀ ap ∈ listedArmorProfiles nsItems apLists,
            failuresOfDistinctNodes nodes ap.Status.Conditions) →
        allCountersMatch (rebuildPolicyStatuses m key (.ok nsItems) (.ok nodes) apLists).1)
    ∧ (∀ (channel : List String) (arrivals : List (List String))
        (desiredResult : Except String Int) (nodesResult : Except String (List String)),
        allCountersMatch
          (updateAllCRStatus m channel arrivals desiredResult nodesResult).manager)
    ∧ (∀ statusKey, allCountersMatch (handleReset m statusKey))
    ∧ (∀ (g : Generators) (managerNamespace statusKey : String) (r : ClusterReads),
        allCountersMatch (handleUpdateMode g managerNamespace m statusKey r).manager)
    ∧ ∀ entry ∈ m.PolicyStatuses,
        entry.2.SuccessedNumber + entry.2.FailedNumber = entry.2.NodeMessages.length := by
  refine ⟨?_, ?_, ?_, ?_, ?_⟩
  · intro key nsItems nodes apLists hap
    exact rebuild_namespaces_fold_countersMatch key nodes apLists nsItems m h hap
  · exact fun channel arrivals desiredResult nodesResult =>
      updateAllCRStatus_countersMatch m channel arrivals desiredResult nodesResult h
  · exact fun statusKey => handleReset_countersMatch m statusKey h
  · exact fun g managerNamespace statusKey r =>
      handleUpdateMode_countersMatch g managerNamespace m statusKey r h
  · intro entry he
    have hc := h entry he
    rw [hc.1, hc.2]
    have hlen : ∀ l : List (String × String),
        l.countP (fun e => e.2 == ArmorProfileReady)
          + l.countP (fun e => !(e.2 == ArmorProfileReady)) = l.length := by
      intro l
      induction l with
      | nil => rfl
      | cons x l ih =>
        by_cases hx : (x.2 == ArmorProfileReady) = true
        · simp only [List.countP_cons, hx, if_true, Bool.not_true, Bool.false_eq_true, if_false,
            List.length_cons]
          omega
        · have hx' : (x.2 == ArmorProfileReady) = false := by simpa using hx
          simp only [List.countP_cons, hx', Bool.false_eq_true, if_false, Bool.not_false, if_true,
            List.length_cons]
          omega
    exact_mod_cast hlen entry.2.NodeMessages

/-- C29, amended, at a concrete input: the cache of `demoManager` has counters that
agree with the node messages; after the rebuild from `demoArmorProfile`, with the
agent on the nodes `n1` and `n2`, the sum of the counters of each entry is the
number of its node messages. -/
theorem counters_match_node_messages_witness :
    allCountersMatch demoManager
    ∧ allCountersMatch
        (rebuildPolicyStatuses demoManager demoStatusKey (.ok ["default"]) (.ok ["n1", "n2"])
          demoArmorProfileLists).1
    ∧ allCountersMatch (handleReset demoManager "default/demo") :=
  ⟨by decide,
   (counters_match_node_messages demoManager (by decide)).1 demoStatusKey ["default"]
      ["n1", "n2"] demoArmorProfileLists (by decide),
   (counters_match_node_messages demoManager (by decide)).2.2.1 "default/demo"⟩

end VArmor
